import Mathlib

/-!
# Scene octree, bounding volumes and frustum culling

A shallow embedding of the spatial-partitioning and culling code of the solar
simulation engine (`src/src/Engine/Scene.cpp`, `Model.cpp`, `Camera.cpp`,
`Renderer.cpp`) together with theorems about it.

Conventions of the embedding.

* The program's `float` is idealised as an arbitrary linearly ordered field `α`
  (exact arithmetic, no rounding, no overflow).  Code that calls `glm::length` or
  `glm::distance` additionally needs a square root on `α` (`HasSqrt`); theorems
  about such code are stated for `α = ℝ` with `Real.sqrt`.
* A `std::shared_ptr<Model>` is an address (`ModelPtr`); `std::find` compares
  addresses.  The pointee is read through a store `heap : ModelPtr → Model α`,
  which the `Scene` member functions never write.
* `glm::mat4` is column major: `m[c][r]` is component `r` of column `c`.
* Where the program divides by a length that can be zero, the `float` values that are
  not field elements (the two infinities and NaN) are made explicit by `FloatVal`.
-/

set_option linter.unusedSectionVars false

namespace SolarSim

/-- Square root on the scalar type, the operation behind `glm::length`. -/
class HasSqrt (α : Type) where
  /-- The square root function `std::sqrt`. -/
  sqrt : α → α

noncomputable instance instHasSqrtReal : HasSqrt ℝ := ⟨Real.sqrt⟩

/-- The vector type `glm::vec3`. -/
structure Vec3 (α : Type) where
  x : α
  y : α
  z : α
deriving DecidableEq, Repr

/-- The vector type `glm::vec4`. -/
structure Vec4 (α : Type) where
  x : α
  y : α
  z : α
  w : α
deriving DecidableEq, Repr

/-- The matrix type `glm::mat4`, stored by columns: `m[c]` is column `c`. -/
structure Mat4 (α : Type) where
  c0 : Vec4 α
  c1 : Vec4 α
  c2 : Vec4 α
  c3 : Vec4 α
deriving DecidableEq, Repr

variable {α : Type} [LinearOrderedField α]

namespace Vec3

/-- The constructor `glm::vec3(s)` with all components equal. -/
def splat (s : α) : Vec3 α := ⟨s, s, s⟩

/-- Componentwise sum, `a + b`. -/
def add (a b : Vec3 α) : Vec3 α := ⟨a.x + b.x, a.y + b.y, a.z + b.z⟩

/-- Componentwise difference, `a - b`. -/
def sub (a b : Vec3 α) : Vec3 α := ⟨a.x - b.x, a.y - b.y, a.z - b.z⟩

/-- Scaling by a scalar, `a * s`. -/
def smul (a : Vec3 α) (s : α) : Vec3 α := ⟨a.x * s, a.y * s, a.z * s⟩

/-- The scalar product `glm::dot`. -/
def dot (a b : Vec3 α) : α := a.x * b.x + a.y * b.y + a.z * b.z

/-- Componentwise minimum, `glm::min`. -/
def min (a b : Vec3 α) : Vec3 α := ⟨Min.min a.x b.x, Min.min a.y b.y, Min.min a.z b.z⟩

/-- Componentwise maximum, `glm::max`. -/
def max (a b : Vec3 α) : Vec3 α := ⟨Max.max a.x b.x, Max.max a.y b.y, Max.max a.z b.z⟩

/-- Euclidean norm, `glm::length`. -/
def length [HasSqrt α] (a : Vec3 α) : α := HasSqrt.sqrt (dot a a)

/-- Euclidean distance, `glm::distance(a, b) = length(b - a)`. -/
def distance [HasSqrt α] (a b : Vec3 α) : α := length (sub b a)

end Vec3

namespace Vec4

/-- The truncating conversion `glm::vec3(v)` of a `vec4`. -/
def xyz (v : Vec4 α) : Vec3 α := ⟨v.x, v.y, v.z⟩

/-- The constructor `glm::vec4(v, w)`. -/
def ofVec3 (v : Vec3 α) (w : α) : Vec4 α := ⟨v.x, v.y, v.z, w⟩

/-- Componentwise sum. -/
def add (a b : Vec4 α) : Vec4 α := ⟨a.x + b.x, a.y + b.y, a.z + b.z, a.w + b.w⟩

/-- Scaling by a scalar. -/
def smul (a : Vec4 α) (s : α) : Vec4 α := ⟨a.x * s, a.y * s, a.z * s, a.w * s⟩

/-- Division of all four components by a scalar, `v /= s`. -/
def div (a : Vec4 α) (s : α) : Vec4 α := ⟨a.x / s, a.y / s, a.z / s, a.w / s⟩

end Vec4

namespace Mat4

/-- The identity matrix `glm::mat4(1.0f)`. -/
def identity : Mat4 α := ⟨⟨1, 0, 0, 0⟩, ⟨0, 1, 0, 0⟩, ⟨0, 0, 1, 0⟩, ⟨0, 0, 0, 1⟩⟩

/-- Matrix times column vector, `m * v`: the combination of the columns of `m`. -/
def mulVec (m : Mat4 α) (v : Vec4 α) : Vec4 α :=
  Vec4.add (Vec4.add (Vec4.add (m.c0.smul v.x) (m.c1.smul v.y)) (m.c2.smul v.z)) (m.c3.smul v.w)

end Mat4

/-- The largest finite `float`, `std::numeric_limits<float>::max()`. -/
def FLT_MAX : α := 340282346638528859811704183484516925440

/-- A mesh vertex; only `position` is read by the bounding-volume code. -/
structure Vertex (α : Type) where
  position : Vec3 α
deriving DecidableEq, Repr

/-- A mesh, reduced to what `Mesh::GetVertices` returns. -/
structure Mesh (α : Type) where
  vertices : List (Vertex α)
deriving DecidableEq, Repr

/-- The fields of `Model` that `Model.cpp` reads for positions and bounds. -/
structure Model (α : Type) where
  meshes : List (Mesh α)
  position : Vec3 α
  rotation : Vec3 α
  scale : Vec3 α
  transform : Mat4 α
deriving DecidableEq, Repr

namespace Model

/-- The accessor `Model::GetPosition`. -/
def GetPosition (m : Model α) : Vec3 α := m.position

/-- The world position `glm::vec3(transform * glm::vec4(vertex.position, 1.0f))`. -/
def worldPos (m : Model α) (v : Vertex α) : Vec3 α :=
  (m.transform.mulVec (Vec4.ofVec3 v.position 1)).xyz

/-- All vertices visited by the nested mesh / vertex loops, in loop order. -/
def allVertices (m : Model α) : List (Vertex α) :=
  m.meshes.flatMap (fun mesh => mesh.vertices)

/-- The function `Model::GetBoundingBoxMin` (Model.cpp 85-96). -/
def GetBoundingBoxMin (m : Model α) : Vec3 α :=
  if m.meshes.isEmpty then Vec3.splat 0
  else m.allVertices.foldl (fun acc v => Vec3.min acc (m.worldPos v)) (Vec3.splat FLT_MAX)

/-- The function `Model::GetBoundingBoxMax` (Model.cpp 98-109). -/
def GetBoundingBoxMax (m : Model α) : Vec3 α :=
  if m.meshes.isEmpty then Vec3.splat 0
  else m.allVertices.foldl (fun acc v => Vec3.max acc (m.worldPos v)) (Vec3.splat (-FLT_MAX))

/-- The function `Model::GetBoundingSphereRadius` (Model.cpp 111-117). -/
def GetBoundingSphereRadius [HasSqrt α] (m : Model α) : α :=
  let min := m.GetBoundingBoxMin
  let max := m.GetBoundingBoxMax
  let center := (Vec3.add min max).smul 0.5
  Vec3.length (Vec3.sub max center)

end Model

/-- The address held by a `std::shared_ptr<Model>`. -/
abbrev ModelPtr := Nat

/-- The address held by a `std::shared_ptr<Light>`. -/
abbrev LightPtr := Nat

/-- The address held by a `std::shared_ptr<Skybox>`. -/
abbrev SkyboxPtr := Nat

mutual
/-- The struct `Scene::OctreeNode` (Scene.h 52-58). -/
inductive OctreeNode (α : Type) where
  | mk (center : Vec3 α) (size : α) (models : List ModelPtr)
      (children : ChildArray α) (isLeaf : Bool) : OctreeNode α
/-- The slots of `std::array<std::unique_ptr<OctreeNode>, 8>`, first slot first:
`null` is an empty `unique_ptr`, `ptr` an owning one. -/
inductive ChildArray (α : Type) where
  | nil : ChildArray α
  | null (rest : ChildArray α) : ChildArray α
  | ptr (child : OctreeNode α) (rest : ChildArray α) : ChildArray α
end

namespace OctreeNode

/-- Field `center`. -/
def center : OctreeNode α → Vec3 α
  | .mk c _ _ _ _ => c

/-- Field `size`. -/
def size : OctreeNode α → α
  | .mk _ s _ _ _ => s

/-- Field `models`. -/
def models : OctreeNode α → List ModelPtr
  | .mk _ _ ms _ _ => ms

/-- Field `children`. -/
def children : OctreeNode α → ChildArray α
  | .mk _ _ _ cs _ => cs

/-- Field `isLeaf`. -/
def isLeaf : OctreeNode α → Bool
  | .mk _ _ _ _ l => l

end OctreeNode

namespace ChildArray

/-- Eight empty slots, the `children` member of a new node. -/
def empty8 : ChildArray α :=
  .null (.null (.null (.null (.null (.null (.null (.null .nil)))))))

/-- The pointer `children[i].get()`, `none` when the slot is empty. -/
def get? : ChildArray α → Nat → Option (OctreeNode α)
  | .nil, _ => none
  | .null _, 0 => none
  | .ptr c _, 0 => some c
  | .null rest, i + 1 => get? rest i
  | .ptr _ rest, i + 1 => get? rest i

/-- The statement `children[i]->models.push_back(model)`. -/
def pushModel : ChildArray α → Nat → ModelPtr → ChildArray α
  | .nil, _, _ => .nil
  | .null rest, 0, _ => .null rest
  | .ptr (.mk c s ms cs l) rest, 0, m => .ptr (.mk c s (ms ++ [m]) cs l) rest
  | .null rest, i + 1, m => .null (pushModel rest i m)
  | .ptr c rest, i + 1, m => .ptr c (pushModel rest i m)

end ChildArray

/-- The 3-bit child index of Scene.cpp 139-143 and 177-182, from
`direction = modelCenter - node->center`. -/
def childIndex (direction : Vec3 α) : Nat :=
  let i0 : Nat := 0
  let i1 := if direction.x > 0 then i0 ||| 1 else i0
  let i2 := if direction.y > 0 then i1 ||| 2 else i1
  if direction.z > 0 then i2 ||| 4 else i2

/-- Child `i` as built by one pass of the loop of Scene.cpp 158-172. -/
def makeChild (center : Vec3 α) (halfSize : α) (i : Nat) : OctreeNode α :=
  let offset : Vec3 α :=
    ⟨if i &&& 1 ≠ 0 then halfSize * 0.5 else -halfSize * 0.5,
     if i &&& 2 ≠ 0 then halfSize * 0.5 else -halfSize * 0.5,
     if i &&& 4 ≠ 0 then halfSize * 0.5 else -halfSize * 0.5⟩
  .mk (Vec3.add center offset) halfSize [] ChildArray.empty8 true

/-- The eight children created by the loop `for (int i = 0; i < 8; ++i)`. -/
def makeChildren (center : Vec3 α) (halfSize : α) : ChildArray α :=
  .ptr (makeChild center halfSize 0) (.ptr (makeChild center halfSize 1)
  (.ptr (makeChild center halfSize 2) (.ptr (makeChild center halfSize 3)
  (.ptr (makeChild center halfSize 4) (.ptr (makeChild center halfSize 5)
  (.ptr (makeChild center halfSize 6) (.ptr (makeChild center halfSize 7) .nil)))))))

/-- The scene state of `class Scene` (Scene.h 46-60); `octree` is the
`std::unique_ptr<OctreeNode>`, `none` when reset. -/
structure Scene (α : Type) where
  models : List ModelPtr
  lights : List LightPtr
  skybox : Option SkyboxPtr
  ambientLight : Vec3 α
  octree : Option (OctreeNode α)

namespace Scene

/-- The function `Scene::SplitOctreeNode` (Scene.cpp 151-189). -/
def SplitOctreeNode (heap : ModelPtr → Model α) : OctreeNode α → OctreeNode α
  | .mk center size models children isLeaf =>
    if !isLeaf then .mk center size models children isLeaf
    else
      let halfSize := size * 0.5
      let fresh := makeChildren center halfSize
      let filled := models.foldl
        (fun cs model =>
          cs.pushModel (childIndex (Vec3.sub (heap model).GetPosition center)) model)
        fresh
      .mk center size [] filled false

mutual
/-- The function `Scene::InsertModelInOctree` (Scene.cpp 117-149) on a non-null node. -/
def InsertModelInOctree [HasSqrt α] (heap : ModelPtr → Model α) (model : ModelPtr) :
    OctreeNode α → OctreeNode α
  | .mk center size models children isLeaf =>
    let modelCenter := (heap model).GetPosition
    let modelRadius := (heap model).GetBoundingSphereRadius
    if Vec3.distance modelCenter center + modelRadius > size * 0.5 then
      .mk center size models children isLeaf
    else if isLeaf then
      if (models ++ [model]).length > 8 ∧ size > 10 then
        SplitOctreeNode heap (.mk center size (models ++ [model]) children isLeaf)
      else .mk center size (models ++ [model]) children isLeaf
    else
      .mk center size models
        (insertInChild heap model (childIndex (Vec3.sub modelCenter center)) children) isLeaf
/-- The guarded call of Scene.cpp 145-147 on slot `i` of the child array:
nothing happens when the slot is empty. -/
def insertInChild [HasSqrt α] (heap : ModelPtr → Model α) (model : ModelPtr) :
    Nat → ChildArray α → ChildArray α
  | _, .nil => .nil
  | 0, .null rest => .null rest
  | 0, .ptr child rest => .ptr (InsertModelInOctree heap model child) rest
  | i + 1, .null rest => .null (insertInChild heap model i rest)
  | i + 1, .ptr child rest => .ptr child (insertInChild heap model i rest)
end

mutual
/-- The function `Scene::QueryOctree` (Scene.cpp 191-223) on a non-null node. -/
def QueryOctree [HasSqrt α] (heap : ModelPtr → Model α) (position : Vec3 α) (radius : α) :
    OctreeNode α → List ModelPtr
  | .mk center size models children isLeaf =>
    if Vec3.distance position center > radius + size * 0.5 then []
    else if isLeaf then
      models.filter (fun model =>
        decide (Vec3.distance position (heap model).GetPosition
          ≤ radius + (heap model).GetBoundingSphereRadius))
    else queryChildren heap position radius children
/-- The loop over `node->children` of Scene.cpp 214-219. -/
def queryChildren [HasSqrt α] (heap : ModelPtr → Model α) (position : Vec3 α) (radius : α) :
    ChildArray α → List ModelPtr
  | .nil => []
  | .null rest => queryChildren heap position radius rest
  | .ptr child rest =>
    QueryOctree heap position radius child ++ queryChildren heap position radius rest
end

/-- The root node built by the constructor and by `BuildOctree`. -/
def freshRoot : OctreeNode α :=
  .mk (Vec3.mk 0 0 0) 1000 [] ChildArray.empty8 true

/-- The constructor `Scene::Scene` (Scene.cpp 7-12). -/
def new : Scene α :=
  { models := [], lights := [], skybox := none,
    ambientLight := ⟨0.1, 0.1, 0.1⟩, octree := some freshRoot }

/-- The function `Scene::AddModel` (Scene.cpp 18-21). -/
def AddModel [HasSqrt α] (heap : ModelPtr → Model α) (s : Scene α) (model : ModelPtr) :
    Scene α :=
  { s with models := s.models ++ [model],
           octree := s.octree.map (InsertModelInOctree heap model) }

/-- The function `Scene::BuildOctree` (Scene.cpp 104-115). -/
def BuildOctree [HasSqrt α] (heap : ModelPtr → Model α) (s : Scene α) : Scene α :=
  let root := s.models.foldl (fun node model => InsertModelInOctree heap model node) freshRoot
  { s with octree := some root }

/-- The function `Scene::RemoveModel` (Scene.cpp 23-30). -/
def RemoveModel [HasSqrt α] (heap : ModelPtr → Model α) (s : Scene α) (model : ModelPtr) :
    Scene α :=
  if model ∈ s.models then BuildOctree heap { s with models := s.models.erase model }
  else s

/-- The function `Scene::AddLight` (Scene.cpp 32-34). -/
def AddLight (s : Scene α) (light : LightPtr) : Scene α :=
  { s with lights := s.lights ++ [light] }

/-- The function `Scene::RemoveLight` (Scene.cpp 36-41). -/
def RemoveLight (s : Scene α) (light : LightPtr) : Scene α :=
  if light ∈ s.lights then { s with lights := s.lights.erase light } else s

/-- The function `Scene::Clear` (Scene.cpp 97-102). -/
def Clear (s : Scene α) : Scene α :=
  { s with models := [], lights := [], skybox := none, octree := none }

/-- The accessor `Scene::GetModels`. -/
def GetModels (s : Scene α) : List ModelPtr := s.models

/-- The plane test in the inner loop of `GetModelsInFrustum` (Scene.cpp 61-62):
both box corners are strictly behind plane `p`. -/
def bothCornersBehind (p : Vec4 α) (min max : Vec3 α) : Bool :=
  decide (Vec3.dot p.xyz min + p.w < 0) && decide (Vec3.dot p.xyz max + p.w < 0)

/-- The function `Scene::GetModelsInFrustum` (Scene.cpp 51-74). -/
def GetModelsInFrustum (heap : ModelPtr → Model α) (s : Scene α)
    (frustumPlanes : Fin 6 → Vec4 α) : List ModelPtr :=
  s.models.filter (fun model =>
    let min := (heap model).GetBoundingBoxMin
    let max := (heap model).GetBoundingBoxMax
    (List.finRange 6).all (fun i => !bothCornersBehind (frustumPlanes i) min max))

/-- The function `Scene::GetModelsNear` (Scene.cpp 76-78); a null root gives the
empty vector (Scene.cpp 194). -/
def GetModelsNear [HasSqrt α] (heap : ModelPtr → Model α) (s : Scene α)
    (position : Vec3 α) (radius : α) : List ModelPtr :=
  match s.octree with
  | none => []
  | some node => QueryOctree heap position radius node

end Scene

/-- Modelled from the spec: the struct `Frustum` returned by `Camera::GetFrustum`
is declared in no source file; after the spec's `FrustumPlanes` it is an array of
exactly six planes `planes[i]`, a `vec4` holding normal `(x, y, z)` and distance
`w`, in the order left, right, bottom, top, near, far. -/
structure Frustum (α : Type) where
  planes : Fin 6 → Vec4 α

/-- The plane extraction shared by `Camera::GetFrustum` (Camera.cpp 196-230) and
`Renderer::UpdateFrustum` (Renderer.cpp 254-288): since `viewProjection[c][r]` is
component `r` of column `c`, plane 0 is row 3 plus row 0, and so on. -/
def extractPlanes (viewProjection : Mat4 α) : Fin 6 → Vec4 α
  | 0 => ⟨viewProjection.c0.w + viewProjection.c0.x, viewProjection.c1.w + viewProjection.c1.x,
          viewProjection.c2.w + viewProjection.c2.x, viewProjection.c3.w + viewProjection.c3.x⟩
  | 1 => ⟨viewProjection.c0.w - viewProjection.c0.x, viewProjection.c1.w - viewProjection.c1.x,
          viewProjection.c2.w - viewProjection.c2.x, viewProjection.c3.w - viewProjection.c3.x⟩
  | 2 => ⟨viewProjection.c0.w + viewProjection.c0.y, viewProjection.c1.w + viewProjection.c1.y,
          viewProjection.c2.w + viewProjection.c2.y, viewProjection.c3.w + viewProjection.c3.y⟩
  | 3 => ⟨viewProjection.c0.w - viewProjection.c0.y, viewProjection.c1.w - viewProjection.c1.y,
          viewProjection.c2.w - viewProjection.c2.y, viewProjection.c3.w - viewProjection.c3.y⟩
  | 4 => ⟨viewProjection.c0.w + viewProjection.c0.z, viewProjection.c1.w + viewProjection.c1.z,
          viewProjection.c2.w + viewProjection.c2.z, viewProjection.c3.w + viewProjection.c3.z⟩
  | 5 => ⟨viewProjection.c0.w - viewProjection.c0.z, viewProjection.c1.w - viewProjection.c1.z,
          viewProjection.c2.w - viewProjection.c2.z, viewProjection.c3.w - viewProjection.c3.z⟩

/-- The normalisation loop `planes[i] /= glm::length(glm::vec3(planes[i]))`
(Camera.cpp 232-236, Renderer.cpp 290-294) for planes whose normal has a non-zero
length.  A zero length is outside this embedding: the field convention `x / 0 = 0` is
not what the program computes.  The `float` values of the same quotients, for every
length, are given by `normalizePlaneFloat`, which agrees with this function whenever the
length is not zero. -/
def normalizePlanes [HasSqrt α] (planes : Fin 6 → Vec4 α) : Fin 6 → Vec4 α :=
  fun i => (planes i).div (Vec3.length (planes i).xyz)

/-- A value of the program's type `float` (IEEE 754): a finite number, one of the two
infinities, or not-a-number.  Finite values are idealised as elements of `α`, as
everywhere in this development; the three other values are what the program computes
where a field has no value, such as the quotient by a zero length. -/
inductive FloatVal (α : Type) where
  | finite (x : α)
  | posInf
  | negInf
  | nan
deriving DecidableEq, Repr

namespace FloatVal

/-- The `float` quotient `x / y` of two finite values whose divisor is not negative zero
(a `glm::length` is `sqrt` of a sum of squares, hence `+0` when it is zero): `0 / 0` is
NaN, a non-zero `x` over zero is the infinity with the sign of `x`. -/
def div (x y : α) : FloatVal α :=
  if y = 0 then
    if x = 0 then nan else if 0 < x then posInf else negInf
  else finite (x / y)

/-- The `float` product: NaN propagates, zero times an infinity is NaN, an infinity
times a non-zero value is the infinity with the product of the signs. -/
def mul : FloatVal α → FloatVal α → FloatVal α
  | nan, _ => nan
  | _, nan => nan
  | finite x, finite y => finite (x * y)
  | finite x, posInf => if x = 0 then nan else if 0 < x then posInf else negInf
  | finite x, negInf => if x = 0 then nan else if 0 < x then negInf else posInf
  | posInf, finite y => if y = 0 then nan else if 0 < y then posInf else negInf
  | negInf, finite y => if y = 0 then nan else if 0 < y then negInf else posInf
  | posInf, posInf => posInf
  | negInf, negInf => posInf
  | posInf, negInf => negInf
  | negInf, posInf => negInf

/-- The `float` sum: NaN propagates, the sum of the two opposite infinities is NaN, an
infinity absorbs every other value. -/
def add : FloatVal α → FloatVal α → FloatVal α
  | nan, _ => nan
  | _, nan => nan
  | finite x, finite y => finite (x + y)
  | posInf, negInf => nan
  | negInf, posInf => nan
  | posInf, _ => posInf
  | _, posInf => posInf
  | negInf, _ => negInf
  | _, negInf => negInf

/-- The `float` comparison `a < b`: false as soon as one side is NaN. -/
def lt : FloatVal α → FloatVal α → Bool
  | nan, _ => false
  | _, nan => false
  | finite x, finite y => decide (x < y)
  | _, negInf => false
  | negInf, _ => true
  | posInf, _ => false
  | finite _, posInf => true

/-- The `float` comparison `a >= b`: false as soon as one side is NaN. -/
def ge : FloatVal α → FloatVal α → Bool
  | nan, _ => false
  | _, nan => false
  | finite x, finite y => decide (x ≥ y)
  | posInf, _ => true
  | _, negInf => true
  | negInf, _ => false
  | finite _, posInf => false

end FloatVal

/-- A vector of finite components as a vector of `float` values. -/
def Vec4.toFloat (v : Vec4 α) : Vec4 (FloatVal α) :=
  ⟨.finite v.x, .finite v.y, .finite v.z, .finite v.w⟩

/-- The operation `glm::vec4 /= float` in `float` arithmetic: each component is divided by
the scalar. -/
def Vec4.divFloat (a : Vec4 α) (s : α) : Vec4 (FloatVal α) :=
  ⟨FloatVal.div a.x s, FloatVal.div a.y s, FloatVal.div a.z s, FloatVal.div a.w s⟩

/-- The loop body `float length = glm::length(glm::vec3(planes[i])); planes[i] /= length;`
(Camera.cpp 233-235, Renderer.cpp 291-293) with the `float` values of the quotients: the
program divides without looking at `length`.  For a non-zero length this is the plane of
`normalizePlanes`. -/
def normalizePlaneFloat [HasSqrt α] (plane : Vec4 α) : Vec4 (FloatVal α) :=
  plane.divFloat (Vec3.length plane.xyz)

/-- The expression `glm::dot(glm::vec3(plane), position) + plane.w` in `float`
arithmetic, for a plane of `float` values and a finite position. -/
def planeValueFloat (plane : Vec4 (FloatVal α)) (position : Vec3 α) : FloatVal α :=
  FloatVal.add
    (FloatVal.add
      (FloatVal.add (FloatVal.mul plane.x (.finite position.x))
        (FloatVal.mul plane.y (.finite position.y)))
      (FloatVal.mul plane.z (.finite position.z)))
    plane.w

/-- The test `dot(n, p) + d >= 0` of a point against a plane, in `float` arithmetic. -/
def insidePlaneFloat (plane : Vec4 (FloatVal α)) (point : Vec3 α) : Bool :=
  FloatVal.ge (planeValueFloat plane point) (.finite 0)

/-- The culling comparison `glm::dot(glm::vec3(plane), position) + plane.w < -radius` of
`Renderer::IsInFrustum` (Renderer.cpp 242) in `float` arithmetic; with `radius = 0` it is
the comparison of `Scene::GetModelsInFrustum` (Scene.cpp 61-62). -/
def behindPlaneFloat (plane : Vec4 (FloatVal α)) (position : Vec3 α) (radius : α) : Bool :=
  FloatVal.lt (planeValueFloat plane position) (.finite (-radius))

namespace Camera

/-- The function `Camera::GetFrustum` (Camera.cpp 190-239), as a function of
`viewProjection = GetProjectionMatrix() * GetViewMatrix()`. -/
def GetFrustum [HasSqrt α] (viewProjection : Mat4 α) : Frustum α :=
  ⟨normalizePlanes (extractPlanes viewProjection)⟩

end Camera

/-- The part of `class Renderer` used by frustum culling (Renderer.h 61). -/
structure Renderer (α : Type) where
  frustumPlanes : Fin 6 → Vec4 α

namespace Renderer

/-- The function `Renderer::IsInFrustum` (Renderer.cpp 239-247). -/
def IsInFrustum (r : Renderer α) (position : Vec3 α) (radius : α) : Bool :=
  (List.finRange 6).all (fun i =>
    !decide (Vec3.dot (r.frustumPlanes i).xyz position + (r.frustumPlanes i).w < -radius))

/-- The function `Renderer::UpdateFrustum` (Renderer.cpp 249-295), as a function of
`viewProjection = camera.GetProjectionMatrix() * camera.GetViewMatrix()`. -/
def UpdateFrustum [HasSqrt α] (_r : Renderer α) (viewProjection : Mat4 α) : Renderer α :=
  ⟨normalizePlanes (extractPlanes viewProjection)⟩

end Renderer

/-! ## Specification vocabulary -/

/-- The model passes the fit test of Scene.cpp 124 at a node with the given centre
and size: distance to the centre plus bounding radius is at most half the size. -/
def Fits [HasSqrt α] (heap : ModelPtr → Model α) (model : ModelPtr)
    (center : Vec3 α) (size : α) : Prop :=
  Vec3.distance (heap model).GetPosition center + (heap model).GetBoundingSphereRadius
    ≤ size * 0.5

/-- The model fits every node on its descent path: it fits the node and, when the node
is interior, the slot selected by the child index holds a child in which this holds
again. -/
inductive PathFit [HasSqrt α] (heap : ModelPtr → Model α) (model : ModelPtr) :
    OctreeNode α → Prop where
  | leaf {center size models children} (hfit : Fits heap model center size) :
      PathFit heap model (.mk center size models children true)
  | inner {center size models children child} (hfit : Fits heap model center size)
      (hget : children.get? (childIndex (Vec3.sub (heap model).GetPosition center))
        = some child)
      (hrec : PathFit heap model child) :
      PathFit heap model (.mk center size models children false)

/-- The model is stored in the leaf at the end of its descent path. -/
inductive OnPath (heap : ModelPtr → Model α) (model : ModelPtr) :
    OctreeNode α → Prop where
  | leaf {center size models children} (hmem : model ∈ models) :
      OnPath heap model (.mk center size models children true)
  | inner {center size models children child}
      (hget : children.get? (childIndex (Vec3.sub (heap model).GetPosition center))
        = some child)
      (hrec : OnPath heap model child) :
      OnPath heap model (.mk center size models children false)

mutual
/-- Every model pointer held in the `models` vector of some node of the tree. -/
def OctreeNode.allModels : OctreeNode α → List ModelPtr
  | .mk _ _ models children _ => models ++ ChildArray.allModels children
/-- Every model pointer held by some node below one of the slots. -/
def ChildArray.allModels : ChildArray α → List ModelPtr
  | .nil => []
  | .null rest => ChildArray.allModels rest
  | .ptr child rest => OctreeNode.allModels child ++ ChildArray.allModels rest
end

/-- The scene reached from a freshly constructed one by `AddModel` calls, in order. -/
def Scene.addModels [HasSqrt α] (heap : ModelPtr → Model α) (ms : List ModelPtr) : Scene α :=
  ms.foldl (Scene.AddModel heap) Scene.new

/-- A point lies on the inner side of a plane: `dot(normal, point) + distance >= 0`. -/
def insidePlane (p : Vec4 α) (point : Vec3 α) : Prop :=
  0 ≤ Vec3.dot p.xyz point + p.w

/-- A point lies in the axis-aligned box with corners `lo` and `hi`. -/
def inBox (lo hi point : Vec3 α) : Prop :=
  lo.x ≤ point.x ∧ point.x ≤ hi.x ∧ lo.y ≤ point.y ∧ point.y ≤ hi.y ∧
    lo.z ≤ point.z ∧ point.z ≤ hi.z

/-- The clip coordinates `(x, y, z, w) = M * (p, 1)` of a point. -/
def clipCoords (viewProjection : Mat4 α) (p : Vec3 α) : Vec4 α :=
  viewProjection.mulVec (Vec4.ofVec3 p 1)

/-- The clip-space test of a point: its clip coordinates satisfy `-w <= x <= w`,
`-w <= y <= w` and `-w <= z <= w`. -/
def inClipVolume (viewProjection : Mat4 α) (p : Vec3 α) : Prop :=
  (-(clipCoords viewProjection p).w ≤ (clipCoords viewProjection p).x ∧
    (clipCoords viewProjection p).x ≤ (clipCoords viewProjection p).w) ∧
  (-(clipCoords viewProjection p).w ≤ (clipCoords viewProjection p).y ∧
    (clipCoords viewProjection p).y ≤ (clipCoords viewProjection p).w) ∧
  (-(clipCoords viewProjection p).w ≤ (clipCoords viewProjection p).z ∧
    (clipCoords viewProjection p).z ≤ (clipCoords viewProjection p).w)

mutual
/-- Every node of the tree, the root first. -/
def OctreeNode.nodes : OctreeNode α → List (OctreeNode α)
  | .mk center size models children isLeaf =>
    .mk center size models children isLeaf :: ChildArray.nodes children
/-- Every node below one of the slots. -/
def ChildArray.nodes : ChildArray α → List (OctreeNode α)
  | .nil => []
  | .null rest => ChildArray.nodes rest
  | .ptr child rest => OctreeNode.nodes child ++ ChildArray.nodes rest
end

/-- An interior node holds no model of its own and has all eight children. -/
def InteriorOk (node : OctreeNode α) : Prop :=
  node.isLeaf = false →
    node.models = [] ∧ ∀ i, i < 8 → ∃ child, node.children.get? i = some child

/-- The subtree is sized by depth: a node at depth `d` has size `1000 / 2^d` with
`d <= 7`, and the children in its slots are at depth `d + 1`. -/
inductive SizeAt : Nat → OctreeNode α → Prop where
  | node {d center size models children isLeaf} (hsize : size = 1000 / 2 ^ d) (hd : d ≤ 7)
      (hchildren : ∀ i child, children.get? i = some child → SizeAt (d + 1) child) :
      SizeAt d (.mk center size models children isLeaf)

/-- A call of one of the mutating member functions of `Scene`. -/
inductive SceneOp where
  | addModel (model : ModelPtr) : SceneOp
  | removeModel (model : ModelPtr) : SceneOp
  | clear : SceneOp
deriving DecidableEq, Repr

/-- The scene after one call. -/
def Scene.step [HasSqrt α] (heap : ModelPtr → Model α) (s : Scene α) : SceneOp → Scene α
  | .addModel model => s.AddModel heap model
  | .removeModel model => s.RemoveModel heap model
  | .clear => s.Clear

/-- The scene reached from a freshly constructed one by a sequence of calls, in order;
the store of models is not written in between. -/
def Scene.run [HasSqrt α] (heap : ModelPtr → Model α) (ops : List SceneOp) : Scene α :=
  ops.foldl (Scene.step heap) Scene.new

/-- The sequence contains no call of `Clear`. -/
def noClear (ops : List SceneOp) : Prop :=
  ∀ op ∈ ops, op ≠ SceneOp.clear

instance instDecidableNoClear (ops : List SceneOp) : Decidable (noClear ops) :=
  inferInstanceAs (Decidable (∀ op ∈ ops, op ≠ SceneOp.clear))

/-! ## Concrete models, scenes and frusta -/

/-- The matrix `glm::translate(glm::mat4(1.0f), p)`. -/
def Mat4.translation (p : Vec3 α) : Mat4 α :=
  ⟨⟨1, 0, 0, 0⟩, ⟨0, 1, 0, 0⟩, ⟨0, 0, 1, 0⟩, ⟨p.x, p.y, p.z, 1⟩⟩

/-- A model without meshes after `Model()` and `SetPosition(p)`: rotation zero, scale
one, so `UpdateTransform` leaves the translation by `p`. -/
def pointModel (p : Vec3 α) : Model α :=
  { meshes := [], position := p, rotation := ⟨0, 0, 0⟩, scale := ⟨1, 1, 1⟩,
    transform := Mat4.translation p }

/-- A model after `Model()`, `AddMesh` of a mesh with the two vertices `(-1, 0, 0)` and
`(1, 0, 0)`, and `SetPosition(p)`. -/
def segmentModel (p : Vec3 α) : Model α :=
  { meshes := [⟨[⟨⟨-1, 0, 0⟩⟩, ⟨⟨1, 0, 0⟩⟩]⟩], position := p, rotation := ⟨0, 0, 0⟩,
    scale := ⟨1, 1, 1⟩, transform := Mat4.translation p }

/-- A model after `Model()` and `AddMesh` of the triangle `(0,0,0)`, `(1,0,0)`,
`(1,1,0)`; the transform is the identity. -/
def triangleModel : Model α :=
  { meshes := [⟨[⟨⟨0, 0, 0⟩⟩, ⟨⟨1, 0, 0⟩⟩, ⟨⟨1, 1, 0⟩⟩]⟩], position := ⟨0, 0, 0⟩,
    rotation := ⟨0, 0, 0⟩, scale := ⟨1, 1, 1⟩, transform := Mat4.identity }

/-- The six inward unit planes of the cube `[-h, h]^3`, in the order left, right,
bottom, top, near, far. -/
def cubePlanes (h : α) : Fin 6 → Vec4 α
  | 0 => ⟨1, 0, 0, h⟩
  | 1 => ⟨-1, 0, 0, h⟩
  | 2 => ⟨0, 1, 0, h⟩
  | 3 => ⟨0, -1, 0, h⟩
  | 4 => ⟨0, 0, 1, h⟩
  | 5 => ⟨0, 0, -1, h⟩

/-- The cube `[-100, 100]^3` with its left plane replaced by the slanted plane
`x - y - 1/2 >= 0`. -/
def slantedPlanes : Fin 6 → Vec4 α
  | 0 => ⟨1, -1, 0, -1 / 2⟩
  | 1 => ⟨-1, 0, 0, 100⟩
  | 2 => ⟨0, 1, 0, 100⟩
  | 3 => ⟨0, -1, 0, 100⟩
  | 4 => ⟨0, 0, 1, 100⟩
  | 5 => ⟨0, 0, -1, 100⟩

/-- A store in which every address holds a mesh-less model at the origin. -/
def originHeap : ModelPtr → Model α := fun _ => pointModel ⟨0, 0, 0⟩

/-- A store in which every address holds the segment model at `(250, 250, 250)`. -/
def octantHeap : ModelPtr → Model α := fun _ => segmentModel ⟨250, 250, 250⟩

/-- A store in which every address holds the segment model at `(400, 400, 400)`. -/
def cornerHeap : ModelPtr → Model α := fun _ => segmentModel ⟨400, 400, 400⟩

/-- A store in which every address holds the triangle model. -/
def triangleHeap : ModelPtr → Model α := fun _ => triangleModel

/-- A store holding the segment model at `(250, 250, 250)` at every address except
address 9, which holds a mesh-less model at the origin. -/
def mixedHeap : ModelPtr → Model α := fun a =>
  if a = 9 then pointModel ⟨0, 0, 0⟩ else segmentModel ⟨250, 250, 250⟩

/-- A model after `Model()` and `AddMesh` of a mesh without vertices. -/
def emptyMeshModel : Model α :=
  { meshes := [⟨[]⟩], position := ⟨0, 0, 0⟩, rotation := ⟨0, 0, 0⟩, scale := ⟨1, 1, 1⟩,
    transform := Mat4.identity }

/-- A view-projection matrix that maps every point to clip coordinate `x = 0`: the
identity with its first diagonal entry replaced by zero. -/
def flatMatrix : Mat4 α :=
  ⟨⟨0, 0, 0, 0⟩, ⟨0, 1, 0, 0⟩, ⟨0, 0, 1, 0⟩, ⟨0, 0, 0, 1⟩⟩

/-- A leaf of the size of a depth-6 node, `1000 / 2^6 = 15.625`, centred at the origin
and holding eight models. -/
def smallLeaf : OctreeNode α :=
  .mk ⟨0, 0, 0⟩ 15.625 [0, 1, 2, 3, 4, 5, 6, 7] ChildArray.empty8 true

/-! ## Building geometry -/

/-- The fields of `Building` that `GenerateGeometry` reads (Building.h 61-64). -/
structure Building (α : Type) where
  size : Vec3 α
  height : α
  floorCount : Int

/-- The two vectors that `GenerateGeometry` fills: `vertices` and `indices`. -/
structure Geometry (α : Type) where
  vertices : List (Vertex α)
  indices : List Nat

namespace Building

/-- The function `Building::AddWindow` (Building.cpp 134-166): eight frame vertices with
twelve indices from `baseIndex = vertices.size()`, then four glass vertices with six
indices from `glassBaseIndex = vertices.size()`. The normal is not part of `Vertex`
here. -/
def AddWindow (g : Geometry α) (position : Vec3 α) (width height depth : α) : Geometry α :=
  let baseIndex := g.vertices.length
  let frame : List (Vertex α) :=
    [⟨⟨position.x - width / 2, position.y - height / 2, position.z - depth / 2⟩⟩,
     ⟨⟨position.x + width / 2, position.y - height / 2, position.z - depth / 2⟩⟩,
     ⟨⟨position.x + width / 2, position.y + height / 2, position.z - depth / 2⟩⟩,
     ⟨⟨position.x - width / 2, position.y + height / 2, position.z - depth / 2⟩⟩,
     ⟨⟨position.x - width / 2, position.y - height / 2, position.z + depth / 2⟩⟩,
     ⟨⟨position.x + width / 2, position.y - height / 2, position.z + depth / 2⟩⟩,
     ⟨⟨position.x + width / 2, position.y + height / 2, position.z + depth / 2⟩⟩,
     ⟨⟨position.x - width / 2, position.y + height / 2, position.z + depth / 2⟩⟩]
  let frameIndices : List Nat :=
    [baseIndex, baseIndex + 1, baseIndex + 2, baseIndex + 2, baseIndex + 3, baseIndex,
     baseIndex + 4, baseIndex + 6, baseIndex + 5, baseIndex + 6, baseIndex + 4, baseIndex + 7]
  let glassBaseIndex := (g.vertices ++ frame).length
  let glass : List (Vertex α) :=
    [⟨⟨position.x - width / 2 + 0.05, position.y - height / 2 + 0.05, position.z⟩⟩,
     ⟨⟨position.x + width / 2 - 0.05, position.y - height / 2 + 0.05, position.z⟩⟩,
     ⟨⟨position.x + width / 2 - 0.05, position.y + height / 2 - 0.05, position.z⟩⟩,
     ⟨⟨position.x - width / 2 + 0.05, position.y + height / 2 - 0.05, position.z⟩⟩]
  let glassIndices : List Nat :=
    [glassBaseIndex, glassBaseIndex + 1, glassBaseIndex + 2,
     glassBaseIndex + 2, glassBaseIndex + 3, glassBaseIndex]
  { vertices := g.vertices ++ frame ++ glass,
    indices := g.indices ++ frameIndices ++ glassIndices }

/-- The body of the floor loop of `Building::AddWindows` (Building.cpp 104-130): three
front / back window pairs, then two left / right window pairs. -/
def addFloorWindows (b : Building α) (floorHeight : α) (g : Geometry α) (floor : Nat) :
    Geometry α :=
  let windowWidth : α := 1.5
  let windowHeight : α := 2.0
  let windowDepth : α := 0.1
  let floorY : α := (floor : α) * floorHeight
  let g1 := (List.range 3).foldl (fun g window =>
    let windowX : α := ((window : α) - 1) * (b.size.x / 3)
    AddWindow
      (AddWindow g ⟨windowX, floorY, -b.size.z / 2 - windowDepth / 2⟩
        windowWidth windowHeight windowDepth)
      ⟨windowX, floorY, b.size.z / 2 + windowDepth / 2⟩
      windowWidth windowHeight windowDepth) g
  (List.range 2).foldl (fun g window =>
    let windowZ : α := ((window : α) - 0.5) * (b.size.z / 2)
    AddWindow
      (AddWindow g ⟨-b.size.x / 2 - windowDepth / 2, floorY, windowZ⟩
        windowWidth windowHeight windowDepth)
      ⟨b.size.x / 2 + windowDepth / 2, floorY, windowZ⟩
      windowWidth windowHeight windowDepth) g1

/-- The function `Building::AddWindows` (Building.cpp 97-132): the loop
`for (int floor = 1; floor < floorCount; ++floor)`. -/
def AddWindows (b : Building α) (g : Geometry α) : Geometry α :=
  let floorHeight : α := b.height / (b.floorCount : α)
  (List.range' 1 (b.floorCount - 1).toNat).foldl (addFloorWindows b floorHeight) g

/-- The twenty vertices of the building box (Building.cpp 46-75): front, back, left,
right and top face. -/
def boxVertices (b : Building α) : List (Vertex α) :=
  let width := b.size.x
  let depth := b.size.z
  let buildingHeight := b.height
  [⟨⟨-width / 2, 0, -depth / 2⟩⟩, ⟨⟨width / 2, 0, -depth / 2⟩⟩,
   ⟨⟨width / 2, buildingHeight, -depth / 2⟩⟩, ⟨⟨-width / 2, buildingHeight, -depth / 2⟩⟩,
   ⟨⟨-width / 2, 0, depth / 2⟩⟩, ⟨⟨width / 2, 0, depth / 2⟩⟩,
   ⟨⟨width / 2, buildingHeight, depth / 2⟩⟩, ⟨⟨-width / 2, buildingHeight, depth / 2⟩⟩,
   ⟨⟨-width / 2, 0, -depth / 2⟩⟩, ⟨⟨-width / 2, 0, depth / 2⟩⟩,
   ⟨⟨-width / 2, buildingHeight, depth / 2⟩⟩, ⟨⟨-width / 2, buildingHeight, -depth / 2⟩⟩,
   ⟨⟨width / 2, 0, -depth / 2⟩⟩, ⟨⟨width / 2, 0, depth / 2⟩⟩,
   ⟨⟨width / 2, buildingHeight, depth / 2⟩⟩, ⟨⟨width / 2, buildingHeight, -depth / 2⟩⟩,
   ⟨⟨-width / 2, buildingHeight, -depth / 2⟩⟩, ⟨⟨width / 2, buildingHeight, -depth / 2⟩⟩,
   ⟨⟨width / 2, buildingHeight, depth / 2⟩⟩, ⟨⟨-width / 2, buildingHeight, depth / 2⟩⟩]

/-- The index loop `for (int face = 0; face < 6; ++face)` of Building.cpp 78-82. -/
def boxIndices : List Nat :=
  (List.range 6).flatMap (fun face =>
    let baseIndex := face * 4
    [baseIndex, baseIndex + 1, baseIndex + 2, baseIndex + 2, baseIndex + 3, baseIndex])

/-- The vertex and index vectors that `Building::GenerateGeometry` (Building.cpp 37-95)
passes to the `Mesh` constructor. -/
def GenerateGeometry (b : Building α) : Geometry α :=
  AddWindows b { vertices := boxVertices b, indices := boxIndices }

end Building

/-- Every index of the geometry addresses a vertex of the geometry. -/
def Geometry.IndexSafe (g : Geometry α) : Prop :=
  ∀ i ∈ g.indices, i < g.vertices.length

/-- The geometry `g2` extends `g1` by `k` vertices, and each of its indices is an index
of `g1` or addresses a vertex of `g2`. -/
def Geometry.Extends (k : Nat) (g1 g2 : Geometry α) : Prop :=
  g2.vertices.length = g1.vertices.length + k ∧
    ∀ i ∈ g2.indices, i ∈ g1.indices ∨ i < g2.vertices.length

/-! ## Theorems -/

/-! ### Induction principles and child arrays -/

/-- Induction on octree nodes with the hypothesis available for every child held in
a slot. -/
theorem OctreeNode.node_induct {P : OctreeNode α → Prop}
    (step : ∀ center size models children isLeaf,
      (∀ i child, ChildArray.get? children i = some child → P child) →
      P (.mk center size models children isLeaf)) :
    ∀ node, P node := by
  intro node
  refine @OctreeNode.rec α (fun n => P n)
    (fun cs => ∀ i child, ChildArray.get? cs i = some child → P child) ?_ ?_ ?_ ?_ node
  · intro c s ms cs l ih
    exact step c s ms cs l ih
  · intro i child h
    simp [ChildArray.get?] at h
  · intro rest ih i child h
    cases i with
    | zero => simp [ChildArray.get?] at h
    | succ i => exact ih i child (by simpa [ChildArray.get?] using h)
  · intro c rest ihc ih i child h
    cases i with
    | zero =>
      simp [ChildArray.get?] at h
      exact h ▸ ihc
    | succ i => exact ih i child (by simpa [ChildArray.get?] using h)

/-- Induction on child arrays, slot by slot. -/
theorem ChildArray.slot_induct {P : ChildArray α → Prop} (hnil : P .nil)
    (hnull : ∀ rest, P rest → P (.null rest))
    (hptr : ∀ child rest, P rest → P (.ptr child rest)) :
    ∀ cs, P cs := by
  intro cs
  exact @ChildArray.rec α (fun _ => True) (fun cs => P cs) (fun _ _ _ _ _ _ => trivial)
    hnil (fun rest ih => hnull rest ih) (fun c rest _ ih => hptr c rest ih) cs

@[simp] theorem OctreeNode.mk_eta (c : OctreeNode α) :
    OctreeNode.mk c.center c.size c.models c.children c.isLeaf = c := by
  cases c; rfl

theorem ChildArray.get?_insertInChild_self [HasSqrt α] (heap : ModelPtr → Model α)
    (m : ModelPtr) (cs : ChildArray α) :
    ∀ i, (Scene.insertInChild heap m i cs).get? i
      = (cs.get? i).map (Scene.InsertModelInOctree heap m) := by
  induction cs using ChildArray.slot_induct with
  | hnil => intro i; simp [Scene.insertInChild, ChildArray.get?]
  | hnull rest ih =>
    intro i
    cases i with
    | zero => simp [Scene.insertInChild, ChildArray.get?]
    | succ i => simpa [Scene.insertInChild, ChildArray.get?] using ih i
  | hptr child rest ih =>
    intro i
    cases i with
    | zero => simp [Scene.insertInChild, ChildArray.get?]
    | succ i => simpa [Scene.insertInChild, ChildArray.get?] using ih i

theorem ChildArray.get?_insertInChild_ne [HasSqrt α] (heap : ModelPtr → Model α)
    (m : ModelPtr) (cs : ChildArray α) :
    ∀ i j, i ≠ j → (Scene.insertInChild heap m i cs).get? j = cs.get? j := by
  induction cs using ChildArray.slot_induct with
  | hnil => intro i j _; simp [Scene.insertInChild, ChildArray.get?]
  | hnull rest ih =>
    intro i j hij
    cases i with
    | zero =>
      cases j with
      | zero => exact absurd rfl hij
      | succ j => simp [Scene.insertInChild, ChildArray.get?]
    | succ i =>
      cases j with
      | zero => simp [Scene.insertInChild, ChildArray.get?]
      | succ j =>
        simpa [Scene.insertInChild, ChildArray.get?] using ih i j (by omega)
  | hptr child rest ih =>
    intro i j hij
    cases i with
    | zero =>
      cases j with
      | zero => exact absurd rfl hij
      | succ j => simp [Scene.insertInChild, ChildArray.get?]
    | succ i =>
      cases j with
      | zero => simp [Scene.insertInChild, ChildArray.get?]
      | succ j =>
        simpa [Scene.insertInChild, ChildArray.get?] using ih i j (by omega)

/-- The guarded call changes nothing when the insertion leaves the selected child as it
is. -/
theorem ChildArray.insertInChild_eq_self [HasSqrt α] (heap : ModelPtr → Model α)
    (m : ModelPtr) (cs : ChildArray α) :
    ∀ i child, cs.get? i = some child → Scene.InsertModelInOctree heap m child = child →
      Scene.insertInChild heap m i cs = cs := by
  induction cs using ChildArray.slot_induct with
  | hnil => intro i child h; simp [ChildArray.get?] at h
  | hnull rest ih =>
    intro i child h hsame
    cases i with
    | zero => simp [ChildArray.get?] at h
    | succ i =>
      simp only [ChildArray.get?] at h
      simp [Scene.insertInChild, ih i child h hsame]
  | hptr c rest ih =>
    intro i child h hsame
    cases i with
    | zero =>
      simp only [ChildArray.get?, Option.some.injEq] at h
      subst h
      simp [Scene.insertInChild, hsame]
    | succ i =>
      simp only [ChildArray.get?] at h
      simp [Scene.insertInChild, ih i child h hsame]

/-- Slot `j` after `children[i]->models.push_back(m)`. -/
theorem ChildArray.get?_pushModel (cs : ChildArray α) (m : ModelPtr) :
    ∀ i j, (cs.pushModel i m).get? j = (cs.get? j).map (fun c =>
      .mk c.center c.size (c.models ++ (if i = j then [m] else [])) c.children c.isLeaf) := by
  induction cs using ChildArray.slot_induct with
  | hnil => intro i j; simp [ChildArray.pushModel, ChildArray.get?]
  | hnull rest ih =>
    intro i j
    cases i with
    | zero => cases j <;> simp [ChildArray.pushModel, ChildArray.get?]
    | succ i =>
      cases j with
      | zero => simp [ChildArray.pushModel, ChildArray.get?]
      | succ j => simpa [ChildArray.pushModel, ChildArray.get?] using ih i j
  | hptr child rest ih =>
    intro i j
    cases child with
    | mk c s ms ch l =>
    cases i with
    | zero =>
      cases j with
      | zero => simp [ChildArray.pushModel, ChildArray.get?, OctreeNode.center, OctreeNode.size,
          OctreeNode.models, OctreeNode.children, OctreeNode.isLeaf]
      | succ j => simp [ChildArray.pushModel, ChildArray.get?]
    | succ i =>
      cases j with
      | zero => simp [ChildArray.pushModel, ChildArray.get?, OctreeNode.center, OctreeNode.size,
          OctreeNode.models, OctreeNode.children, OctreeNode.isLeaf]
      | succ j => simpa [ChildArray.pushModel, ChildArray.get?] using ih i j

/-- Slot `j` after the redistribution loop of Scene.cpp 175-185: the child gains, in
order, the models whose index is `j`. -/
theorem ChildArray.get?_foldl_pushModel (f : ModelPtr → Nat) (ms : List ModelPtr) :
    ∀ (cs : ChildArray α) (j : Nat),
      (ms.foldl (fun cs m => cs.pushModel (f m) m) cs).get? j = (cs.get? j).map (fun c =>
        .mk c.center c.size (c.models ++ ms.filter (fun m => f m = j)) c.children c.isLeaf) := by
  induction ms with
  | nil => intro cs j; simp
  | cons m ms ih =>
    intro cs j
    rw [List.foldl_cons, ih, ChildArray.get?_pushModel]
    cases h : cs.get? j with
    | none => simp
    | some c =>
      by_cases hj : f m = j
      · simp [hj, OctreeNode.center, OctreeNode.size,
          OctreeNode.models, OctreeNode.children, OctreeNode.isLeaf]
      · simp [hj, OctreeNode.center, OctreeNode.size,
          OctreeNode.models, OctreeNode.children, OctreeNode.isLeaf]

theorem ChildArray.mem_allModels (x : ModelPtr) (cs : ChildArray α) :
    x ∈ cs.allModels ↔ ∃ i child, cs.get? i = some child ∧ x ∈ child.allModels := by
  induction cs using ChildArray.slot_induct with
  | hnil => simp [ChildArray.allModels, ChildArray.get?]
  | hnull rest ih =>
    rw [ChildArray.allModels, ih]
    constructor
    · rintro ⟨i, child, hget, hx⟩
      exact ⟨i + 1, child, by simpa [ChildArray.get?] using hget, hx⟩
    · rintro ⟨i, child, hget, hx⟩
      cases i with
      | zero => simp [ChildArray.get?] at hget
      | succ i => exact ⟨i, child, by simpa [ChildArray.get?] using hget, hx⟩
  | hptr c rest ih =>
    rw [ChildArray.allModels, List.mem_append, ih]
    constructor
    · rintro (hx | ⟨i, child, hget, hx⟩)
      · exact ⟨0, c, by simp [ChildArray.get?], hx⟩
      · exact ⟨i + 1, child, by simpa [ChildArray.get?] using hget, hx⟩
    · rintro ⟨i, child, hget, hx⟩
      cases i with
      | zero =>
        simp only [ChildArray.get?, Option.some.injEq] at hget
        exact Or.inl (hget ▸ hx)
      | succ i => exact Or.inr ⟨i, child, by simpa [ChildArray.get?] using hget, hx⟩

theorem ChildArray.allModels_empty8 : (ChildArray.empty8 : ChildArray α).allModels = [] := by
  simp [ChildArray.empty8, ChildArray.allModels]

theorem childIndex_lt (d : Vec3 α) : childIndex d < 8 := by
  unfold childIndex
  split_ifs <;> decide

theorem get?_makeChildren (c : Vec3 α) (h : α) (j : Nat) (hj : j < 8) :
    (makeChildren c h).get? j = some (makeChild c h j) := by
  interval_cases j <;> rfl

/-! ### Splitting, insertion and queries -/

theorem Scene.split_eq (heap : ModelPtr → Model α) (c : Vec3 α) (s : α)
    (ms : List ModelPtr) (cs : ChildArray α) :
    Scene.SplitOctreeNode heap (.mk c s ms cs true)
      = .mk c s [] (Scene.SplitOctreeNode heap (.mk c s ms cs true)).children false := by
  simp [Scene.SplitOctreeNode, OctreeNode.children]

/-- Slot `j` of a split leaf: a fresh leaf holding the models whose child index is `j`. -/
theorem Scene.get?_split (heap : ModelPtr → Model α) (c : Vec3 α) (s : α)
    (ms : List ModelPtr) (cs : ChildArray α) (j : Nat) (hj : j < 8) :
    (Scene.SplitOctreeNode heap (.mk c s ms cs true)).children.get? j
      = some (.mk (makeChild c (s * 0.5) j).center (s * 0.5)
          (ms.filter (fun m => childIndex (Vec3.sub (heap m).GetPosition c) = j))
          ChildArray.empty8 true) := by
  simp only [Scene.SplitOctreeNode, Bool.not_true, Bool.false_eq_true, if_false,
    OctreeNode.children]
  rw [ChildArray.get?_foldl_pushModel, get?_makeChildren _ _ _ hj]
  simp [makeChild, OctreeNode.center, OctreeNode.size, OctreeNode.models,
    OctreeNode.children, OctreeNode.isLeaf]

/-- A split leaf has no ninth slot. -/
theorem Scene.get?_split_of_ge (heap : ModelPtr → Model α) (c : Vec3 α) (s : α)
    (ms : List ModelPtr) (cs : ChildArray α) (j : Nat) (hj : 8 ≤ j) :
    (Scene.SplitOctreeNode heap (.mk c s ms cs true)).children.get? j = none := by
  simp only [Scene.SplitOctreeNode, Bool.not_true, Bool.false_eq_true, if_false,
    OctreeNode.children]
  rw [ChildArray.get?_foldl_pushModel]
  have : (makeChildren c (s * 0.5)).get? j = none := by
    obtain ⟨k, rfl⟩ : ∃ k, j = k + 8 := ⟨j - 8, by omega⟩
    rfl
  rw [this]; rfl

theorem Scene.insert_of_not_fits [HasSqrt α] (heap : ModelPtr → Model α) (m : ModelPtr)
    (c : Vec3 α) (s : α) (ms : List ModelPtr) (cs : ChildArray α) (l : Bool)
    (h : ¬ Fits heap m c s) :
    Scene.InsertModelInOctree heap m (.mk c s ms cs l) = .mk c s ms cs l := by
  rw [Scene.InsertModelInOctree, if_pos (not_le.1 h)]

theorem Scene.insert_leaf [HasSqrt α] (heap : ModelPtr → Model α) (m : ModelPtr)
    (c : Vec3 α) (s : α) (ms : List ModelPtr) (cs : ChildArray α)
    (h : Fits heap m c s) (hkeep : ¬ ((ms ++ [m]).length > 8 ∧ s > 10)) :
    Scene.InsertModelInOctree heap m (.mk c s ms cs true) = .mk c s (ms ++ [m]) cs true := by
  rw [Scene.InsertModelInOctree, if_neg (not_lt.2 h), if_pos rfl, if_neg hkeep]

theorem Scene.insert_leaf_split [HasSqrt α] (heap : ModelPtr → Model α) (m : ModelPtr)
    (c : Vec3 α) (s : α) (ms : List ModelPtr) (cs : ChildArray α)
    (h : Fits heap m c s) (hsplit : (ms ++ [m]).length > 8 ∧ s > 10) :
    Scene.InsertModelInOctree heap m (.mk c s ms cs true)
      = Scene.SplitOctreeNode heap (.mk c s (ms ++ [m]) cs true) := by
  rw [Scene.InsertModelInOctree, if_neg (not_lt.2 h), if_pos rfl, if_pos hsplit]

theorem Scene.insert_inner [HasSqrt α] (heap : ModelPtr → Model α) (m : ModelPtr)
    (c : Vec3 α) (s : α) (ms : List ModelPtr) (cs : ChildArray α)
    (h : Fits heap m c s) :
    Scene.InsertModelInOctree heap m (.mk c s ms cs false)
      = .mk c s ms (Scene.insertInChild heap m
          (childIndex (Vec3.sub (heap m).GetPosition c)) cs) false := by
  rw [Scene.InsertModelInOctree, if_neg (not_lt.2 h)]
  simp

theorem Scene.mem_queryChildren [HasSqrt α] (heap : ModelPtr → Model α) (p : Vec3 α) (r : α)
    (x : ModelPtr) (cs : ChildArray α) :
    x ∈ Scene.queryChildren heap p r cs ↔
      ∃ i child, cs.get? i = some child ∧ x ∈ Scene.QueryOctree heap p r child := by
  induction cs using ChildArray.slot_induct with
  | hnil => simp [Scene.queryChildren, ChildArray.get?]
  | hnull rest ih =>
    rw [Scene.queryChildren, ih]
    constructor
    · rintro ⟨i, child, hget, hx⟩
      exact ⟨i + 1, child, by simpa [ChildArray.get?] using hget, hx⟩
    · rintro ⟨i, child, hget, hx⟩
      cases i with
      | zero => simp [ChildArray.get?] at hget
      | succ i => exact ⟨i, child, by simpa [ChildArray.get?] using hget, hx⟩
  | hptr c rest ih =>
    rw [Scene.queryChildren, List.mem_append, ih]
    constructor
    · rintro (hx | ⟨i, child, hget, hx⟩)
      · exact ⟨0, c, by simp [ChildArray.get?], hx⟩
      · exact ⟨i + 1, child, by simpa [ChildArray.get?] using hget, hx⟩
    · rintro ⟨i, child, hget, hx⟩
      cases i with
      | zero =>
        simp only [ChildArray.get?, Option.some.injEq] at hget
        exact Or.inl (hget ▸ hx)
      | succ i => exact Or.inr ⟨i, child, by simpa [ChildArray.get?] using hget, hx⟩

/-- A query that prunes every node a slot holds returns nothing from the slots. -/
theorem Scene.queryChildren_eq_nil [HasSqrt α] (heap : ModelPtr → Model α) (p : Vec3 α)
    (r : α) (cs : ChildArray α)
    (h : ∀ i child, cs.get? i = some child →
      Vec3.distance p child.center > r + child.size * 0.5) :
    Scene.queryChildren heap p r cs = [] := by
  apply List.eq_nil_iff_forall_not_mem.2
  intro x hx
  obtain ⟨i, child, hget, hmem⟩ := (Scene.mem_queryChildren heap p r x cs).1 hx
  have hp := h i child hget
  cases child with
  | mk c s ms ch l =>
    simp only [OctreeNode.center, OctreeNode.size] at hp
    rw [Scene.QueryOctree, if_pos hp] at hmem
    simp at hmem

/-- Every model returned by `QueryOctree` passed the sphere test of Scene.cpp 208. -/
theorem Scene.QueryOctree_exact [HasSqrt α] (heap : ModelPtr → Model α) (p : Vec3 α) (r : α)
    (m : ModelPtr) :
    ∀ node : OctreeNode α, m ∈ Scene.QueryOctree heap p r node →
      Vec3.distance p (heap m).GetPosition ≤ r + (heap m).GetBoundingSphereRadius := by
  intro node
  induction node using OctreeNode.node_induct with
  | step c s ms cs l ih =>
    rw [Scene.QueryOctree]
    intro h
    split_ifs at h
    · simp at h
    · simpa using (List.mem_filter.1 h).2
    · obtain ⟨i, child, hget, hx⟩ := (Scene.mem_queryChildren heap p r m cs).1 h
      exact ih i child hget hx

/-- Every model returned by `QueryOctree` is stored in some node of the tree. -/
theorem Scene.QueryOctree_subset_allModels [HasSqrt α] (heap : ModelPtr → Model α)
    (p : Vec3 α) (r : α) (m : ModelPtr) :
    ∀ node : OctreeNode α, m ∈ Scene.QueryOctree heap p r node → m ∈ node.allModels := by
  intro node
  induction node using OctreeNode.node_induct with
  | step c s ms cs l ih =>
    rw [Scene.QueryOctree, OctreeNode.allModels]
    intro h
    split_ifs at h
    · simp at h
    · exact List.mem_append_left _ (List.mem_filter.1 h).1
    · obtain ⟨i, child, hget, hx⟩ := (Scene.mem_queryChildren heap p r m cs).1 h
      exact List.mem_append_right _
        ((ChildArray.mem_allModels m cs).2 ⟨i, child, hget, ih i child hget hx⟩)

/-- A split stores nothing but the models of the leaf. -/
theorem Scene.mem_allModels_split (heap : ModelPtr → Model α) (c : Vec3 α) (s : α)
    (ms : List ModelPtr) (cs : ChildArray α) (x : ModelPtr)
    (hx : x ∈ (Scene.SplitOctreeNode heap (.mk c s ms cs true)).allModels) : x ∈ ms := by
  rw [Scene.split_eq, OctreeNode.allModels, List.nil_append, ChildArray.mem_allModels] at hx
  obtain ⟨i, child, hget, hmem⟩ := hx
  by_cases hi : i < 8
  · rw [Scene.get?_split heap c s ms cs i hi, Option.some.injEq] at hget
    subst hget
    rw [OctreeNode.allModels, ChildArray.allModels_empty8, List.append_nil] at hmem
    exact (List.mem_filter.1 hmem).1
  · exfalso
    have hnone : (Scene.SplitOctreeNode heap (.mk c s ms cs true)).children.get? i = none := by
      simp only [Scene.SplitOctreeNode, Bool.not_true, Bool.false_eq_true, if_false,
        OctreeNode.children]
      rw [ChildArray.get?_foldl_pushModel]
      have : (makeChildren c (s * 0.5)).get? i = none := by
        obtain ⟨k, rfl⟩ : ∃ k, i = k + 8 := ⟨i - 8, by omega⟩
        rfl
      rw [this]; rfl
    rw [hnone] at hget
    exact Option.noConfusion hget

/-- An insertion stores no model other than the inserted one. -/
theorem Scene.mem_allModels_insert [HasSqrt α] (heap : ModelPtr → Model α) (m x : ModelPtr) :
    ∀ node : OctreeNode α, x ∈ (Scene.InsertModelInOctree heap m node).allModels →
      x = m ∨ x ∈ node.allModels := by
  intro node
  induction node using OctreeNode.node_induct with
  | step c s ms cs l ih =>
    rw [Scene.InsertModelInOctree]
    intro h
    split_ifs at h with h1 h2 h3
    · exact Or.inr h
    · subst h2
      have := Scene.mem_allModels_split heap c s _ cs x h
      rcases List.mem_append.1 this with h | h
      · exact Or.inr (by rw [OctreeNode.allModels]; exact List.mem_append_left _ h)
      · exact Or.inl (by simpa using h)
    · rw [OctreeNode.allModels] at h ⊢
      rcases List.mem_append.1 h with h | h
      · rcases List.mem_append.1 h with h | h
        · exact Or.inr (List.mem_append_left _ h)
        · exact Or.inl (by simpa using h)
      · exact Or.inr (List.mem_append_right _ h)
    · rw [OctreeNode.allModels] at h ⊢
      rcases List.mem_append.1 h with h | h
      · exact Or.inr (List.mem_append_left _ h)
      · obtain ⟨j, child, hget, hmem⟩ := (ChildArray.mem_allModels x _).1 h
        by_cases hj : childIndex (Vec3.sub (heap m).GetPosition c) = j
        · rw [← hj, ChildArray.get?_insertInChild_self] at hget
          cases hc : cs.get? (childIndex (Vec3.sub (heap m).GetPosition c)) with
          | none => simp [hc] at hget
          | some c0 =>
            rw [hc] at hget
            simp only [Option.map_some', Option.some.injEq] at hget
            subst hget
            rcases ih _ c0 hc hmem with h | h
            · exact Or.inl h
            · exact Or.inr (List.mem_append_right _
                ((ChildArray.mem_allModels x cs).2 ⟨_, c0, hc, h⟩))
        · rw [ChildArray.get?_insertInChild_ne _ _ _ _ _ hj] at hget
          exact Or.inr (List.mem_append_right _
            ((ChildArray.mem_allModels x cs).2 ⟨j, child, hget, hmem⟩))

/-- The tree built from a list of models stores only models of the list. -/
theorem Scene.mem_allModels_foldl_insert [HasSqrt α] (heap : ModelPtr → Model α)
    (ms : List ModelPtr) (x : ModelPtr)
    (hx : x ∈ (ms.foldl (fun node m => Scene.InsertModelInOctree heap m node)
      (Scene.freshRoot : OctreeNode α)).allModels) : x ∈ ms := by
  induction ms using List.reverseRecOn with
  | nil =>
    simp [Scene.freshRoot, OctreeNode.allModels, ChildArray.allModels_empty8] at hx
  | append_singleton ms m ih =>
    simp only [List.foldl_append, List.foldl_cons, List.foldl_nil] at hx
    rcases Scene.mem_allModels_insert heap m x _ hx with h | h
    · simp [h]
    · exact List.mem_append_left _ (ih h)

/-- The octree built by inserting the models of a list in order into a fresh root. -/
theorem Scene.addModels_octree [HasSqrt α] (heap : ModelPtr → Model α) (ms : List ModelPtr) :
    (Scene.addModels heap ms).octree
      = some (ms.foldl (fun node x => Scene.InsertModelInOctree heap x node) Scene.freshRoot) ∧
    (Scene.addModels heap ms).models = ms := by
  induction ms using List.reverseRecOn with
  | nil => simp [Scene.addModels, Scene.new]
  | append_singleton ms m ih =>
    simp only [Scene.addModels, List.foldl_append, List.foldl_cons, List.foldl_nil] at ih ⊢
    simp [Scene.AddModel, ih.1, ih.2]

/-! ### Descent paths -/

theorem PathFit.fits [HasSqrt α] {heap : ModelPtr → Model α} {x : ModelPtr}
    {c : Vec3 α} {s : α} {ms : List ModelPtr} {cs : ChildArray α} {l : Bool}
    (h : PathFit heap x (.mk c s ms cs l)) : Fits heap x c s := by
  cases h with
  | leaf hfit => exact hfit
  | inner hfit _ _ => exact hfit

/-- A model of a split leaf is stored on its descent path afterwards. -/
theorem OnPath.split (heap : ModelPtr → Model α) (x : ModelPtr) (c : Vec3 α) (s : α)
    (ms : List ModelPtr) (cs : ChildArray α) (hx : x ∈ ms) :
    OnPath heap x (Scene.SplitOctreeNode heap (.mk c s ms cs true)) := by
  rw [Scene.split_eq]
  refine OnPath.inner (Scene.get?_split heap c s ms cs _ (childIndex_lt _)) ?_
  exact OnPath.leaf (by simp [List.mem_filter, hx])

/-- Insertion of another model keeps a stored model on its descent path. -/
theorem OnPath.insert [HasSqrt α] (heap : ModelPtr → Model α) (x m : ModelPtr)
    {node : OctreeNode α} (h : OnPath heap x node) :
    OnPath heap x (Scene.InsertModelInOctree heap m node) := by
  induction h with
  | @leaf c s ms cs hmem =>
    rw [Scene.InsertModelInOctree]
    simp only [if_true]
    split_ifs
    · exact OnPath.leaf hmem
    · exact OnPath.split heap x c s _ cs (List.mem_append_left _ hmem)
    · exact OnPath.leaf (List.mem_append_left _ hmem)
  | @inner c s ms cs child hget hrec ih =>
    rw [Scene.InsertModelInOctree]
    simp only [Bool.false_eq_true, if_false]
    split_ifs
    · exact OnPath.inner hget hrec
    · by_cases hi : childIndex (Vec3.sub (heap m).GetPosition c)
          = childIndex (Vec3.sub (heap x).GetPosition c)
      · refine OnPath.inner ?_ ih
        rw [hi, ChildArray.get?_insertInChild_self, hget]
        rfl
      · refine OnPath.inner ?_ hrec
        rw [ChildArray.get?_insertInChild_ne _ _ _ _ _ hi, hget]

/-- A model that fits its descent path after an insertion fitted it before. -/
theorem PathFit.of_insert [HasSqrt α] (heap : ModelPtr → Model α) (x m : ModelPtr) :
    ∀ node : OctreeNode α, PathFit heap x (Scene.InsertModelInOctree heap m node) →
      PathFit heap x node := by
  intro node
  induction node using OctreeNode.node_induct with
  | step c s ms cs l ih =>
    rw [Scene.InsertModelInOctree]
    intro h
    split_ifs at h with h1 h2 h3
    · exact h
    · subst h2
      rw [Scene.split_eq] at h
      exact PathFit.leaf h.fits
    · subst h2
      exact PathFit.leaf h.fits
    · have hl : l = false := by simpa using h2
      subst hl
      cases h with
      | @inner _ _ _ _ child hfit hget hrec =>
        by_cases hi : childIndex (Vec3.sub (heap m).GetPosition c)
            = childIndex (Vec3.sub (heap x).GetPosition c)
        · rw [← hi, ChildArray.get?_insertInChild_self] at hget
          cases hc : cs.get? (childIndex (Vec3.sub (heap m).GetPosition c)) with
          | none => simp [hc] at hget
          | some c0 =>
            rw [hc] at hget
            simp only [Option.map_some', Option.some.injEq] at hget
            subst hget
            exact PathFit.inner hfit (hi ▸ hc) (ih _ c0 hc hrec)
        · rw [ChildArray.get?_insertInChild_ne _ _ _ _ _ hi] at hget
          exact PathFit.inner hfit hget hrec

/-- A model that fits its descent path is stored on it by its own insertion. -/
theorem OnPath.insert_self [HasSqrt α] (heap : ModelPtr → Model α) (m : ModelPtr)
    {node : OctreeNode α} (h : PathFit heap m node) :
    OnPath heap m (Scene.InsertModelInOctree heap m node) := by
  induction h with
  | @leaf c s ms cs hfit =>
    rw [Scene.InsertModelInOctree]
    simp only [if_true]
    have hnot : ¬ (Vec3.distance (heap m).GetPosition c + (heap m).GetBoundingSphereRadius
        > s * 0.5) := not_lt.2 hfit
    rw [if_neg hnot]
    split_ifs
    · exact OnPath.split heap m c s _ cs (by simp)
    · exact OnPath.leaf (by simp)
  | @inner c s ms cs child hfit hget _ ih =>
    rw [Scene.InsertModelInOctree]
    simp only [Bool.false_eq_true, if_false]
    have hnot : ¬ (Vec3.distance (heap m).GetPosition c + (heap m).GetBoundingSphereRadius
        > s * 0.5) := not_lt.2 hfit
    rw [if_neg hnot]
    refine OnPath.inner ?_ ih
    rw [ChildArray.get?_insertInChild_self, hget]
    rfl

/-- After any sequence of insertions into a fresh root, an inserted model that fits
its descent path in the final tree is stored on it. -/
theorem OnPath.of_foldl_insert [HasSqrt α] (heap : ModelPtr → Model α) (m : ModelPtr)
    (ms : List ModelPtr) (hm : m ∈ ms)
    (hfit : PathFit heap m
      (ms.foldl (fun node x => Scene.InsertModelInOctree heap x node) Scene.freshRoot)) :
    OnPath heap m
      (ms.foldl (fun node x => Scene.InsertModelInOctree heap x node) Scene.freshRoot) := by
  induction ms using List.reverseRecOn with
  | nil => simp at hm
  | append_singleton ms x ih =>
    simp only [List.foldl_append, List.foldl_cons, List.foldl_nil] at hfit ⊢
    have hprev := PathFit.of_insert heap m x _ hfit
    by_cases hmx : m = x
    · subst hmx
      exact OnPath.insert_self heap m hprev
    · have hmem : m ∈ ms := by
        rcases List.mem_append.1 hm with h | h
        · exact h
        · simp at h; exact absurd h hmx
      exact OnPath.insert heap m x (ih hmem hprev)

/-- A model stored on its descent path is returned by every query that prunes no node
the model fits and whose sphere meets the sphere of the model. -/
theorem Scene.mem_QueryOctree_of_onPath [HasSqrt α] (heap : ModelPtr → Model α)
    (m : ModelPtr) (p : Vec3 α) (r : α)
    (hreach : ∀ c s, Fits heap m c s → Vec3.distance p c ≤ r + s * 0.5)
    (hleaf : Vec3.distance p (heap m).GetPosition ≤ r + (heap m).GetBoundingSphereRadius)
    {node : OctreeNode α} (hon : OnPath heap m node) (hfit : PathFit heap m node) :
    m ∈ Scene.QueryOctree heap p r node := by
  induction hon with
  | @leaf c s ms cs hmem =>
    rw [Scene.QueryOctree, if_neg (not_lt.2 (hreach c s hfit.fits))]
    simp [List.mem_filter, hmem, hleaf]
  | @inner c s ms cs child hget _ ih =>
    rw [Scene.QueryOctree, if_neg (not_lt.2 (hreach c s hfit.fits))]
    simp only [Bool.false_eq_true, if_false]
    cases hfit with
    | @inner _ _ _ _ child2 _ hget2 hrec =>
      rw [hget] at hget2
      simp only [Option.some.injEq] at hget2
      subst hget2
      exact (Scene.mem_queryChildren heap p r m cs).2 ⟨_, child, hget, ih hrec⟩

/-- A model that fits its descent path in the octree of a scene built by `AddModel`
calls is returned by every query that prunes no node the model fits and whose sphere
meets the sphere of the model. -/
theorem Scene.mem_GetModelsNear_of_pathFit [HasSqrt α] (heap : ModelPtr → Model α)
    (ms : List ModelPtr) (m : ModelPtr) (tree : OctreeNode α) (p : Vec3 α) (r : α)
    (hm : m ∈ ms) (htree : (Scene.addModels heap ms).octree = some tree)
    (hfit : PathFit heap m tree)
    (hreach : ∀ c s, Fits heap m c s → Vec3.distance p c ≤ r + s * 0.5)
    (hleaf : Vec3.distance p (heap m).GetPosition ≤ r + (heap m).GetBoundingSphereRadius) :
    m ∈ (Scene.addModels heap ms).GetModelsNear heap p r := by
  have hoct := (Scene.addModels_octree heap ms).1
  rw [hoct, Option.some.injEq] at htree
  subst htree
  simp only [Scene.GetModelsNear, hoct]
  exact Scene.mem_QueryOctree_of_onPath heap m p r hreach hleaf
    (OnPath.of_foldl_insert heap m ms hm hfit) hfit

/-! ### Geometry over the reals -/

@[simp] theorem sqrt_real (x : ℝ) : HasSqrt.sqrt x = Real.sqrt x := rfl

/-- Cauchy-Schwarz for `glm::dot` on three components. -/
theorem Vec3.dot_sq_le (a b : Vec3 α) :
    Vec3.dot a b ^ 2 ≤ Vec3.dot a a * Vec3.dot b b := by
  simp only [Vec3.dot]
  nlinarith [sq_nonneg (a.x * b.y - a.y * b.x), sq_nonneg (a.x * b.z - a.z * b.x),
    sq_nonneg (a.y * b.z - a.z * b.y)]

theorem Vec3.dot_sub (n a b : Vec3 α) :
    Vec3.dot n (Vec3.sub a b) = Vec3.dot n a - Vec3.dot n b := by
  simp only [Vec3.dot, Vec3.sub]; ring

/-- A unit vector moves a point by at most the length of the displacement. -/
theorem Vec3.abs_dot_le_of_unit (n v : Vec3 ℝ) (r : ℝ) (hn : Vec3.length n = 1)
    (hv : Vec3.length v ≤ r) : -r ≤ Vec3.dot n v ∧ Vec3.dot n v ≤ r := by
  simp only [Vec3.length, sqrt_real] at hn hv
  have hn1 : Vec3.dot n n = 1 := by
    rw [Real.sqrt_eq_one] at hn
    exact hn
  obtain ⟨hr, hv2⟩ := Real.sqrt_le_iff.1 hv
  have hcs := Vec3.dot_sq_le n v
  rw [hn1, one_mul] at hcs
  exact abs_le_of_sq_le_sq' (hcs.trans hv2) hr

theorem Vec3.distance_nonneg (a b : Vec3 ℝ) : 0 ≤ Vec3.distance a b := by
  simp only [Vec3.distance, Vec3.length, sqrt_real]
  exact Real.sqrt_nonneg _

theorem Vec3.distance_self (a : Vec3 ℝ) : Vec3.distance a a = 0 := by
  simp [Vec3.distance, Vec3.length, Vec3.sub, Vec3.dot]

/-- The triangle inequality for `glm::distance`. -/
theorem Vec3.distance_triangle (a b c : Vec3 ℝ) :
    Vec3.distance a c ≤ Vec3.distance a b + Vec3.distance b c := by
  simp only [Vec3.distance, Vec3.length, sqrt_real]
  set u := Vec3.sub b a with hu
  set v := Vec3.sub c b with hv
  have hsum : Vec3.dot (Vec3.sub c a) (Vec3.sub c a)
      = Vec3.dot u u + 2 * Vec3.dot u v + Vec3.dot v v := by
    simp only [hu, hv, Vec3.dot, Vec3.sub]; ring
  have huu : 0 ≤ Vec3.dot u u := by
    simp only [Vec3.dot]; nlinarith [mul_self_nonneg u.x, mul_self_nonneg u.y, mul_self_nonneg u.z]
  have hvv : 0 ≤ Vec3.dot v v := by
    simp only [Vec3.dot]; nlinarith [mul_self_nonneg v.x, mul_self_nonneg v.y, mul_self_nonneg v.z]
  have hcs : Vec3.dot u v ≤ Real.sqrt (Vec3.dot u u) * Real.sqrt (Vec3.dot v v) := by
    rw [← Real.sqrt_mul huu]
    apply Real.le_sqrt_of_sq_le
    exact Vec3.dot_sq_le u v
  rw [hsum]
  apply Real.sqrt_le_iff.2
  refine ⟨add_nonneg (Real.sqrt_nonneg _) (Real.sqrt_nonneg _), ?_⟩
  have h1 := Real.sq_sqrt huu
  have h2 := Real.sq_sqrt hvv
  nlinarith

theorem Vec3.distance_origin_le (p : Vec3 ℝ) (b : ℝ) (hb : 0 ≤ b)
    (hx : |p.x| ≤ b) (hy : |p.y| ≤ b) (hz : |p.z| ≤ b) :
    Vec3.distance ⟨0, 0, 0⟩ p ≤ b * Real.sqrt 3 := by
  simp only [Vec3.distance, Vec3.length, sqrt_real, Vec3.sub, Vec3.dot, sub_zero]
  apply Real.sqrt_le_iff.2
  refine ⟨mul_nonneg hb (Real.sqrt_nonneg _), ?_⟩
  rw [mul_pow, Real.sq_sqrt (by norm_num : (0:ℝ) ≤ 3)]
  have h1 := sq_le_sq' (abs_le.1 hx).1 (abs_le.1 hx).2
  have h2 := sq_le_sq' (abs_le.1 hy).1 (abs_le.1 hy).2
  have h3 := sq_le_sq' (abs_le.1 hz).1 (abs_le.1 hz).2
  nlinarith

theorem Model.GetBoundingSphereRadius_nonneg (m : Model ℝ) : 0 ≤ m.GetBoundingSphereRadius := by
  simp only [Model.GetBoundingSphereRadius, Vec3.length, sqrt_real]
  exact Real.sqrt_nonneg _

/-- The radius computed by `GetBoundingSphereRadius` is half the length of the box
diagonal. -/
theorem Model.GetBoundingSphereRadius_eq_half_diagonal (m : Model ℝ) :
    m.GetBoundingSphereRadius
      = Vec3.length (Vec3.sub m.GetBoundingBoxMax m.GetBoundingBoxMin) / 2 := by
  simp only [Model.GetBoundingSphereRadius, Vec3.length, sqrt_real]
  set lo := m.GetBoundingBoxMin
  set hi := m.GetBoundingBoxMax
  have h : Vec3.dot (Vec3.sub hi ((Vec3.add lo hi).smul 0.5))
      (Vec3.sub hi ((Vec3.add lo hi).smul 0.5))
      = Vec3.dot (Vec3.sub hi lo) (Vec3.sub hi lo) / 2 ^ 2 := by
    simp only [Vec3.dot, Vec3.sub, Vec3.add, Vec3.smul]
    norm_num
    ring
  rw [h, Real.sqrt_div' _ (by positivity), Real.sqrt_sq (by norm_num)]

/-! ### Frustum tests -/

/-- Membership in the result of `GetModelsInFrustum`: registered and, for every plane,
not both corners behind it. -/
theorem Scene.mem_GetModelsInFrustum (heap : ModelPtr → Model α) (s : Scene α)
    (planes : Fin 6 → Vec4 α) (m : ModelPtr) :
    m ∈ s.GetModelsInFrustum heap planes ↔
      m ∈ s.models ∧ ∀ i, Scene.bothCornersBehind (planes i)
        (heap m).GetBoundingBoxMin (heap m).GetBoundingBoxMax = false := by
  simp [Scene.GetModelsInFrustum, List.mem_filter, List.all_eq_true]

theorem Scene.bothCornersBehind_eq_true (p : Vec4 α) (lo hi : Vec3 α) :
    Scene.bothCornersBehind p lo hi = true ↔
      Vec3.dot p.xyz lo + p.w < 0 ∧ Vec3.dot p.xyz hi + p.w < 0 := by
  simp [Scene.bothCornersBehind]

theorem Scene.bothCornersBehind_eq_false (p : Vec4 α) (lo hi : Vec3 α) :
    Scene.bothCornersBehind p lo hi = false ↔
      insidePlane p lo ∨ insidePlane p hi := by
  rw [← Bool.not_eq_true, Scene.bothCornersBehind_eq_true]
  simp only [insidePlane, not_and_or, not_lt]

theorem Renderer.IsInFrustum_eq_false (r : Renderer α) (c : Vec3 α) (radius : α) :
    r.IsInFrustum c radius = false ↔
      ∃ i, Vec3.dot (r.frustumPlanes i).xyz c + (r.frustumPlanes i).w < -radius := by
  rw [← Bool.not_eq_true]
  simp [Renderer.IsInFrustum, List.all_eq_true]

/-- The planes extracted from the identity view-projection are those of the cube
`[-1, 1]^3`: every normal already has length one. -/
theorem normalizePlanes_identity :
    normalizePlanes (extractPlanes (Mat4.identity : Mat4 ℝ)) = cubePlanes 1 := by
  funext i
  fin_cases i <;>
    simp [normalizePlanes, extractPlanes, cubePlanes, Mat4.identity, Vec4.div, Vec4.xyz,
      Vec3.length, Vec3.dot]

theorem cubePlanes_unit (h : ℝ) (i : Fin 6) : Vec3.length (cubePlanes h i).xyz = 1 := by
  fin_cases i <;> simp [cubePlanes, Vec4.xyz, Vec3.length, Vec3.dot]

/-- A point of the cube `[-h, h]^3` is inside all six cube planes. -/
theorem insidePlane_cubePlanes (h : α) (p : Vec3 α) (hp : inBox ⟨-h, -h, -h⟩ ⟨h, h, h⟩ p)
    (i : Fin 6) : insidePlane (cubePlanes h i) p := by
  obtain ⟨h1, h2, h3, h4, h5, h6⟩ := hp
  simp only at h1 h2 h3 h4 h5 h6
  fin_cases i <;> simp [cubePlanes, insidePlane, Vec4.xyz, Vec3.dot] <;> linarith

/-! ### The concrete models and scenes -/

theorem pointModel_radius (p : Vec3 ℝ) : (pointModel p).GetBoundingSphereRadius = 0 := by
  simp [pointModel, Model.GetBoundingSphereRadius, Model.GetBoundingBoxMin,
    Model.GetBoundingBoxMax, Vec3.length, Vec3.sub, Vec3.add, Vec3.smul, Vec3.dot, Vec3.splat]

theorem pointModel_box (p : Vec3 α) :
    (pointModel p).GetBoundingBoxMin = ⟨0, 0, 0⟩ ∧
      (pointModel p).GetBoundingBoxMax = ⟨0, 0, 0⟩ := by
  simp [pointModel, Model.GetBoundingBoxMin, Model.GetBoundingBoxMax, Vec3.splat]

/-- The bounding box of a segment model is the segment translated to its position. -/
theorem segmentModel_box_of_le (p : Vec3 α) (hx : |p.x| ≤ 1000) (hy : |p.y| ≤ 1000)
    (hz : |p.z| ≤ 1000) :
    (segmentModel p).GetBoundingBoxMin = ⟨p.x - 1, p.y, p.z⟩ ∧
      (segmentModel p).GetBoundingBoxMax = ⟨p.x + 1, p.y, p.z⟩ := by
  obtain ⟨hx1, hx2⟩ := abs_le.1 hx
  obtain ⟨hy1, hy2⟩ := abs_le.1 hy
  obtain ⟨hz1, hz2⟩ := abs_le.1 hz
  constructor
  · simp only [segmentModel, Model.GetBoundingBoxMin, Model.allVertices, Model.worldPos,
      Mat4.mulVec, Mat4.translation, Vec4.add, Vec4.smul, Vec4.ofVec3, Vec4.xyz, Vec3.min,
      Vec3.splat, FLT_MAX, List.isEmpty_cons, Bool.false_eq_true, if_false, List.flatMap_cons,
      List.flatMap_nil, List.append_nil, List.foldl_cons, List.foldl_nil, Vec3.mk.injEq]
    refine ⟨?_, ?_, ?_⟩ <;> simp only [min_def] <;> split_ifs <;> linarith
  · simp only [segmentModel, Model.GetBoundingBoxMax, Model.allVertices, Model.worldPos,
      Mat4.mulVec, Mat4.translation, Vec4.add, Vec4.smul, Vec4.ofVec3, Vec4.xyz, Vec3.max,
      Vec3.splat, FLT_MAX, List.isEmpty_cons, Bool.false_eq_true, if_false, List.flatMap_cons,
      List.flatMap_nil, List.append_nil, List.foldl_cons, List.foldl_nil, Vec3.mk.injEq]
    refine ⟨?_, ?_, ?_⟩ <;> simp only [max_def] <;> split_ifs <;> linarith

/-- The bounding sphere of a segment model has radius one. -/
theorem segmentModel_radius_of_le (p : Vec3 ℝ) (hx : |p.x| ≤ 1000) (hy : |p.y| ≤ 1000)
    (hz : |p.z| ≤ 1000) : (segmentModel p).GetBoundingSphereRadius = 1 := by
  obtain ⟨h1, h2⟩ := segmentModel_box_of_le p hx hy hz
  simp only [Model.GetBoundingSphereRadius, h1, h2]
  simp only [Vec3.length, Vec3.sub, Vec3.add, Vec3.smul, Vec3.dot, sqrt_real]
  rw [Real.sqrt_eq_one]
  ring

theorem triangleModel_box :
    (triangleModel : Model α).GetBoundingBoxMin = ⟨0, 0, 0⟩ ∧
      (triangleModel : Model α).GetBoundingBoxMax = ⟨1, 1, 0⟩ := by
  constructor
  · simp [triangleModel, Model.GetBoundingBoxMin, Model.allVertices, Model.worldPos,
      Mat4.mulVec, Mat4.identity, Vec4.add, Vec4.smul, Vec4.ofVec3, Vec4.xyz, Vec3.min,
      Vec3.splat, FLT_MAX]
  · simp [triangleModel, Model.GetBoundingBoxMax, Model.allVertices, Model.worldPos,
      Mat4.mulVec, Mat4.identity, Vec4.add, Vec4.smul, Vec4.ofVec3, Vec4.xyz, Vec3.max,
      Vec3.splat, FLT_MAX]

theorem octantHeap_radius (m : ModelPtr) :
    ((octantHeap : ModelPtr → Model ℝ) m).GetBoundingSphereRadius = 1 :=
  segmentModel_radius_of_le _ (by norm_num [abs_le]) (by norm_num [abs_le])
    (by norm_num [abs_le])

theorem cornerHeap_radius (m : ModelPtr) :
    ((cornerHeap : ModelPtr → Model ℝ) m).GetBoundingSphereRadius = 1 :=
  segmentModel_radius_of_le _ (by norm_num [abs_le]) (by norm_num [abs_le])
    (by norm_num [abs_le])

/-- Every child of the split root is farther from the origin than half its size. -/
theorem origin_far_from_children (j : Nat) :
    Vec3.distance (⟨0, 0, 0⟩ : Vec3 ℝ) (makeChild ⟨0, 0, 0⟩ (1000 * 0.5) j).center
      > 0 + 1000 * 0.5 * 0.5 := by
  have key : (0 : ℝ) + 1000 * 0.5 * 0.5 < Real.sqrt 187500 := by
    rw [Real.lt_sqrt (by norm_num)]
    norm_num
  have hsq : Vec3.dot (Vec3.sub (makeChild (⟨0, 0, 0⟩ : Vec3 ℝ) (1000 * 0.5) j).center ⟨0, 0, 0⟩)
      (Vec3.sub (makeChild (⟨0, 0, 0⟩ : Vec3 ℝ) (1000 * 0.5) j).center ⟨0, 0, 0⟩) = 187500 := by
    simp only [makeChild, OctreeNode.center, Vec3.sub, Vec3.add, Vec3.dot]
    split_ifs <;> norm_num
  simp only [Vec3.distance, Vec3.length, sqrt_real, hsq]
  exact key

theorem octantHeap_fits_root (m : ModelPtr) :
    Fits (octantHeap : ModelPtr → Model ℝ) m ⟨0, 0, 0⟩ 1000 := by
  simp only [Fits, octantHeap_radius]
  simp only [octantHeap, segmentModel, Model.GetPosition, Vec3.distance, Vec3.length, Vec3.sub,
    Vec3.dot, sqrt_real]
  have key : Real.sqrt 187500 ≤ 499 := by
    rw [Real.sqrt_le_iff]
    norm_num
  norm_num
  linarith

/-- The octree after nine segment models were added at `(250, 250, 250)`: the root was
split by the ninth insertion. -/
theorem octantHeap_tree :
    (Scene.addModels (octantHeap : ModelPtr → Model ℝ) [0, 1, 2, 3, 4, 5, 6, 7, 8]).octree
      = some (Scene.SplitOctreeNode octantHeap
          (.mk ⟨0, 0, 0⟩ 1000 [0, 1, 2, 3, 4, 5, 6, 7, 8] ChildArray.empty8 true)) := by
  rw [(Scene.addModels_octree _ _).1]
  simp only [List.foldl_cons, List.foldl_nil, Scene.freshRoot]
  rw [Scene.insert_leaf _ _ _ _ _ _ (octantHeap_fits_root _) (by simp),
    Scene.insert_leaf _ _ _ _ _ _ (octantHeap_fits_root _) (by simp),
    Scene.insert_leaf _ _ _ _ _ _ (octantHeap_fits_root _) (by simp),
    Scene.insert_leaf _ _ _ _ _ _ (octantHeap_fits_root _) (by simp),
    Scene.insert_leaf _ _ _ _ _ _ (octantHeap_fits_root _) (by simp),
    Scene.insert_leaf _ _ _ _ _ _ (octantHeap_fits_root _) (by simp),
    Scene.insert_leaf _ _ _ _ _ _ (octantHeap_fits_root _) (by simp),
    Scene.insert_leaf _ _ _ _ _ _ (octantHeap_fits_root _) (by simp),
    Scene.insert_leaf_split _ _ _ _ _ _ (octantHeap_fits_root _) ⟨by simp, by norm_num⟩]
  rfl

theorem octantHeap_childIndex (m : ModelPtr) :
    childIndex (Vec3.sub ((octantHeap : ModelPtr → Model ℝ) m).GetPosition ⟨0, 0, 0⟩) = 7 := by
  simp [childIndex, octantHeap, segmentModel, Model.GetPosition, Vec3.sub]

/-- In the split tree of `octantHeap_tree` every model fits its descent path: the root
and child 7, whose centre is the position of the models. -/
theorem octantHeap_pathFit (m : ModelPtr) :
    PathFit (octantHeap : ModelPtr → Model ℝ) m (Scene.SplitOctreeNode octantHeap
      (.mk ⟨0, 0, 0⟩ 1000 [0, 1, 2, 3, 4, 5, 6, 7, 8] ChildArray.empty8 true)) := by
  rw [Scene.split_eq]
  refine PathFit.inner (octantHeap_fits_root m)
    (Scene.get?_split _ _ _ _ _ _ (childIndex_lt _)) (PathFit.leaf ?_)
  rw [octantHeap_childIndex]
  simp only [Fits, octantHeap_radius]
  simp [octantHeap, segmentModel, Model.GetPosition, makeChild, OctreeNode.center,
    Vec3.distance, Vec3.length, Vec3.sub, Vec3.add, Vec3.dot]
  norm_num

theorem cornerHeap_not_fits_root (m : ModelPtr) :
    ¬ Fits (cornerHeap : ModelPtr → Model ℝ) m ⟨0, 0, 0⟩ 1000 := by
  simp only [Fits, cornerHeap_radius]
  simp only [cornerHeap, segmentModel, Model.GetPosition, Vec3.distance, Vec3.length, Vec3.sub,
    Vec3.dot, sqrt_real, not_le]
  have key : (499 : ℝ) < Real.sqrt 480000 := by
    rw [Real.lt_sqrt (by norm_num)]
    norm_num
  norm_num
  linarith

theorem mixedHeap_fits_root (m : ModelPtr) :
    Fits (mixedHeap : ModelPtr → Model ℝ) m ⟨0, 0, 0⟩ 1000 := by
  by_cases h : m = 9
  · subst h
    simp only [Fits, mixedHeap, if_true, pointModel_radius, Model.GetPosition]
    simp only [pointModel, Vec3.distance_self]
    norm_num
  · have hr : ((mixedHeap : ModelPtr → Model ℝ) m).GetBoundingSphereRadius = 1 := by
      simp only [mixedHeap, if_neg h]
      exact octantHeap_radius 0
    have key : Real.sqrt 187500 ≤ 499 := by
      rw [Real.sqrt_le_iff]
      norm_num
    simp only [Fits, hr]
    simp only [mixedHeap, if_neg h, segmentModel, Model.GetPosition, Vec3.distance, Vec3.length,
      Vec3.sub, Vec3.dot, sqrt_real]
    norm_num
    linarith

/-- The mesh-less model at the origin does not fit child 0 of the split root. -/
theorem mixedHeap_not_fits_child :
    ¬ Fits (mixedHeap : ModelPtr → Model ℝ) 9
      (makeChild ⟨0, 0, 0⟩ (1000 * 0.5) 0).center (1000 * 0.5) := by
  have h := origin_far_from_children 0
  simp only [Fits, mixedHeap, if_true, pointModel_radius, Model.GetPosition, not_le]
  simp only [pointModel]
  linarith

/-- The octree after the first nine models of `mixedHeap` were added: the root was split
by the ninth insertion. -/
theorem mixedHeap_tree_nine :
    [0, 1, 2, 3, 4, 5, 6, 7, 8].foldl
        (fun node x => Scene.InsertModelInOctree (mixedHeap : ModelPtr → Model ℝ) x node)
        Scene.freshRoot
      = Scene.SplitOctreeNode mixedHeap
          (.mk ⟨0, 0, 0⟩ 1000 [0, 1, 2, 3, 4, 5, 6, 7, 8] ChildArray.empty8 true) := by
  simp only [List.foldl_cons, List.foldl_nil, Scene.freshRoot]
  rw [Scene.insert_leaf _ _ _ _ _ _ (mixedHeap_fits_root _) (by simp),
    Scene.insert_leaf _ _ _ _ _ _ (mixedHeap_fits_root _) (by simp),
    Scene.insert_leaf _ _ _ _ _ _ (mixedHeap_fits_root _) (by simp),
    Scene.insert_leaf _ _ _ _ _ _ (mixedHeap_fits_root _) (by simp),
    Scene.insert_leaf _ _ _ _ _ _ (mixedHeap_fits_root _) (by simp),
    Scene.insert_leaf _ _ _ _ _ _ (mixedHeap_fits_root _) (by simp),
    Scene.insert_leaf _ _ _ _ _ _ (mixedHeap_fits_root _) (by simp),
    Scene.insert_leaf _ _ _ _ _ _ (mixedHeap_fits_root _) (by simp),
    Scene.insert_leaf_split _ _ _ _ _ _ (mixedHeap_fits_root _) ⟨by simp, by norm_num⟩]
  rfl

/-- The tenth insertion, of the model at the origin, reaches child 0 of the split root,
fails the fit test there and leaves the tree as it was. -/
theorem mixedHeap_tree_ten :
    (Scene.addModels (mixedHeap : ModelPtr → Model ℝ) [0, 1, 2, 3, 4, 5, 6, 7, 8, 9]).octree
      = some (Scene.SplitOctreeNode mixedHeap
          (.mk ⟨0, 0, 0⟩ 1000 [0, 1, 2, 3, 4, 5, 6, 7, 8] ChildArray.empty8 true)) := by
  rw [(Scene.addModels_octree _ _).1]
  have hsplit : ([0, 1, 2, 3, 4, 5, 6, 7, 8, 9] : List ModelPtr)
      = [0, 1, 2, 3, 4, 5, 6, 7, 8] ++ [9] := rfl
  rw [hsplit, List.foldl_append, mixedHeap_tree_nine]
  simp only [List.foldl_cons, List.foldl_nil]
  have hidx : childIndex (Vec3.sub ((mixedHeap : ModelPtr → Model ℝ) 9).GetPosition ⟨0, 0, 0⟩)
      = 0 := by
    simp [childIndex, mixedHeap, pointModel, Model.GetPosition, Vec3.sub]
  rw [Scene.split_eq, Scene.insert_inner _ _ _ _ _ _ (mixedHeap_fits_root 9), hidx,
    ChildArray.insertInChild_eq_self _ _ _ 0 _ (Scene.get?_split _ _ _ _ _ 0 (by norm_num))
      (Scene.insert_of_not_fits _ _ _ _ _ _ _ mixedHeap_not_fits_child)]

/-! ### Plane extraction, bounding boxes and tree nodes -/

/-- A non-zero vector has positive length. -/
theorem Vec3.length_pos_of_ne_zero (v : Vec3 ℝ) (hv : v ≠ ⟨0, 0, 0⟩) : 0 < Vec3.length v := by
  simp only [Vec3.length, sqrt_real]
  apply Real.sqrt_pos.2
  have hne : v.x ≠ 0 ∨ v.y ≠ 0 ∨ v.z ≠ 0 := by
    by_contra hcon
    push_neg at hcon
    apply hv
    cases v
    simp_all
  simp only [Vec3.dot]
  rcases hne with h | h | h
  · nlinarith [mul_self_pos.2 h, mul_self_nonneg v.y, mul_self_nonneg v.z]
  · nlinarith [mul_self_pos.2 h, mul_self_nonneg v.x, mul_self_nonneg v.z]
  · nlinarith [mul_self_pos.2 h, mul_self_nonneg v.x, mul_self_nonneg v.y]

/-- Dividing a plane by a positive number does not change its inner side. -/
theorem insidePlane_div (q : Vec4 α) (k : α) (hk : 0 < k) (p : Vec3 α) :
    insidePlane (q.div k) p ↔ insidePlane q p := by
  simp only [insidePlane, Vec4.div, Vec4.xyz, Vec3.dot]
  have h : q.x / k * p.x + q.y / k * p.y + q.z / k * p.z + q.w / k
      = (q.x * p.x + q.y * p.y + q.z * p.z + q.w) / k := by
    field_simp
  rw [h]
  exact div_nonneg_iff.trans (by
    constructor
    · rintro (⟨h1, _⟩ | ⟨_, h2⟩)
      · exact h1
      · exact absurd hk (not_lt.2 h2)
    · intro h1
      exact Or.inl ⟨h1, hk.le⟩)

/-- The six raw planes are the six clip-space inequalities. -/
theorem insidePlane_extractPlanes (M : Mat4 α) (p : Vec3 α) :
    (∀ i, insidePlane (extractPlanes M i) p) ↔ inClipVolume M p := by
  simp only [inClipVolume, clipCoords, Mat4.mulVec, Vec4.add, Vec4.smul, Vec4.ofVec3]
  constructor
  · intro h
    have h0 := h 0
    have h1 := h 1
    have h2 := h 2
    have h3 := h 3
    have h4 := h 4
    have h5 := h 5
    simp only [insidePlane, extractPlanes, Vec4.xyz, Vec3.dot] at h0 h1 h2 h3 h4 h5
    refine ⟨⟨?_, ?_⟩, ⟨?_, ?_⟩, ⟨?_, ?_⟩⟩ <;> linarith
  · rintro ⟨⟨a0, a1⟩, ⟨a2, a3⟩, ⟨a4, a5⟩⟩ i
    fin_cases i <;> simp only [insidePlane, extractPlanes, Vec4.xyz, Vec3.dot] <;> linarith

/-- The length of a vector divided by its own positive length is one. -/
theorem Vec3.length_div_length (q : Vec4 ℝ) (hq : q.xyz ≠ ⟨0, 0, 0⟩) :
    Vec3.length (q.div (Vec3.length q.xyz)).xyz = 1 := by
  have hpos := Vec3.length_pos_of_ne_zero _ hq
  set k := Vec3.length q.xyz with hk
  have hsq : k ^ 2 = Vec3.dot q.xyz q.xyz := by
    rw [hk]
    simp only [Vec3.length, sqrt_real]
    apply Real.sq_sqrt
    simp only [Vec3.dot]
    nlinarith [mul_self_nonneg q.xyz.x, mul_self_nonneg q.xyz.y, mul_self_nonneg q.xyz.z]
  simp only [Vec3.length, sqrt_real]
  rw [Real.sqrt_eq_one]
  simp only [Vec4.div, Vec4.xyz, Vec3.dot] at hsq ⊢
  field_simp
  linarith

theorem extractPlanes_identity_ne_zero (i : Fin 6) :
    (extractPlanes (Mat4.identity : Mat4 ℝ) i).xyz ≠ ⟨0, 0, 0⟩ := by
  fin_cases i <;> simp [extractPlanes, Mat4.identity, Vec4.xyz]

/-- The running minimum of the box loop, component by component. -/
theorem Vec3.foldl_min_components {β : Type} (f : β → Vec3 α) (l : List β) :
    ∀ a : Vec3 α,
      (l.foldl (fun acc v => Vec3.min acc (f v)) a).x
          = l.foldl (fun acc v => Min.min acc (f v).x) a.x ∧
      (l.foldl (fun acc v => Vec3.min acc (f v)) a).y
          = l.foldl (fun acc v => Min.min acc (f v).y) a.y ∧
      (l.foldl (fun acc v => Vec3.min acc (f v)) a).z
          = l.foldl (fun acc v => Min.min acc (f v).z) a.z := by
  induction l with
  | nil => intro a; simp
  | cons v l ih =>
    intro a
    simp only [List.foldl_cons]
    have h := ih (Vec3.min a (f v))
    simpa [Vec3.min] using h

/-- The running maximum of the box loop, component by component. -/
theorem Vec3.foldl_max_components {β : Type} (f : β → Vec3 α) (l : List β) :
    ∀ a : Vec3 α,
      (l.foldl (fun acc v => Vec3.max acc (f v)) a).x
          = l.foldl (fun acc v => Max.max acc (f v).x) a.x ∧
      (l.foldl (fun acc v => Vec3.max acc (f v)) a).y
          = l.foldl (fun acc v => Max.max acc (f v).y) a.y ∧
      (l.foldl (fun acc v => Vec3.max acc (f v)) a).z
          = l.foldl (fun acc v => Max.max acc (f v).z) a.z := by
  induction l with
  | nil => intro a; simp
  | cons v l ih =>
    intro a
    simp only [List.foldl_cons]
    have h := ih (Vec3.max a (f v))
    simpa [Vec3.max] using h

/-- A running minimum is below its start value and below every element, and it is the
start value or one of the elements. -/
theorem foldl_min_spec {β : Type} (g : β → α) (l : List β) :
    ∀ a : α,
      l.foldl (fun acc v => Min.min acc (g v)) a ≤ a ∧
      (∀ v ∈ l, l.foldl (fun acc v => Min.min acc (g v)) a ≤ g v) ∧
      (l.foldl (fun acc v => Min.min acc (g v)) a = a ∨
        ∃ v ∈ l, l.foldl (fun acc v => Min.min acc (g v)) a = g v) := by
  induction l with
  | nil => intro a; simp
  | cons v l ih =>
    intro a
    simp only [List.foldl_cons]
    obtain ⟨h1, h2, h3⟩ := ih (Min.min a (g v))
    refine ⟨h1.trans (min_le_left _ _), ?_, ?_⟩
    · intro u hu
      rcases List.mem_cons.1 hu with rfl | hu
      · exact h1.trans (min_le_right _ _)
      · exact h2 u hu
    · rcases h3 with h | ⟨w, hw, h⟩
      · rcases min_choice a (g v) with hc | hc
        · exact Or.inl (h.trans hc)
        · exact Or.inr ⟨v, List.mem_cons_self _ _, h.trans hc⟩
      · exact Or.inr ⟨w, List.mem_cons_of_mem _ hw, h⟩

/-- A running maximum is above its start value and above every element, and it is the
start value or one of the elements. -/
theorem foldl_max_spec {β : Type} (g : β → α) (l : List β) :
    ∀ a : α,
      a ≤ l.foldl (fun acc v => Max.max acc (g v)) a ∧
      (∀ v ∈ l, g v ≤ l.foldl (fun acc v => Max.max acc (g v)) a) ∧
      (l.foldl (fun acc v => Max.max acc (g v)) a = a ∨
        ∃ v ∈ l, l.foldl (fun acc v => Max.max acc (g v)) a = g v) := by
  induction l with
  | nil => intro a; simp
  | cons v l ih =>
    intro a
    simp only [List.foldl_cons]
    obtain ⟨h1, h2, h3⟩ := ih (Max.max a (g v))
    refine ⟨(le_max_left _ _).trans h1, ?_, ?_⟩
    · intro u hu
      rcases List.mem_cons.1 hu with rfl | hu
      · exact (le_max_right _ _).trans h1
      · exact h2 u hu
    · rcases h3 with h | ⟨w, hw, h⟩
      · rcases max_choice a (g v) with hc | hc
        · exact Or.inl (h.trans hc)
        · exact Or.inr ⟨v, List.mem_cons_self _ _, h.trans hc⟩
      · exact Or.inr ⟨w, List.mem_cons_of_mem _ hw, h⟩

/-- The least element of a non-empty list whose elements are at most the start value:
the running minimum is a lower bound and is attained. -/
theorem foldl_min_attained {β : Type} (g : β → α) (l : List β) (a : α) (hne : l ≠ [])
    (hle : ∀ v ∈ l, g v ≤ a) :
    (∀ v ∈ l, l.foldl (fun acc v => Min.min acc (g v)) a ≤ g v) ∧
      ∃ v ∈ l, l.foldl (fun acc v => Min.min acc (g v)) a = g v := by
  obtain ⟨_, h2, h3⟩ := foldl_min_spec g l a
  refine ⟨h2, ?_⟩
  rcases h3 with h | h
  · obtain ⟨v, hv⟩ := List.exists_mem_of_ne_nil l hne
    exact ⟨v, hv, le_antisymm (h2 v hv) (by rw [h]; exact hle v hv)⟩
  · exact h

/-- The greatest element of a non-empty list whose elements are at least the start
value: the running maximum is an upper bound and is attained. -/
theorem foldl_max_attained {β : Type} (g : β → α) (l : List β) (a : α) (hne : l ≠ [])
    (hle : ∀ v ∈ l, a ≤ g v) :
    (∀ v ∈ l, g v ≤ l.foldl (fun acc v => Max.max acc (g v)) a) ∧
      ∃ v ∈ l, l.foldl (fun acc v => Max.max acc (g v)) a = g v := by
  obtain ⟨_, h2, h3⟩ := foldl_max_spec g l a
  refine ⟨h2, ?_⟩
  rcases h3 with h | h
  · obtain ⟨v, hv⟩ := List.exists_mem_of_ne_nil l hne
    exact ⟨v, hv, le_antisymm (by rw [h]; exact hle v hv) (h2 v hv)⟩
  · exact h

/-- With at least one vertex the box loops run: the mesh list is not empty. -/
theorem Model.meshes_ne_nil_of_vertices (m : Model α) (hne : m.allVertices ≠ []) :
    m.meshes.isEmpty = false := by
  cases hm : m.meshes with
  | nil => simp [Model.allVertices, hm] at hne
  | cons _ _ => rfl

theorem ChildArray.mem_nodes (n : OctreeNode α) (cs : ChildArray α) :
    n ∈ cs.nodes ↔ ∃ i child, cs.get? i = some child ∧ n ∈ child.nodes := by
  induction cs using ChildArray.slot_induct with
  | hnil => simp [ChildArray.nodes, ChildArray.get?]
  | hnull rest ih =>
    rw [ChildArray.nodes, ih]
    constructor
    · rintro ⟨i, child, hget, hx⟩
      exact ⟨i + 1, child, by simpa [ChildArray.get?] using hget, hx⟩
    · rintro ⟨i, child, hget, hx⟩
      cases i with
      | zero => simp [ChildArray.get?] at hget
      | succ i => exact ⟨i, child, by simpa [ChildArray.get?] using hget, hx⟩
  | hptr c rest ih =>
    rw [ChildArray.nodes, List.mem_append, ih]
    constructor
    · rintro (hx | ⟨i, child, hget, hx⟩)
      · exact ⟨0, c, by simp [ChildArray.get?], hx⟩
      · exact ⟨i + 1, child, by simpa [ChildArray.get?] using hget, hx⟩
    · rintro ⟨i, child, hget, hx⟩
      cases i with
      | zero =>
        simp only [ChildArray.get?, Option.some.injEq] at hget
        exact Or.inl (hget ▸ hx)
      | succ i => exact Or.inr ⟨i, child, by simpa [ChildArray.get?] using hget, hx⟩

/-- The nodes of a tree are its root and the nodes of the children in its slots. -/
theorem OctreeNode.mem_nodes_mk (n : OctreeNode α) (c : Vec3 α) (s : α) (ms : List ModelPtr)
    (cs : ChildArray α) (l : Bool) :
    n ∈ (OctreeNode.mk c s ms cs l).nodes ↔
      n = .mk c s ms cs l ∨ ∃ i child, cs.get? i = some child ∧ n ∈ child.nodes := by
  rw [OctreeNode.nodes, List.mem_cons, ChildArray.mem_nodes]

theorem OctreeNode.self_mem_nodes (n : OctreeNode α) : n ∈ n.nodes := by
  cases n
  simp [OctreeNode.nodes]

theorem ChildArray.nodes_empty8 : (ChildArray.empty8 : ChildArray α).nodes = [] := by
  simp [ChildArray.empty8, ChildArray.nodes]

/-- A split leaf and its eight fresh leaves satisfy the interior-node invariant. -/
theorem Scene.interiorOk_split (heap : ModelPtr → Model α) (c : Vec3 α) (s : α)
    (ms : List ModelPtr) (cs : ChildArray α) :
    ∀ n ∈ (Scene.SplitOctreeNode heap (.mk c s ms cs true)).nodes, InteriorOk n := by
  intro n hn
  rw [Scene.split_eq, OctreeNode.mem_nodes_mk] at hn
  rcases hn with rfl | ⟨i, child, hget, hmem⟩
  · intro _
    refine ⟨rfl, fun i hi => ?_⟩
    simp only [OctreeNode.children]
    exact ⟨_, Scene.get?_split heap c s ms cs i hi⟩
  · by_cases hi : i < 8
    · rw [Scene.get?_split heap c s ms cs i hi, Option.some.injEq] at hget
      subst hget
      rw [OctreeNode.nodes, ChildArray.nodes_empty8, List.mem_singleton] at hmem
      subst hmem
      intro h
      simp [OctreeNode.isLeaf] at h
    · rw [Scene.get?_split_of_ge heap c s ms cs i (by omega)] at hget
      exact Option.noConfusion hget

/-- An insertion keeps the interior-node invariant. -/
theorem Scene.interiorOk_insert [HasSqrt α] (heap : ModelPtr → Model α) (m : ModelPtr) :
    ∀ node : OctreeNode α, (∀ n ∈ node.nodes, InteriorOk n) →
      ∀ n ∈ (Scene.InsertModelInOctree heap m node).nodes, InteriorOk n := by
  intro node
  induction node using OctreeNode.node_induct with
  | step c s ms cs l ih =>
    intro hq
    rw [Scene.InsertModelInOctree]
    split_ifs with h1 h2 h3
    · exact hq
    · subst h2
      exact Scene.interiorOk_split heap c s _ cs
    · subst h2
      intro n hn
      rw [OctreeNode.mem_nodes_mk] at hn
      rcases hn with rfl | hn
      · intro h
        simp [OctreeNode.isLeaf] at h
      · exact hq n ((OctreeNode.mem_nodes_mk _ _ _ _ _ _).2 (Or.inr hn))
    · have hl : l = false := by simpa using h2
      subst hl
      have hself := hq _ (OctreeNode.self_mem_nodes _) rfl
      simp only [OctreeNode.models, OctreeNode.children] at hself
      intro n hn
      rw [OctreeNode.mem_nodes_mk] at hn
      rcases hn with rfl | ⟨j, child, hget, hmem⟩
      · intro _
        refine ⟨hself.1, fun j hj => ?_⟩
        obtain ⟨c0, hc0⟩ := hself.2 j hj
        simp only [OctreeNode.children]
        by_cases hij : childIndex (Vec3.sub (heap m).GetPosition c) = j
        · rw [← hij, ChildArray.get?_insertInChild_self, hij, hc0]
          exact ⟨_, rfl⟩
        · rw [ChildArray.get?_insertInChild_ne _ _ _ _ _ hij, hc0]
          exact ⟨_, rfl⟩
      · by_cases hij : childIndex (Vec3.sub (heap m).GetPosition c) = j
        · rw [← hij, ChildArray.get?_insertInChild_self] at hget
          cases hc : cs.get? (childIndex (Vec3.sub (heap m).GetPosition c)) with
          | none => simp [hc] at hget
          | some c0 =>
            rw [hc] at hget
            simp only [Option.map_some', Option.some.injEq] at hget
            subst hget
            refine ih _ c0 hc ?_ n hmem
            intro k hk
            exact hq k ((OctreeNode.mem_nodes_mk _ _ _ _ _ _).2 (Or.inr ⟨_, c0, hc, hk⟩))
        · rw [ChildArray.get?_insertInChild_ne _ _ _ _ _ hij] at hget
          exact hq n ((OctreeNode.mem_nodes_mk _ _ _ _ _ _).2 (Or.inr ⟨j, child, hget, hmem⟩))

/-- Every tree built by insertions into a fresh root satisfies the interior-node
invariant. -/
theorem Scene.interiorOk_foldl_insert [HasSqrt α] (heap : ModelPtr → Model α)
    (ms : List ModelPtr) :
    ∀ n ∈ (ms.foldl (fun node m => Scene.InsertModelInOctree heap m node)
      (Scene.freshRoot : OctreeNode α)).nodes, InteriorOk n := by
  induction ms using List.reverseRecOn with
  | nil =>
    intro n hn
    simp only [List.foldl_nil, Scene.freshRoot, OctreeNode.nodes, ChildArray.nodes_empty8,
      List.mem_singleton] at hn
    subst hn
    intro h
    simp [OctreeNode.isLeaf] at h
  | append_singleton ms m ih =>
    simp only [List.foldl_append, List.foldl_cons, List.foldl_nil]
    exact Scene.interiorOk_insert heap m _ ih

/-- Without `Clear` the octree of a scene is always the tree built from its model list
by insertion into a fresh root. -/
theorem Scene.run_octree [HasSqrt α] (heap : ModelPtr → Model α) (ops : List SceneOp)
    (hops : noClear ops) :
    (Scene.run heap ops).octree
      = some ((Scene.run heap ops).models.foldl
          (fun node m => Scene.InsertModelInOctree heap m node) Scene.freshRoot) := by
  induction ops using List.reverseRecOn with
  | nil => simp [Scene.run, Scene.new]
  | append_singleton ops op ih =>
    have hprev : noClear ops := fun o ho => hops o (List.mem_append_left _ ho)
    have hop : op ≠ SceneOp.clear := hops op (by simp)
    have ih := ih hprev
    simp only [Scene.run, List.foldl_append, List.foldl_cons, List.foldl_nil] at ih ⊢
    cases op with
    | addModel m => simp [Scene.step, Scene.AddModel, ih]
    | removeModel m =>
      simp only [Scene.step, Scene.RemoveModel]
      split_ifs
      · simp [Scene.BuildOctree]
      · exact ih
    | clear => exact absurd rfl hop

/-- Without `Clear`, rebuilding the octree reproduces the scene as it is. -/
theorem Scene.BuildOctree_run [HasSqrt α] (heap : ModelPtr → Model α) (ops : List SceneOp)
    (hops : noClear ops) :
    (Scene.run heap ops).BuildOctree heap = Scene.run heap ops := by
  have h := Scene.run_octree heap ops hops
  cases hs : Scene.run heap ops with
  | mk models lights skybox ambient octree =>
    rw [hs] at h
    simp only at h
    simp [Scene.BuildOctree, h]

theorem originHeap_fits_root (m : ModelPtr) :
    Fits (originHeap : ModelPtr → Model ℝ) m ⟨0, 0, 0⟩ 1000 := by
  simp only [Fits, originHeap, pointModel_radius, Model.GetPosition]
  simp only [pointModel, Vec3.distance_self]
  norm_num

/-- The octree after nine mesh-less models were added at the origin: the root was
split by the ninth insertion. -/
theorem originHeap_tree :
    (Scene.addModels (originHeap : ModelPtr → Model ℝ) [0, 1, 2, 3, 4, 5, 6, 7, 8]).octree
      = some (Scene.SplitOctreeNode originHeap
          (.mk ⟨0, 0, 0⟩ 1000 [0, 1, 2, 3, 4, 5, 6, 7, 8] ChildArray.empty8 true)) := by
  rw [(Scene.addModels_octree _ _).1]
  simp only [List.foldl_cons, List.foldl_nil, Scene.freshRoot]
  rw [Scene.insert_leaf _ _ _ _ _ _ (originHeap_fits_root _) (by simp),
    Scene.insert_leaf _ _ _ _ _ _ (originHeap_fits_root _) (by simp),
    Scene.insert_leaf _ _ _ _ _ _ (originHeap_fits_root _) (by simp),
    Scene.insert_leaf _ _ _ _ _ _ (originHeap_fits_root _) (by simp),
    Scene.insert_leaf _ _ _ _ _ _ (originHeap_fits_root _) (by simp),
    Scene.insert_leaf _ _ _ _ _ _ (originHeap_fits_root _) (by simp),
    Scene.insert_leaf _ _ _ _ _ _ (originHeap_fits_root _) (by simp),
    Scene.insert_leaf _ _ _ _ _ _ (originHeap_fits_root _) (by simp),
    Scene.insert_leaf_split _ _ _ _ _ _ (originHeap_fits_root _) ⟨by simp, by norm_num⟩]
  rfl

/-- A child of a split leaf is a node of the tree. -/
theorem Scene.split_child_mem_nodes (heap : ModelPtr → Model α) (c : Vec3 α) (s : α)
    (ms : List ModelPtr) (cs : ChildArray α) (j : Nat) (hj : j < 8) :
    OctreeNode.mk (makeChild c (s * 0.5) j).center (s * 0.5)
        (ms.filter (fun m => childIndex (Vec3.sub (heap m).GetPosition c) = j))
        ChildArray.empty8 true
      ∈ (Scene.SplitOctreeNode heap (.mk c s ms cs true)).nodes := by
  rw [Scene.split_eq, OctreeNode.mem_nodes_mk]
  exact Or.inr ⟨j, _, Scene.get?_split heap c s ms cs j hj, OctreeNode.self_mem_nodes _⟩

/-! ### Split threshold, child placement and subdivision depth -/

/-- A split leaf is an interior node. -/
theorem Scene.split_isLeaf (heap : ModelPtr → Model α) (c : Vec3 α) (s : α)
    (ms : List ModelPtr) (cs : ChildArray α) :
    (Scene.SplitOctreeNode heap (.mk c s ms cs true)).isLeaf = false := by
  rw [Scene.split_eq]
  rfl

/-- A mesh-less model at the origin fits the leaf `smallLeaf`. -/
theorem originHeap_fits_smallLeaf (m : ModelPtr) :
    Fits (originHeap : ModelPtr → Model ℝ) m ⟨0, 0, 0⟩ 15.625 := by
  simp only [Fits, originHeap, pointModel_radius, Model.GetPosition]
  simp only [pointModel, Vec3.distance_self]
  norm_num

/-- The three bits of the child index are the three sign tests. -/
theorem childIndex_testBit (d : Vec3 α) :
    ((childIndex d).testBit 0 = true ↔ d.x > 0) ∧
      ((childIndex d).testBit 1 = true ↔ d.y > 0) ∧
      ((childIndex d).testBit 2 = true ↔ d.z > 0) := by
  by_cases h1 : d.x > 0 <;> by_cases h2 : d.y > 0 <;> by_cases h3 : d.z > 0 <;>
    simp only [childIndex, h1, h2, h3, if_true, if_false, iff_true, iff_false] <;> decide

/-- The bit tests of the child loop, `i & 1`, `i & 2` and `i & 4`, read bits 0, 1, 2. -/
theorem land_ne_zero_iff_testBit (j : Nat) (hj : j < 8) :
    (j &&& 1 ≠ 0 ↔ j.testBit 0 = true) ∧ (j &&& 2 ≠ 0 ↔ j.testBit 1 = true) ∧
      (j &&& 4 ≠ 0 ↔ j.testBit 2 = true) := by
  interval_cases j <;> decide

/-- The centre of child `j`: the parent centre moved by a quarter of the parent size
along each axis, forward when the bit of the axis is set. -/
theorem makeChild_center (c : Vec3 α) (s : α) (j : Nat) (hj : j < 8) :
    (makeChild c (s * 0.5) j).center
      = ⟨c.x + (if j.testBit 0 then s / 4 else -(s / 4)),
         c.y + (if j.testBit 1 then s / 4 else -(s / 4)),
         c.z + (if j.testBit 2 then s / 4 else -(s / 4))⟩ := by
  obtain ⟨h0, h1, h2⟩ := land_ne_zero_iff_testBit j hj
  simp only [makeChild, OctreeNode.center, Vec3.add, Vec3.mk.injEq]
  refine ⟨?_, ?_, ?_⟩
  · by_cases h : j.testBit 0 = true
    · rw [if_pos (h0.2 h), if_pos h]; norm_num; ring
    · rw [if_neg (fun hh => h (h0.1 hh)), if_neg h]; norm_num; ring
  · by_cases h : j.testBit 1 = true
    · rw [if_pos (h1.2 h), if_pos h]; norm_num; ring
    · rw [if_neg (fun hh => h (h1.1 hh)), if_neg h]; norm_num; ring
  · by_cases h : j.testBit 2 = true
    · rw [if_pos (h2.2 h), if_pos h]; norm_num; ring
    · rw [if_neg (fun hh => h (h2.1 hh)), if_neg h]; norm_num; ring

/-- Sorting a list into eight bins by an index below 8 and concatenating the bins gives
a permutation of the list. -/
theorem perm_flatMap_filter_range8 (f : ModelPtr → Nat) (L : List ModelPtr)
    (hf : ∀ m, f m < 8) :
    List.Perm ((List.range 8).flatMap (fun j => L.filter (fun m => f m = j))) L := by
  rw [List.perm_iff_count]
  intro a
  have hr : List.range 8 = [0, 1, 2, 3, 4, 5, 6, 7] := by decide
  have hcount : ∀ j, List.count a (L.filter (fun m => decide (f m = j)))
      = if f a = j then List.count a L else 0 := by
    intro j
    by_cases h : f a = j
    · rw [if_pos h, List.count_filter (by simpa using h)]
    · rw [if_neg h]
      apply List.count_eq_zero_of_not_mem
      intro hmem
      exact h (by simpa using (List.mem_filter.1 hmem).2)
  simp only [hr, List.flatMap_cons, List.flatMap_nil, List.count_append, List.count_nil,
    hcount]
  obtain ⟨k, hk⟩ : ∃ k, f a = k := ⟨_, rfl⟩
  have hk8 : k < 8 := hk ▸ hf a
  rw [hk]
  interval_cases k <;> simp

/-- The initial child array holds no child. -/
theorem ChildArray.get?_empty8 (i : Nat) : (ChildArray.empty8 : ChildArray α).get? i = none := by
  unfold ChildArray.empty8
  rcases i with _ | _ | _ | _ | _ | _ | _ | _ | _ | i <;> rfl

/-- A node of size above 10 at depth `d` has `d <= 6`. -/
theorem depth_le_six_of_size (d : Nat) (h : (1000 : α) / 2 ^ d > 10) : d ≤ 6 := by
  by_contra hd
  have h7 : 7 ≤ d := by omega
  have hpow : (2 : α) ^ 7 ≤ 2 ^ d := pow_le_pow_right₀ (by norm_num) h7
  have hpos : (0 : α) < 2 ^ d := by positivity
  rw [gt_iff_lt, lt_div_iff₀ hpos] at h
  norm_num at hpow
  linarith

/-- A split keeps the sizing by depth: the eight children are one level deeper. -/
theorem sizeAt_split (heap : ModelPtr → Model α) (d : Nat) (c : Vec3 α) (s : α)
    (ms : List ModelPtr) (cs : ChildArray α) (hs : s = 1000 / 2 ^ d) (hd : d ≤ 7)
    (hbig : s > 10) :
    SizeAt d (Scene.SplitOctreeNode heap (.mk c s ms cs true)) := by
  rw [Scene.split_eq]
  refine SizeAt.node hs hd ?_
  intro i child hget
  by_cases hi : i < 8
  · rw [Scene.get?_split heap c s ms cs i hi, Option.some.injEq] at hget
    subst hget
    refine SizeAt.node ?_ ?_ ?_
    · rw [hs, pow_succ]
      rw [show (0.5 : α) = 1 / 2 by norm_num]
      field_simp
    · have := depth_le_six_of_size d (hs ▸ hbig)
      omega
    · intro j child2 h2
      rw [ChildArray.get?_empty8] at h2
      exact Option.noConfusion h2
  · rw [Scene.get?_split_of_ge heap c s ms cs i (by omega)] at hget
    exact Option.noConfusion hget

/-- An insertion keeps the sizing by depth. -/
theorem sizeAt_insert [HasSqrt α] (heap : ModelPtr → Model α) (m : ModelPtr) :
    ∀ (node : OctreeNode α) (d : Nat), SizeAt d node →
      SizeAt d (Scene.InsertModelInOctree heap m node) := by
  intro node
  induction node using OctreeNode.node_induct with
  | step c s ms cs l ih =>
    intro d h
    cases h with
    | node hs hd hch =>
      rw [Scene.InsertModelInOctree]
      split_ifs with h1 h2 h3
      · exact SizeAt.node hs hd hch
      · subst h2
        exact sizeAt_split heap d c s _ cs hs hd h3.2
      · exact SizeAt.node hs hd hch
      · refine SizeAt.node hs hd ?_
        intro j child hget
        by_cases hij : childIndex (Vec3.sub (heap m).GetPosition c) = j
        · rw [← hij, ChildArray.get?_insertInChild_self] at hget
          cases hc : cs.get? (childIndex (Vec3.sub (heap m).GetPosition c)) with
          | none => simp [hc] at hget
          | some c0 =>
            rw [hc] at hget
            simp only [Option.map_some', Option.some.injEq] at hget
            subst hget
            exact ih _ c0 hc (d + 1) (hch _ c0 hc)
        · rw [ChildArray.get?_insertInChild_ne _ _ _ _ _ hij] at hget
          exact hch j child hget

/-- Every tree built by insertions into a fresh root is sized by depth. -/
theorem sizeAt_foldl_insert [HasSqrt α] (heap : ModelPtr → Model α) (ms : List ModelPtr) :
    SizeAt 0 (ms.foldl (fun node m => Scene.InsertModelInOctree heap m node)
      (Scene.freshRoot : OctreeNode α)) := by
  induction ms using List.reverseRecOn with
  | nil =>
    refine SizeAt.node (by norm_num) (by norm_num) ?_
    intro i child h
    rw [ChildArray.get?_empty8] at h
    exact Option.noConfusion h
  | append_singleton ms m ih =>
    simp only [List.foldl_append, List.foldl_cons, List.foldl_nil]
    exact sizeAt_insert heap m _ 0 ih

/-- In a tree sized by depth every node has a size `1000 / 2^e` with `e <= 7`. -/
theorem sizeAt_nodes :
    ∀ (node : OctreeNode α) (d : Nat), SizeAt d node →
      ∀ n ∈ node.nodes, ∃ e, e ≤ 7 ∧ n.size = 1000 / 2 ^ e := by
  intro node
  induction node using OctreeNode.node_induct with
  | step c s ms cs l ih =>
    intro d h n hn
    cases h with
    | node hs hd hch =>
      rw [OctreeNode.mem_nodes_mk] at hn
      rcases hn with rfl | ⟨i, child, hget, hmem⟩
      · exact ⟨d, hd, hs⟩
      · exact ih i child hget (d + 1) (hch i child hget) n hmem

/-! ### Registry, bounding sphere and building geometry -/

/-- Without an octree `AddModel` only appends to the model list. -/
theorem Scene.foldl_AddModel_of_no_octree [HasSqrt α] (heap : ModelPtr → Model α)
    (ms : List ModelPtr) :
    ∀ s : Scene α, s.octree = none →
      (ms.foldl (Scene.AddModel heap) s).octree = none ∧
      (ms.foldl (Scene.AddModel heap) s).models = s.models ++ ms := by
  induction ms with
  | nil => intro s h; simp [h]
  | cons m ms ih =>
    intro s h
    simp only [List.foldl_cons]
    have h1 : (s.AddModel heap m).octree = none := by simp [Scene.AddModel, h]
    obtain ⟨h2, h3⟩ := ih (s.AddModel heap m) h1
    refine ⟨h2, ?_⟩
    rw [h3]
    simp [Scene.AddModel]

/-- The octree of every reachable scene, if present, stores registered models only. -/
theorem Scene.run_allModels_subset [HasSqrt α] (heap : ModelPtr → Model α)
    (ops : List SceneOp) :
    ∀ tree, (Scene.run heap ops).octree = some tree →
      ∀ x ∈ tree.allModels, x ∈ (Scene.run heap ops).models := by
  induction ops using List.reverseRecOn with
  | nil =>
    intro tree h x hx
    simp only [Scene.run, List.foldl_nil, Scene.new, Option.some.injEq] at h
    subst h
    simp [Scene.freshRoot, OctreeNode.allModels, ChildArray.allModels_empty8] at hx
  | append_singleton ops op ih =>
    intro tree h x hx
    simp only [Scene.run, List.foldl_append, List.foldl_cons, List.foldl_nil] at ih h ⊢
    cases op with
    | addModel m =>
      simp only [Scene.step, Scene.AddModel] at h ⊢
      cases ho : (List.foldl (Scene.step heap) Scene.new ops).octree with
      | none => simp [ho] at h
      | some t0 =>
        rw [ho] at h
        simp only [Option.map_some', Option.some.injEq] at h
        subst h
        rcases Scene.mem_allModels_insert heap m x t0 hx with hm | hm
        · simp [hm]
        · exact List.mem_append_left _ (ih t0 ho x hm)
    | removeModel m =>
      simp only [Scene.step, Scene.RemoveModel] at h ⊢
      split_ifs at h ⊢ with hmem
      · simp only [Scene.BuildOctree, Option.some.injEq] at h ⊢
        subst h
        exact Scene.mem_allModels_foldl_insert heap _ x hx
      · exact ih tree h x hx
    | clear =>
      simp [Scene.step, Scene.Clear] at h

/-- The bounding radius of the triangle model is half the diagonal of its box. -/
theorem triangleModel_radius :
    (triangleModel : Model ℝ).GetBoundingSphereRadius = Real.sqrt (1 / 2) := by
  simp only [Model.GetBoundingSphereRadius, triangleModel_box.1, triangleModel_box.2,
    Vec3.length, sqrt_real, Vec3.dot, Vec3.sub, Vec3.add, Vec3.smul]
  norm_num

/-- The vertex `(1, 1, 0)` of the triangle model is at distance `sqrt 2` from the position. -/
theorem triangleModel_far_vertex :
    Vec3.distance (triangleModel : Model ℝ).GetPosition
      ((triangleModel : Model ℝ).worldPos ⟨⟨1, 1, 0⟩⟩) = Real.sqrt 2 := by
  simp only [Vec3.distance, Vec3.length, sqrt_real, Vec3.dot, Vec3.sub, Model.GetPosition,
    Model.worldPos, triangleModel, Mat4.mulVec, Mat4.identity, Vec4.add, Vec4.smul,
    Vec4.ofVec3, Vec4.xyz]
  norm_num

/-- A rational upper bound of `sqrt (1 / 2)`. -/
theorem sqrt_half_lt : Real.sqrt (1 / 2) < 3 / 4 := by
  rw [Real.sqrt_lt' (by norm_num)]
  norm_num

/-- A rational lower bound of `sqrt 2`. -/
theorem lt_sqrt_two : (7 / 5 : ℝ) < Real.sqrt 2 := by
  rw [Real.lt_sqrt (by norm_num)]
  norm_num

/-- Extensions compose. -/
theorem Geometry.Extends.trans {k l : Nat} {g1 g2 g3 : Geometry α}
    (h1 : Geometry.Extends k g1 g2) (h2 : Geometry.Extends l g2 g3) :
    Geometry.Extends (k + l) g1 g3 := by
  refine ⟨by rw [h2.1, h1.1]; omega, ?_⟩
  intro i hi
  rcases h2.2 i hi with h | h
  · rcases h1.2 i h with h3 | h3
    · exact Or.inl h3
    · right
      rw [h2.1]
      omega
  · exact Or.inr h

/-- A loop whose body extends the geometry by `k` vertices extends it by `k` per iteration. -/
theorem Geometry.Extends.foldl {β : Type} {k : Nat} (f : Geometry α → β → Geometry α)
    (hf : ∀ g x, Geometry.Extends k g (f g x)) (l : List β) (g : Geometry α) :
    Geometry.Extends (k * l.length) g (l.foldl f g) := by
  induction l using List.reverseRecOn with
  | nil => exact ⟨by simp, fun i hi => Or.inl hi⟩
  | append_singleton l x ih =>
    simp only [List.foldl_append, List.foldl_cons, List.foldl_nil, List.length_append,
      List.length_singleton, Nat.mul_add, Nat.mul_one]
    exact ih.trans (hf _ x)

/-- One window: twelve new vertices, and every new index is in range. -/
theorem Building.AddWindow_extends (g : Geometry α) (p : Vec3 α) (w h d : α) :
    Geometry.Extends 12 g (Building.AddWindow g p w h d) := by
  refine ⟨by simp [Building.AddWindow], ?_⟩
  intro i hi
  simp only [Building.AddWindow, List.mem_append, List.mem_cons, List.length_append,
    List.length_cons, List.length_nil, List.mem_nil_iff, or_false] at hi ⊢
  rcases hi with (hi | hi) | hi
  · exact Or.inl hi
  · right; omega
  · right; omega

/-- The windows of one floor: 120 new vertices, and every new index is in range. -/
theorem Building.addFloorWindows_extends (b : Building α) (fh : α) (g : Geometry α)
    (floor : Nat) :
    Geometry.Extends 120 g (Building.addFloorWindows b fh g floor) := by
  have hpair : ∀ (g : Geometry α) (p q : Vec3 α) (w h d : α),
      Geometry.Extends 24 g (Building.AddWindow (Building.AddWindow g p w h d) q w h d) :=
    fun g p q w h d =>
      (Building.AddWindow_extends g p w h d).trans (Building.AddWindow_extends _ q w h d)
  unfold Building.addFloorWindows
  have h1 := Geometry.Extends.foldl (k := 24) (fun (g : Geometry α) (window : Nat) =>
      Building.AddWindow
        (Building.AddWindow g ⟨((window : α) - 1) * (b.size.x / 3), (floor : α) * fh,
          -b.size.z / 2 - 0.1 / 2⟩ 1.5 2.0 0.1)
        ⟨((window : α) - 1) * (b.size.x / 3), (floor : α) * fh, b.size.z / 2 + 0.1 / 2⟩
        1.5 2.0 0.1)
    (fun g _ => hpair g _ _ _ _ _) (List.range 3) g
  have h2 := Geometry.Extends.foldl (k := 24) (fun (g : Geometry α) (window : Nat) =>
      Building.AddWindow
        (Building.AddWindow g ⟨-b.size.x / 2 - 0.1 / 2, (floor : α) * fh,
          ((window : α) - 0.5) * (b.size.z / 2)⟩ 1.5 2.0 0.1)
        ⟨b.size.x / 2 + 0.1 / 2, (floor : α) * fh, ((window : α) - 0.5) * (b.size.z / 2)⟩
        1.5 2.0 0.1)
    (fun g _ => hpair g _ _ _ _ _) (List.range 2)
    ((List.range 3).foldl (fun (g : Geometry α) (window : Nat) =>
      Building.AddWindow
        (Building.AddWindow g ⟨((window : α) - 1) * (b.size.x / 3), (floor : α) * fh,
          -b.size.z / 2 - 0.1 / 2⟩ 1.5 2.0 0.1)
        ⟨((window : α) - 1) * (b.size.x / 3), (floor : α) * fh, b.size.z / 2 + 0.1 / 2⟩
        1.5 2.0 0.1) g)
  rw [List.length_range] at h1 h2
  exact h1.trans h2

/-- All windows: 120 vertices per floor above the ground floor. -/
theorem Building.AddWindows_extends (b : Building α) (g : Geometry α) :
    Geometry.Extends (120 * (b.floorCount - 1).toNat) g (Building.AddWindows b g) := by
  unfold Building.AddWindows
  have h := Geometry.Extends.foldl _
    (fun g floor => Building.addFloorWindows_extends b (b.height / (b.floorCount : α)) g floor)
    (List.range' 1 (b.floorCount - 1).toNat) g
  rwa [List.length_range'] at h

/-- With a floor count of at most 1 the floor loop does not run. -/
theorem Building.AddWindows_of_le_one (b : Building α) (g : Geometry α)
    (h : b.floorCount ≤ 1) : Building.AddWindows b g = g := by
  have h0 : (b.floorCount - 1).toNat = 0 := by omega
  simp [Building.AddWindows, h0]

/-- The six passes of the face loop write the indices 0 to 23. -/
theorem Building.mem_boxIndices (i : Nat) (hi : i ∈ Building.boxIndices) : i < 24 := by
  revert i
  decide

/-! ### Division by a zero length -/

/-- NaN times any value is NaN. -/
@[simp] theorem FloatVal.nan_mul (b : FloatVal α) : FloatVal.mul .nan b = .nan := by
  cases b <;> rfl

/-- NaN plus any value is NaN. -/
@[simp] theorem FloatVal.nan_add (b : FloatVal α) : FloatVal.add .nan b = .nan := by
  cases b <;> rfl

/-- NaN is smaller than no value. -/
@[simp] theorem FloatVal.lt_nan_left (b : FloatVal α) : FloatVal.lt .nan b = false := by
  cases b <;> rfl

/-- NaN is at least no value. -/
@[simp] theorem FloatVal.ge_nan_left (b : FloatVal α) : FloatVal.ge .nan b = false := by
  cases b <;> rfl

/-- A plane with a NaN normal component `x` has the value NaN at every position. -/
theorem planeValueFloat_of_nan (q : Vec4 (FloatVal α)) (p : Vec3 α) (hx : q.x = .nan) :
    planeValueFloat q p = .nan := by
  simp [planeValueFloat, hx]

/-- The quotient of a zero vector by zero is NaN in its three normal components. -/
theorem normalizePlaneFloat_of_length_zero (plane : Vec4 ℝ)
    (h : Vec3.length plane.xyz = 0) :
    normalizePlaneFloat plane = ⟨.nan, .nan, .nan, FloatVal.div plane.w 0⟩ := by
  have hz : plane.xyz = ⟨0, 0, 0⟩ := by
    by_contra hne
    exact absurd h (ne_of_gt (Vec3.length_pos_of_ne_zero _ hne))
  simp only [Vec4.xyz, Vec3.mk.injEq] at hz
  simp [normalizePlaneFloat, Vec4.divFloat, FloatVal.div, h, hz.1, hz.2.1, hz.2.2]

/-- For a non-zero length the `float` quotient is the quotient of the field. -/
theorem normalizePlaneFloat_of_length_ne_zero (plane : Vec4 ℝ)
    (h : Vec3.length plane.xyz ≠ 0) :
    normalizePlaneFloat plane = (plane.div (Vec3.length plane.xyz)).toFloat := by
  simp [normalizePlaneFloat, Vec4.divFloat, FloatVal.div, h, Vec4.toFloat, Vec4.div]

/-! ### The claims -/

/-- C1, counterexample.  Nine segment models at `(250, 250, 250)` are added, then a
mesh-less model (address 9) at the origin, which lies inside the root volume (distance 0
from the origin, radius 0).  The ninth `AddModel` has split the root, so the tenth
insertion descends to child 0, whose centre `(-250, -250, -250)` is farther from the
origin than its half-size 250: the fit test skips the model, no node stores it, and
`GetModelsNear((0,0,0), 0)` does not contain it. -/
theorem Scene.GetModelsNear_round_trip_fails :
    (9 : ModelPtr) ∈ [0, 1, 2, 3, 4, 5, 6, 7, 8, 9] ∧
      Vec3.distance ((mixedHeap : ModelPtr → Model ℝ) 9).GetPosition ⟨0, 0, 0⟩
        + (mixedHeap 9).GetBoundingSphereRadius ≤ 500 ∧
      (∃ tree, (Scene.addModels (mixedHeap : ModelPtr → Model ℝ)
          [0, 1, 2, 3, 4, 5, 6, 7, 8, 9]).octree = some tree ∧ 9 ∉ tree.allModels) ∧
      (9 : ModelPtr) ∉ (Scene.addModels (mixedHeap : ModelPtr → Model ℝ)
        [0, 1, 2, 3, 4, 5, 6, 7, 8, 9]).GetModelsNear mixedHeap (mixedHeap 9).GetPosition 0 := by
  have hstored : (9 : ModelPtr) ∉ (Scene.SplitOctreeNode (mixedHeap : ModelPtr → Model ℝ)
      (.mk ⟨0, 0, 0⟩ 1000 [0, 1, 2, 3, 4, 5, 6, 7, 8] ChildArray.empty8 true)).allModels := by
    intro h
    have := Scene.mem_allModels_split _ _ _ _ _ _ h
    simp at this
  refine ⟨by simp, ?_, ⟨_, mixedHeap_tree_ten, hstored⟩, ?_⟩
  · have h := mixedHeap_fits_root 9
    unfold Fits at h
    norm_num at h ⊢
    exact h
  · simp only [Scene.GetModelsNear, mixedHeap_tree_ten]
    exact fun h => hstored (Scene.QueryOctree_subset_allModels _ _ _ _ _ h)

/-- C1, amended.  Insert/query round trip: for every sequence of `AddModel` calls on a
freshly constructed scene and every added model `m` that fits every node on its descent
path in the resulting octree (distance to the node centre plus bounding radius at most half
the node size, at the root and at each child the child index selects),
`GetModelsNear(m.GetPosition(), 0)` contains `m`. -/
theorem Scene.GetModelsNear_round_trip (heap : ModelPtr → Model ℝ) (ms : List ModelPtr)
    (m : ModelPtr) (tree : OctreeNode ℝ) (hm : m ∈ ms)
    (htree : (Scene.addModels heap ms).octree = some tree)
    (hfit : PathFit heap m tree) :
    m ∈ (Scene.addModels heap ms).GetModelsNear heap (heap m).GetPosition 0 := by
  have hoct := (Scene.addModels_octree heap ms).1
  rw [hoct, Option.some.injEq] at htree
  subst htree
  simp only [Scene.GetModelsNear, hoct]
  refine Scene.mem_QueryOctree_of_onPath heap m _ 0 ?_ ?_
    (OnPath.of_foldl_insert heap m ms hm hfit) hfit
  · intro c s h
    unfold Fits at h
    linarith [Model.GetBoundingSphereRadius_nonneg (heap m)]
  · rw [Vec3.distance_self]
    linarith [Model.GetBoundingSphereRadius_nonneg (heap m)]

/-- C1, witness: nine segment models of radius 1 at `(250, 250, 250)`; the root is split
and model 3 is found in child 7. -/
theorem Scene.GetModelsNear_round_trip_witness :
    (3 : ModelPtr) ∈ (Scene.addModels (octantHeap : ModelPtr → Model ℝ)
      [0, 1, 2, 3, 4, 5, 6, 7, 8]).GetModelsNear octantHeap (octantHeap 3).GetPosition 0 :=
  Scene.GetModelsNear_round_trip octantHeap [0, 1, 2, 3, 4, 5, 6, 7, 8] 3 _ (by simp)
    octantHeap_tree (octantHeap_pathFit 3)

/-- C2, counterexample.  One model of bounding radius 1 at `(400, 400, 400)`, a position
in `[-400, 400]^3`, is added to a fresh scene.  Its distance from the origin plus its
radius exceeds 500, the fit test of `InsertModelInOctree` skips it, and
`GetModelsNear((0,0,0), 500 * sqrt 3)` does not return it. -/
theorem Scene.GetModelsNear_world_query_fails :
    (0 : ModelPtr) ∈ [0] ∧
      (|((cornerHeap : ModelPtr → Model ℝ) 0).GetPosition.x| ≤ 400 ∧
        |((cornerHeap : ModelPtr → Model ℝ) 0).GetPosition.y| ≤ 400 ∧
        |((cornerHeap : ModelPtr → Model ℝ) 0).GetPosition.z| ≤ 400) ∧
      ((cornerHeap : ModelPtr → Model ℝ) 0).GetBoundingSphereRadius = 1 ∧
      (0 : ModelPtr) ∉ (Scene.addModels (cornerHeap : ModelPtr → Model ℝ) [0]).GetModelsNear
        cornerHeap ⟨0, 0, 0⟩ (500 * HasSqrt.sqrt 3) := by
  refine ⟨by simp, ?_, cornerHeap_radius 0, ?_⟩
  · simp [cornerHeap, segmentModel, Model.GetPosition]
  · simp only [Scene.GetModelsNear, (Scene.addModels_octree _ _).1, List.foldl_cons,
      List.foldl_nil, Scene.freshRoot]
    rw [Scene.insert_of_not_fits _ _ _ _ _ _ _ (cornerHeap_not_fits_root 0), Scene.QueryOctree]
    simp

/-- C2, amended.  For every finite collection of models with positions in
`[-400, 400]^3` and bounding radius 1 added with `AddModel` to a freshly constructed scene,
`GetModelsNear((0,0,0), 500 * sqrt 3)` returns every added model that fits every node on
its descent path in the resulting octree (distance to the node centre plus radius at most
half the node size, at the root and at each selected child). -/
theorem Scene.GetModelsNear_world_query (heap : ModelPtr → Model ℝ) (ms : List ModelPtr)
    (m : ModelPtr) (tree : OctreeNode ℝ) (hm : m ∈ ms)
    (hpos : ∀ x ∈ ms, |(heap x).GetPosition.x| ≤ 400 ∧ |(heap x).GetPosition.y| ≤ 400 ∧
      |(heap x).GetPosition.z| ≤ 400)
    (hrad : ∀ x ∈ ms, (heap x).GetBoundingSphereRadius = 1)
    (htree : (Scene.addModels heap ms).octree = some tree)
    (hfit : PathFit heap m tree) :
    m ∈ (Scene.addModels heap ms).GetModelsNear heap ⟨0, 0, 0⟩ (500 * HasSqrt.sqrt 3) := by
  have hoct := (Scene.addModels_octree heap ms).1
  rw [hoct, Option.some.injEq] at htree
  subst htree
  simp only [Scene.GetModelsNear, hoct, sqrt_real]
  obtain ⟨hx, hy, hz⟩ := hpos m hm
  have hd := Vec3.distance_origin_le (heap m).GetPosition 400 (by norm_num) hx hy hz
  have h3 : 0 ≤ Real.sqrt 3 := Real.sqrt_nonneg _
  refine Scene.mem_QueryOctree_of_onPath heap m _ _ ?_ ?_
    (OnPath.of_foldl_insert heap m ms hm hfit) hfit
  · intro c s h
    unfold Fits at h
    have ht := Vec3.distance_triangle ⟨0, 0, 0⟩ (heap m).GetPosition c
    rw [hrad m hm] at h
    linarith
  · rw [hrad m hm]
    linarith

/-- C2, witness: nine segment models of radius 1 at `(250, 250, 250)`. -/
theorem Scene.GetModelsNear_world_query_witness :
    (3 : ModelPtr) ∈ (Scene.addModels (octantHeap : ModelPtr → Model ℝ)
      [0, 1, 2, 3, 4, 5, 6, 7, 8]).GetModelsNear octantHeap ⟨0, 0, 0⟩ (500 * HasSqrt.sqrt 3) :=
  Scene.GetModelsNear_world_query octantHeap [0, 1, 2, 3, 4, 5, 6, 7, 8] 3 _ (by simp)
    (fun _ _ => by norm_num [octantHeap, segmentModel, Model.GetPosition, abs_le])
    (fun x _ => octantHeap_radius x) octantHeap_tree (octantHeap_pathFit 3)

/-- C3, evaluation at the failing input.  The triangle model has the box
`[(0,0,0), (1,1,0)]`; its vertex `(1, 0, 0)` lies in the box and on the inner side of all
six planes of `slantedPlanes`, but both corners `min` and `max` are behind the slanted
plane `x - y - 1/2 >= 0`, so `GetModelsInFrustum` returns the empty list. -/
theorem Scene.GetModelsInFrustum_culls_visible :
    (0 : ModelPtr) ∈ (Scene.addModels (triangleHeap : ModelPtr → Model ℝ) [0]).GetModels ∧
      inBox ((triangleHeap : ModelPtr → Model ℝ) 0).GetBoundingBoxMin
        ((triangleHeap : ModelPtr → Model ℝ) 0).GetBoundingBoxMax ⟨1, 0, 0⟩ ∧
      (∀ i, insidePlane ((slantedPlanes : Fin 6 → Vec4 ℝ) i) ⟨1, 0, 0⟩) ∧
      (Scene.addModels (triangleHeap : ModelPtr → Model ℝ) [0]).GetModelsInFrustum
        triangleHeap slantedPlanes = [] := by
  refine ⟨by simp [Scene.GetModels, (Scene.addModels_octree _ _).2], ?_, ?_, ?_⟩
  · simp only [triangleHeap, triangleModel_box.1, triangleModel_box.2]
    norm_num [inBox]
  · intro i
    fin_cases i <;> norm_num [slantedPlanes, insidePlane, Vec4.xyz, Vec3.dot]
  · apply List.eq_nil_iff_forall_not_mem.2
    intro m hm
    rw [Scene.mem_GetModelsInFrustum] at hm
    have h0 := hm.2 0
    rw [← Bool.not_eq_true, Scene.bothCornersBehind_eq_true] at h0
    apply h0
    simp only [triangleHeap, triangleModel_box.1, triangleModel_box.2]
    norm_num [slantedPlanes, Vec4.xyz, Vec3.dot]

/-- C4.  Frustum culling correctness: for six planes with unit-length normals and every
model, if the sphere derived from the bounding box (centre the midpoint of
`GetBoundingBoxMin()` and `GetBoundingBoxMax()`, radius half the length of the box
diagonal) is strictly behind some plane `i`, that is
`dot(n_i, centre) + d_i < -radius`, then the model is not in the result of
`GetModelsInFrustum`. -/
theorem Scene.GetModelsInFrustum_culls_behind (heap : ModelPtr → Model ℝ) (s : Scene ℝ)
    (planes : Fin 6 → Vec4 ℝ) (m : ModelPtr) (i : Fin 6)
    (hunit : ∀ j, Vec3.length (planes j).xyz = 1)
    (hbehind : Vec3.dot (planes i).xyz
        ((Vec3.add (heap m).GetBoundingBoxMin (heap m).GetBoundingBoxMax).smul 0.5)
        + (planes i).w
      < -(Vec3.length (Vec3.sub (heap m).GetBoundingBoxMax (heap m).GetBoundingBoxMin) / 2)) :
    m ∉ s.GetModelsInFrustum heap planes := by
  rw [Scene.mem_GetModelsInFrustum]
  rintro ⟨-, hall⟩
  have hi := hall i
  rw [← Bool.not_eq_true, Scene.bothCornersBehind_eq_true] at hi
  apply hi
  rw [← Model.GetBoundingSphereRadius_eq_half_diagonal] at hbehind
  set lo := (heap m).GetBoundingBoxMin with hlo
  set hi' := (heap m).GetBoundingBoxMax with hhi
  set ctr := (Vec3.add lo hi').smul 0.5 with hctr
  have hrad : (heap m).GetBoundingSphereRadius = Vec3.length (Vec3.sub hi' ctr) := rfl
  have hb := Vec3.abs_dot_le_of_unit (planes i).xyz (Vec3.sub hi' ctr) _ (hunit i) le_rfl
  rw [← hrad, Vec3.dot_sub] at hb
  have hmid : Vec3.dot (planes i).xyz lo
      = 2 * Vec3.dot (planes i).xyz ctr - Vec3.dot (planes i).xyz hi' := by
    simp only [hctr, Vec3.dot, Vec3.add, Vec3.smul]; ring
  constructor
  · rw [hmid]; linarith [hb.1, hb.2]
  · linarith [hb.1, hb.2]

/-- C4, witness: the segment model at `(400, 400, 400)` is strictly behind the right
plane of the cube `[-1, 1]^3`. -/
theorem Scene.GetModelsInFrustum_culls_behind_witness :
    (0 : ModelPtr) ∉ (Scene.addModels (cornerHeap : ModelPtr → Model ℝ) [0]).GetModelsInFrustum
      cornerHeap (cubePlanes 1) :=
  Scene.GetModelsInFrustum_culls_behind cornerHeap _ (cubePlanes 1) 0 1 (cubePlanes_unit 1) (by
    have hb := segmentModel_box_of_le (⟨400, 400, 400⟩ : Vec3 ℝ) (by norm_num [abs_le])
      (by norm_num [abs_le]) (by norm_num [abs_le])
    rw [← Model.GetBoundingSphereRadius_eq_half_diagonal, cornerHeap_radius]
    simp only [cornerHeap, hb.1, hb.2]
    norm_num [cubePlanes, Vec4.xyz, Vec3.dot, Vec3.add, Vec3.smul])

/-- C5.  `GetModelsNear` is exact: for every scene state, every position `p` and every
radius `r` (non-negative or not), each model returned by `GetModelsNear(p, r)` satisfies
`distance(p, model.GetPosition()) <= r + model.GetBoundingSphereRadius()`. -/
theorem Scene.GetModelsNear_exact [HasSqrt α] (heap : ModelPtr → Model α) (s : Scene α)
    (p : Vec3 α) (r : α) (m : ModelPtr) (hm : m ∈ s.GetModelsNear heap p r) :
    Vec3.distance p (heap m).GetPosition ≤ r + (heap m).GetBoundingSphereRadius := by
  unfold Scene.GetModelsNear at hm
  cases hs : s.octree with
  | none => simp [hs] at hm
  | some node =>
    rw [hs] at hm
    exact Scene.QueryOctree_exact heap p r m node hm

/-- C5, witness: model 3 of nine segment models at `(250, 250, 250)`, queried at its
own position with radius 0. -/
theorem Scene.GetModelsNear_exact_witness :
    Vec3.distance ((octantHeap : ModelPtr → Model ℝ) 3).GetPosition (octantHeap 3).GetPosition
      ≤ 0 + (octantHeap 3).GetBoundingSphereRadius :=
  Scene.GetModelsNear_exact octantHeap
    (Scene.addModels (octantHeap : ModelPtr → Model ℝ) [0, 1, 2, 3, 4, 5, 6, 7, 8])
    (octantHeap 3).GetPosition 0 3
    (Scene.mem_GetModelsNear_of_pathFit octantHeap _ 3 _ _ 0 (by simp) octantHeap_tree
      (octantHeap_pathFit 3)
      (fun c s h => by
        unfold Fits at h
        linarith [Model.GetBoundingSphereRadius_nonneg ((octantHeap : ModelPtr → Model ℝ) 3)])
      (by rw [Vec3.distance_self, octantHeap_radius]; norm_num))

/-- C6.  Removal removes from both registry and index: in a scene reached from a fresh
one by `AddModel` calls in which `m` was added exactly once, after `RemoveModel(m)` the
list `GetModels()` is the previous list with `m` erased, the octree exists and stores `m`
in none of its nodes, and no `GetModelsNear` query returns `m`. -/
theorem Scene.RemoveModel_removes [HasSqrt α] (heap : ModelPtr → Model α)
    (ms : List ModelPtr) (m : ModelPtr) (honce : ms.count m = 1) :
    ((Scene.addModels heap ms).RemoveModel heap m).GetModels
        = (Scene.addModels heap ms).GetModels.erase m ∧
      (∃ tree, ((Scene.addModels heap ms).RemoveModel heap m).octree = some tree ∧
        m ∉ tree.allModels) ∧
      ∀ p r, m ∉ ((Scene.addModels heap ms).RemoveModel heap m).GetModelsNear heap p r := by
  have hmodels := (Scene.addModels_octree heap ms).2
  have hmem : m ∈ ms := List.count_pos_iff.1 (by omega)
  have hgone : m ∉ ms.erase m := by
    rw [← List.count_eq_zero, List.count_erase_self]
    omega
  have hrm : (Scene.addModels heap ms).RemoveModel heap m
      = { (Scene.addModels heap ms) with
          models := ms.erase m,
          octree := some ((ms.erase m).foldl
            (fun node x => Scene.InsertModelInOctree heap x node) Scene.freshRoot) } := by
    simp [Scene.RemoveModel, hmodels, hmem, Scene.BuildOctree]
  rw [hrm]
  have hstored : m ∉ ((ms.erase m).foldl
      (fun node x => Scene.InsertModelInOctree heap x node)
      (Scene.freshRoot : OctreeNode α)).allModels :=
    fun h => hgone (Scene.mem_allModels_foldl_insert heap _ m h)
  refine ⟨by simp [Scene.GetModels, hmodels], ⟨_, rfl, hstored⟩, ?_⟩
  intro p r h
  simp only [Scene.GetModelsNear] at h
  exact hstored (Scene.QueryOctree_subset_allModels heap p r m _ h)

/-- C6, witness: models 0, 1, 2 added, model 1 removed. -/
theorem Scene.RemoveModel_removes_witness :
    ((Scene.addModels (octantHeap : ModelPtr → Model ℝ) [0, 1, 2]).RemoveModel
        octantHeap 1).GetModels
      = (Scene.addModels (octantHeap : ModelPtr → Model ℝ) [0, 1, 2]).GetModels.erase 1 ∧
    (1 : ModelPtr) ∉ ((Scene.addModels (octantHeap : ModelPtr → Model ℝ)
      [0, 1, 2]).RemoveModel octantHeap 1).GetModelsNear octantHeap ⟨250, 250, 250⟩ 10 :=
  ⟨(Scene.RemoveModel_removes octantHeap [0, 1, 2] 1 (by decide)).1,
    (Scene.RemoveModel_removes octantHeap [0, 1, 2] 1 (by decide)).2.2 ⟨250, 250, 250⟩ 10⟩

/-- C7.  Removing an unknown object is a silent no-op: `RemoveModel(m)` for a model that
is not in the model list returns the scene unchanged (model list, light list, skybox,
ambient light and octree, which is not rebuilt), and `RemoveLight` of a light that is not
in the light list changes nothing either. -/
theorem Scene.Remove_unknown_noop [HasSqrt α] (heap : ModelPtr → Model α) (s : Scene α)
    (m : ModelPtr) (l : LightPtr) (hm : m ∉ s.models) (hl : l ∉ s.lights) :
    s.RemoveModel heap m = s ∧ s.RemoveLight l = s := by
  simp [Scene.RemoveModel, Scene.RemoveLight, hm, hl]

/-- C7, witness: a scene holding models 0, 1, 2 and no light; model 5 and light 4 are
unknown. -/
theorem Scene.Remove_unknown_noop_witness :
    (Scene.addModels (octantHeap : ModelPtr → Model ℝ) [0, 1, 2]).RemoveModel octantHeap 5
        = Scene.addModels octantHeap [0, 1, 2] ∧
      (Scene.addModels (octantHeap : ModelPtr → Model ℝ) [0, 1, 2]).RemoveLight 4
        = Scene.addModels octantHeap [0, 1, 2] :=
  Scene.Remove_unknown_noop octantHeap _ 5 4
    (by simp [(Scene.addModels_octree _ _).2])
    (by simp [Scene.addModels, Scene.AddModel, Scene.new])

/-- C8.  Whole-world frustum returns everything once: for every six planes and every
scene, if both box corners `GetBoundingBoxMin()` and `GetBoundingBoxMax()` of every
model satisfy `dot(normal, corner) + distance >= 0` for all six planes, then
`GetModelsInFrustum` returns exactly the model list of the scene, each registered model
once and in registration order; in particular without duplicates when the registered
models are distinct. -/
theorem Scene.GetModelsInFrustum_whole_world (heap : ModelPtr → Model α) (s : Scene α)
    (planes : Fin 6 → Vec4 α)
    (hworld : ∀ m ∈ s.models, ∀ i, insidePlane (planes i) (heap m).GetBoundingBoxMin ∧
      insidePlane (planes i) (heap m).GetBoundingBoxMax) :
    s.GetModelsInFrustum heap planes = s.GetModels ∧
      (s.GetModels.Nodup → (s.GetModelsInFrustum heap planes).Nodup) := by
  have h : s.GetModelsInFrustum heap planes = s.GetModels := by
    unfold Scene.GetModelsInFrustum Scene.GetModels
    rw [List.filter_eq_self]
    intro m hm
    simp only [List.all_eq_true, Bool.not_eq_true']
    intro i _
    exact (Scene.bothCornersBehind_eq_false _ _ _).2 (Or.inl (hworld m hm i).1)
  exact ⟨h, fun hnd => h ▸ hnd⟩

/-- C8, witness: two triangle models inside the cube `[-100, 100]^3`. -/
theorem Scene.GetModelsInFrustum_whole_world_witness :
    (Scene.addModels (triangleHeap : ModelPtr → Model ℝ) [0, 1]).GetModelsInFrustum triangleHeap
        (cubePlanes 100)
      = (Scene.addModels (triangleHeap : ModelPtr → Model ℝ) [0, 1]).GetModels :=
  (Scene.GetModelsInFrustum_whole_world triangleHeap _ (cubePlanes 100) (fun m _ i => by
    simp only [triangleHeap, triangleModel_box.1, triangleModel_box.2]
    constructor <;> apply insidePlane_cubePlanes <;> norm_num [inBox])).1

/-- C9, counterexample.  The segment model at `(400, 400, 400)` has its position in
`[-400, 400]^3`, bounding radius 1 and its box inside `[-401, 401]^3`, but the planes
extracted from the identity view-projection bound the cube `[-1, 1]^3`: both box corners
are behind the right plane and `GetModelsInFrustum` does not return the model. -/
theorem Scene.GetModelsInFrustum_identity_fails :
    (0 : ModelPtr) ∈ (Scene.addModels (cornerHeap : ModelPtr → Model ℝ) [0]).GetModels ∧
      (|((cornerHeap : ModelPtr → Model ℝ) 0).GetPosition.x| ≤ 400 ∧
        |((cornerHeap : ModelPtr → Model ℝ) 0).GetPosition.y| ≤ 400 ∧
        |((cornerHeap : ModelPtr → Model ℝ) 0).GetPosition.z| ≤ 400) ∧
      ((cornerHeap : ModelPtr → Model ℝ) 0).GetBoundingSphereRadius = 1 ∧
      inBox ⟨-401, -401, -401⟩ ⟨401, 401, 401⟩
        ((cornerHeap : ModelPtr → Model ℝ) 0).GetBoundingBoxMin ∧
      inBox ⟨-401, -401, -401⟩ ⟨401, 401, 401⟩
        ((cornerHeap : ModelPtr → Model ℝ) 0).GetBoundingBoxMax ∧
      (0 : ModelPtr) ∉ (Scene.addModels (cornerHeap : ModelPtr → Model ℝ) [0]).GetModelsInFrustum
        cornerHeap (Camera.GetFrustum Mat4.identity).planes := by
  have hb := segmentModel_box_of_le (⟨400, 400, 400⟩ : Vec3 ℝ) (by norm_num [abs_le])
    (by norm_num [abs_le]) (by norm_num [abs_le])
  refine ⟨by simp [Scene.GetModels, (Scene.addModels_octree _ _).2], ?_, cornerHeap_radius 0,
    ?_, ?_, ?_⟩
  · simp [cornerHeap, segmentModel, Model.GetPosition]
  · simp only [cornerHeap, hb.1]; norm_num [inBox]
  · simp only [cornerHeap, hb.2]; norm_num [inBox]
  · rw [Scene.mem_GetModelsInFrustum]
    rintro ⟨-, hall⟩
    have h1 := hall 1
    rw [← Bool.not_eq_true, Scene.bothCornersBehind_eq_true] at h1
    apply h1
    simp only [Camera.GetFrustum, normalizePlanes_identity, cornerHeap, hb.1, hb.2]
    norm_num [cubePlanes, Vec4.xyz, Vec3.dot]

/-- C9, amended.  With the six planes obtained by applying the plane extraction of
`Camera::GetFrustum` / `Renderer::UpdateFrustum` to the identity view-projection matrix,
`GetModelsInFrustum` returns every model of a scene whose models all have bounding boxes
inside the cube `[-1, 1]^3`. -/
theorem Scene.GetModelsInFrustum_identity (heap : ModelPtr → Model ℝ) (s : Scene ℝ)
    (r : Renderer ℝ)
    (hbox : ∀ m ∈ s.models,
      inBox ⟨-1, -1, -1⟩ ⟨1, 1, 1⟩ (heap m).GetBoundingBoxMin ∧
      inBox ⟨-1, -1, -1⟩ ⟨1, 1, 1⟩ (heap m).GetBoundingBoxMax) :
    s.GetModelsInFrustum heap (Camera.GetFrustum Mat4.identity).planes = s.GetModels ∧
      s.GetModelsInFrustum heap (r.UpdateFrustum Mat4.identity).frustumPlanes
        = s.GetModels := by
  have key : s.GetModelsInFrustum heap (cubePlanes 1) = s.GetModels := by
    unfold Scene.GetModelsInFrustum Scene.GetModels
    rw [List.filter_eq_self]
    intro m hm
    simp only [List.all_eq_true, Bool.not_eq_true']
    intro i _
    exact (Scene.bothCornersBehind_eq_false _ _ _).2
      (Or.inl (insidePlane_cubePlanes 1 _ (hbox m hm).1 i))
  simp only [Camera.GetFrustum, Renderer.UpdateFrustum, normalizePlanes_identity]
  exact ⟨key, key⟩

/-- C9, witness: two mesh-less models, whose box is the single point `(0, 0, 0)`. -/
theorem Scene.GetModelsInFrustum_identity_witness :
    (Scene.addModels (originHeap : ModelPtr → Model ℝ) [0, 1]).GetModelsInFrustum originHeap
        (Camera.GetFrustum Mat4.identity).planes
      = (Scene.addModels (originHeap : ModelPtr → Model ℝ) [0, 1]).GetModels :=
  (Scene.GetModelsInFrustum_identity originHeap _ ⟨cubePlanes 1⟩ (fun m _ => by
    simp only [originHeap, (pointModel_box _).1, (pointModel_box _).2]
    norm_num [inBox])).1

/-- C10.  The sphere-versus-frustum test never culls a visible sphere: for six stored
planes with unit-length normals, every centre `c` and every radius `r`, if some point `q`
with `distance(q, c) <= r` (which forces `r >= 0`) satisfies `dot(n_i, q) + d_i >= 0` for
all six planes, then `IsInFrustum(c, r)` returns true; and `IsInFrustum` returns false
only when `dot(n_i, c) + d_i < -r` for some plane `i`. -/
theorem Renderer.IsInFrustum_never_culls_visible (r : Renderer ℝ) (c : Vec3 ℝ) (radius : ℝ)
    (hunit : ∀ i, Vec3.length (r.frustumPlanes i).xyz = 1)
    (q : Vec3 ℝ) (hq : Vec3.distance q c ≤ radius)
    (hin : ∀ i, insidePlane (r.frustumPlanes i) q) :
    r.IsInFrustum c radius = true ∧
      ∀ c1 r1, r.IsInFrustum c1 r1 = false →
        ∃ i, Vec3.dot (r.frustumPlanes i).xyz c1 + (r.frustumPlanes i).w < -r1 := by
  refine ⟨?_, fun c1 r1 h => (Renderer.IsInFrustum_eq_false r c1 r1).1 h⟩
  rw [← Bool.not_eq_false, Renderer.IsInFrustum_eq_false]
  rintro ⟨i, hi⟩
  have h1 := (Vec3.abs_dot_le_of_unit _ _ radius (hunit i) hq).1
  rw [Vec3.dot_sub] at h1
  have h2 := hin i
  unfold insidePlane at h2
  linarith

/-- C10, witness: the sphere of radius 1 about `(2, 0, 0)` touches the cube
`[-1, 1]^3` in the point `(1, 0, 0)`. -/
theorem Renderer.IsInFrustum_never_culls_visible_witness :
    (⟨cubePlanes 1⟩ : Renderer ℝ).IsInFrustum ⟨2, 0, 0⟩ 1 = true :=
  (Renderer.IsInFrustum_never_culls_visible ⟨cubePlanes 1⟩ ⟨2, 0, 0⟩ 1
    (cubePlanes_unit 1) ⟨1, 0, 0⟩
    (by simp [Vec3.distance, Vec3.length, Vec3.sub, Vec3.dot]; norm_num)
    (fun i => insidePlane_cubePlanes 1 _ (by norm_num [inBox]) i)).1

/-- C11.  Plane extraction is equivalent to the clip-space test: for every view-projection
matrix `M` whose six extracted plane normals are non-zero and every point `p`, the point
satisfies `dot(n_i, p) + d_i >= 0` for all six planes produced by the extraction (left,
right, bottom, top, near, far) if and only if its clip coordinates
`(x, y, z, w) = M * (p, 1)` satisfy `-w <= x <= w`, `-w <= y <= w` and `-w <= z <= w`;
for the planes of `Camera::GetFrustum` and for those stored by `Renderer::UpdateFrustum`. -/
theorem Camera.GetFrustum_inside_iff_clip (M : Mat4 ℝ) (r : Renderer ℝ) (p : Vec3 ℝ)
    (hnz : ∀ i, (extractPlanes M i).xyz ≠ ⟨0, 0, 0⟩) :
    ((∀ i, insidePlane ((Camera.GetFrustum M).planes i) p) ↔ inClipVolume M p) ∧
      ((∀ i, insidePlane ((r.UpdateFrustum M).frustumPlanes i) p) ↔ inClipVolume M p) := by
  have key : (∀ i, insidePlane (normalizePlanes (extractPlanes M) i) p) ↔ inClipVolume M p := by
    rw [← insidePlane_extractPlanes]
    exact forall_congr' fun i =>
      insidePlane_div _ _ (Vec3.length_pos_of_ne_zero _ (hnz i)) p
  exact ⟨key, key⟩

/-- C11, witness: the identity matrix and the point `(1, 0, -1)` on the edge of the clip
cube. -/
theorem Camera.GetFrustum_inside_iff_clip_witness :
    (∀ i, insidePlane ((Camera.GetFrustum (Mat4.identity : Mat4 ℝ)).planes i) ⟨1, 0, -1⟩) ↔
      inClipVolume (Mat4.identity : Mat4 ℝ) ⟨1, 0, -1⟩ :=
  (Camera.GetFrustum_inside_iff_clip Mat4.identity ⟨cubePlanes 1⟩ ⟨1, 0, -1⟩
    extractPlanes_identity_ne_zero).1

/-- C12.  Extracted planes are normalized: for every view-projection matrix whose six
extracted plane normals are non-zero, each of the six planes returned by the extraction
has a normal `(x, y, z)` of length exactly 1, and its distance component `w` is the
extracted one divided by the same factor, the length of the extracted normal. -/
theorem Camera.GetFrustum_normalized (M : Mat4 ℝ) (r : Renderer ℝ)
    (hnz : ∀ i, (extractPlanes M i).xyz ≠ ⟨0, 0, 0⟩) (i : Fin 6) :
    (Vec3.length ((Camera.GetFrustum M).planes i).xyz = 1 ∧
      ((Camera.GetFrustum M).planes i).w
        = (extractPlanes M i).w / Vec3.length (extractPlanes M i).xyz) ∧
    (Vec3.length ((r.UpdateFrustum M).frustumPlanes i).xyz = 1 ∧
      ((r.UpdateFrustum M).frustumPlanes i).w
        = (extractPlanes M i).w / Vec3.length (extractPlanes M i).xyz) := by
  have h := Vec3.length_div_length (extractPlanes M i) (hnz i)
  exact ⟨⟨h, rfl⟩, ⟨h, rfl⟩⟩

/-- C12, witness: the far plane extracted from the identity matrix. -/
theorem Camera.GetFrustum_normalized_witness :
    Vec3.length ((Camera.GetFrustum (Mat4.identity : Mat4 ℝ)).planes 5).xyz = 1 :=
  (Camera.GetFrustum_normalized Mat4.identity ⟨cubePlanes 1⟩
    extractPlanes_identity_ne_zero 5).1.1

/-- C13, counterexample.  For the matrix `flatMatrix` (the identity with a zero first
diagonal entry) the extracted left plane is `(0, 0, 0, 1)`: its normal has length zero,
the normalisation divides by that zero and yields the plane `(NaN, NaN, NaN, +inf)`.
Nothing was substituted, and the plane is not an "always inside" plane: the test
`dot(n, p) + d >= 0` does not hold for every point. -/
theorem normalizePlaneFloat_degenerate_fails :
    Vec3.length (extractPlanes (flatMatrix : Mat4 ℝ) 0).xyz = 0 ∧
      normalizePlaneFloat (extractPlanes (flatMatrix : Mat4 ℝ) 0)
        = ⟨.nan, .nan, .nan, .posInf⟩ ∧
      ¬ ∀ p, insidePlaneFloat
        (normalizePlaneFloat (extractPlanes (flatMatrix : Mat4 ℝ) 0)) p = true := by
  have h0 : Vec3.length (extractPlanes (flatMatrix : Mat4 ℝ) 0).xyz = 0 := by
    simp [extractPlanes, flatMatrix, Vec4.xyz, Vec3.length, Vec3.dot]
  have hq := normalizePlaneFloat_of_length_zero _ h0
  refine ⟨h0, ?_, ?_⟩
  · rw [hq]
    simp [extractPlanes, flatMatrix, FloatVal.div]
  · intro hall
    have h1 := hall ⟨0, 0, 0⟩
    rw [insidePlaneFloat, planeValueFloat_of_nan _ _ (by rw [hq])] at h1
    simp at h1

/-- C13, amended.  Degenerate matrices are not recovered: the extraction divides every
plane by the length of its normal without a test.  Whenever the normal of an extracted
plane has zero length, the three normal components of the result are NaN (`0 / 0`) and
its distance is `w / 0` (an infinity, or NaN for `w = 0`); the test `dot(n, p) + d >= 0`
is then false for every point `p`, and so is the culling comparison
`dot(n, p) + d < -radius` for every position and radius: the plane is not an "always
inside" plane, yet it culls nothing.  Whenever the length is not zero, the result is the
plane of `Camera::GetFrustum` and of `Renderer::UpdateFrustum`, the extracted plane
divided by the length, with a normal of length 1. -/
theorem normalizePlaneFloat_spec (M : Mat4 ℝ) (i : Fin 6) :
    (Vec3.length (extractPlanes M i).xyz = 0 →
        normalizePlaneFloat (extractPlanes M i)
          = ⟨.nan, .nan, .nan, FloatVal.div (extractPlanes M i).w 0⟩ ∧
        (∀ p, insidePlaneFloat (normalizePlaneFloat (extractPlanes M i)) p = false) ∧
        (∀ p r, behindPlaneFloat (normalizePlaneFloat (extractPlanes M i)) p r = false)) ∧
      (Vec3.length (extractPlanes M i).xyz ≠ 0 →
        normalizePlaneFloat (extractPlanes M i) = ((Camera.GetFrustum M).planes i).toFloat ∧
        normalizePlaneFloat (extractPlanes M i)
          = ((Renderer.UpdateFrustum ⟨fun _ => ⟨0, 0, 0, 0⟩⟩ M).frustumPlanes i).toFloat ∧
        Vec3.length ((Camera.GetFrustum M).planes i).xyz = 1) := by
  constructor
  · intro h
    have hq := normalizePlaneFloat_of_length_zero _ h
    refine ⟨hq, fun p => ?_, fun p r => ?_⟩
    · rw [insidePlaneFloat, planeValueFloat_of_nan _ _ (by rw [hq])]
      rfl
    · rw [behindPlaneFloat, planeValueFloat_of_nan _ _ (by rw [hq])]
      rfl
  · intro h
    refine ⟨normalizePlaneFloat_of_length_ne_zero _ h,
      normalizePlaneFloat_of_length_ne_zero _ h, ?_⟩
    apply Vec3.length_div_length
    intro hz
    apply h
    simp [hz, Vec3.length, Vec3.dot]

/-- C13, witness: the left plane (zero normal) and the bottom plane (normal `(0, 1, 0)`)
of `flatMatrix`. -/
theorem normalizePlaneFloat_spec_witness :
    (∀ p, insidePlaneFloat
        (normalizePlaneFloat (extractPlanes (flatMatrix : Mat4 ℝ) 0)) p = false) ∧
      normalizePlaneFloat (extractPlanes (flatMatrix : Mat4 ℝ) 2)
        = ((Camera.GetFrustum flatMatrix).planes 2).toFloat :=
  ⟨((normalizePlaneFloat_spec flatMatrix 0).1
      (by simp [extractPlanes, flatMatrix, Vec4.xyz, Vec3.length, Vec3.dot])).2.1,
    ((normalizePlaneFloat_spec flatMatrix 2).2
      (by simp [extractPlanes, flatMatrix, Vec4.xyz, Vec3.length, Vec3.dot])).1⟩

/-- C14.  Rebuilding does not change query results: in every scene state reached from a
fresh scene by `AddModel` and `RemoveModel` calls, with the store of models unchanged,
the tree produced by `BuildOctree` yields for every position and radius the same
`GetModelsNear` result as the tree before the rebuild, and rebuilding twice in a row
gives the same result as rebuilding once. -/
theorem Scene.BuildOctree_same_queries [HasSqrt α] (heap : ModelPtr → Model α)
    (ops : List SceneOp) (hops : noClear ops) (p : Vec3 α) (r : α) :
    ((Scene.run heap ops).BuildOctree heap).GetModelsNear heap p r
        = (Scene.run heap ops).GetModelsNear heap p r ∧
      (((Scene.run heap ops).BuildOctree heap).BuildOctree heap).GetModelsNear heap p r
        = ((Scene.run heap ops).BuildOctree heap).GetModelsNear heap p r := by
  rw [Scene.BuildOctree_run heap ops hops, Scene.BuildOctree_run heap ops hops]
  exact ⟨rfl, rfl⟩

/-- C14, witness: models 0 and 1 added, model 0 removed, model 2 added. -/
theorem Scene.BuildOctree_same_queries_witness :
    ((Scene.run (octantHeap : ModelPtr → Model ℝ)
        [.addModel 0, .addModel 1, .removeModel 0, .addModel 2]).BuildOctree
          octantHeap).GetModelsNear octantHeap ⟨250, 250, 250⟩ 5
      = (Scene.run (octantHeap : ModelPtr → Model ℝ)
        [.addModel 0, .addModel 1, .removeModel 0, .addModel 2]).GetModelsNear
          octantHeap ⟨250, 250, 250⟩ 5 :=
  (Scene.BuildOctree_same_queries octantHeap
    [.addModel 0, .addModel 1, .removeModel 0, .addModel 2] (by decide) ⟨250, 250, 250⟩ 5).1

/-- C15.  Bounding sphere from bounding box: for every model `GetBoundingSphereRadius()`
equals half the length of the bounding-box diagonal,
`(1/2) * |GetBoundingBoxMax() - GetBoundingBoxMin()|`, and is non-negative. -/
theorem Model.GetBoundingSphereRadius_half_diagonal (m : Model ℝ) :
    m.GetBoundingSphereRadius
        = 1 / 2 * Vec3.length (Vec3.sub m.GetBoundingBoxMax m.GetBoundingBoxMin) ∧
      0 ≤ m.GetBoundingSphereRadius := by
  refine ⟨?_, Model.GetBoundingSphereRadius_nonneg m⟩
  rw [Model.GetBoundingSphereRadius_eq_half_diagonal]
  ring

/-- C16.  Bounding box from points: for every model with at least one vertex, whose
transformed vertices are in the range of `float` (every coordinate between `-FLT_MAX`
and `FLT_MAX`), `GetBoundingBoxMin()` and `GetBoundingBoxMax()` are the componentwise
minimum and maximum of the transformed vertices (on each axis a bound of all of them that
one of them attains); hence `min <= max` on every axis and every transformed vertex lies
inside the box. -/
theorem Model.boundingBox_componentwise (m : Model α) (hne : m.allVertices ≠ [])
    (hrange : ∀ v ∈ m.allVertices,
      inBox (Vec3.splat (-FLT_MAX)) (Vec3.splat FLT_MAX) (m.worldPos v)) :
    ((∀ v ∈ m.allVertices, m.GetBoundingBoxMin.x ≤ (m.worldPos v).x) ∧
        ∃ v ∈ m.allVertices, m.GetBoundingBoxMin.x = (m.worldPos v).x) ∧
      ((∀ v ∈ m.allVertices, m.GetBoundingBoxMin.y ≤ (m.worldPos v).y) ∧
        ∃ v ∈ m.allVertices, m.GetBoundingBoxMin.y = (m.worldPos v).y) ∧
      ((∀ v ∈ m.allVertices, m.GetBoundingBoxMin.z ≤ (m.worldPos v).z) ∧
        ∃ v ∈ m.allVertices, m.GetBoundingBoxMin.z = (m.worldPos v).z) ∧
      ((∀ v ∈ m.allVertices, (m.worldPos v).x ≤ m.GetBoundingBoxMax.x) ∧
        ∃ v ∈ m.allVertices, m.GetBoundingBoxMax.x = (m.worldPos v).x) ∧
      ((∀ v ∈ m.allVertices, (m.worldPos v).y ≤ m.GetBoundingBoxMax.y) ∧
        ∃ v ∈ m.allVertices, m.GetBoundingBoxMax.y = (m.worldPos v).y) ∧
      ((∀ v ∈ m.allVertices, (m.worldPos v).z ≤ m.GetBoundingBoxMax.z) ∧
        ∃ v ∈ m.allVertices, m.GetBoundingBoxMax.z = (m.worldPos v).z) ∧
      (m.GetBoundingBoxMin.x ≤ m.GetBoundingBoxMax.x ∧
        m.GetBoundingBoxMin.y ≤ m.GetBoundingBoxMax.y ∧
        m.GetBoundingBoxMin.z ≤ m.GetBoundingBoxMax.z) ∧
      ∀ v ∈ m.allVertices, inBox m.GetBoundingBoxMin m.GetBoundingBoxMax (m.worldPos v) := by
  have hmesh := Model.meshes_ne_nil_of_vertices m hne
  have hlo := Vec3.foldl_min_components m.worldPos m.allVertices (Vec3.splat FLT_MAX)
  have hhi := Vec3.foldl_max_components m.worldPos m.allVertices (Vec3.splat (-FLT_MAX))
  have hminx := foldl_min_attained (fun v => (m.worldPos v).x) m.allVertices FLT_MAX hne
    (fun v hv => (hrange v hv).2.1)
  have hminy := foldl_min_attained (fun v => (m.worldPos v).y) m.allVertices FLT_MAX hne
    (fun v hv => (hrange v hv).2.2.2.1)
  have hminz := foldl_min_attained (fun v => (m.worldPos v).z) m.allVertices FLT_MAX hne
    (fun v hv => (hrange v hv).2.2.2.2.2)
  have hmaxx := foldl_max_attained (fun v => (m.worldPos v).x) m.allVertices (-FLT_MAX) hne
    (fun v hv => (hrange v hv).1)
  have hmaxy := foldl_max_attained (fun v => (m.worldPos v).y) m.allVertices (-FLT_MAX) hne
    (fun v hv => (hrange v hv).2.2.1)
  have hmaxz := foldl_max_attained (fun v => (m.worldPos v).z) m.allVertices (-FLT_MAX) hne
    (fun v hv => (hrange v hv).2.2.2.2.1)
  beta_reduce at hminx hminy hminz hmaxx hmaxy hmaxz
  simp only [Model.GetBoundingBoxMin, Model.GetBoundingBoxMax, hmesh, Bool.false_eq_true,
    if_false, inBox]
  rw [hlo.1, hlo.2.1, hlo.2.2, hhi.1, hhi.2.1, hhi.2.2]
  simp only [Vec3.splat]
  obtain ⟨v, hv⟩ := List.exists_mem_of_ne_nil _ hne
  refine ⟨hminx, hminy, hminz, hmaxx, hmaxy, hmaxz,
    ⟨(hminx.1 v hv).trans (hmaxx.1 v hv), (hminy.1 v hv).trans (hmaxy.1 v hv),
      (hminz.1 v hv).trans (hmaxz.1 v hv)⟩, ?_⟩
  intro u hu
  exact ⟨hminx.1 u hu, hmaxx.1 u hu, hminy.1 u hu, hmaxy.1 u hu, hminz.1 u hu, hmaxz.1 u hu⟩

/-- C16, witness: the vertex `(1, 0, 0)` of the triangle model lies in its box. -/
theorem Model.boundingBox_componentwise_witness :
    inBox (triangleModel : Model ℝ).GetBoundingBoxMin (triangleModel : Model ℝ).GetBoundingBoxMax
      ((triangleModel : Model ℝ).worldPos ⟨⟨1, 0, 0⟩⟩) :=
  (Model.boundingBox_componentwise (triangleModel : Model ℝ)
    (by simp [Model.allVertices, triangleModel])
    (by
      intro v hv
      simp only [Model.allVertices, triangleModel, List.flatMap_cons, List.flatMap_nil,
        List.append_nil, List.mem_cons, List.mem_singleton, List.not_mem_nil, or_false] at hv
      rcases hv with rfl | rfl | rfl <;>
        norm_num [inBox, Vec3.splat, FLT_MAX, Model.worldPos, triangleModel, Mat4.mulVec,
          Mat4.identity, Vec4.add, Vec4.smul, Vec4.ofVec3, Vec4.xyz])).2.2.2.2.2.2.2
    ⟨⟨1, 0, 0⟩⟩ (by simp [Model.allVertices, triangleModel])

/-- C17, evaluation at the failing input.  A model holding one mesh without vertices
has no vertex, but `meshes.empty()` is false and the loops leave their start values:
`GetBoundingBoxMin()` is `(FLT_MAX, FLT_MAX, FLT_MAX)`, `GetBoundingBoxMax()` is
`(-FLT_MAX, -FLT_MAX, -FLT_MAX)`, the two differ and the bounding radius exceeds
`FLT_MAX`. -/
theorem Model.empty_mesh_bounds_unbounded :
    (emptyMeshModel : Model ℝ).allVertices = [] ∧
      (emptyMeshModel : Model ℝ).GetBoundingBoxMin = Vec3.splat FLT_MAX ∧
      (emptyMeshModel : Model ℝ).GetBoundingBoxMax = Vec3.splat (-FLT_MAX) ∧
      (emptyMeshModel : Model ℝ).GetBoundingBoxMin ≠ (emptyMeshModel : Model ℝ).GetBoundingBoxMax ∧
      FLT_MAX < (emptyMeshModel : Model ℝ).GetBoundingSphereRadius := by
  have hlo : (emptyMeshModel : Model ℝ).GetBoundingBoxMin = Vec3.splat FLT_MAX := by
    simp [emptyMeshModel, Model.GetBoundingBoxMin, Model.allVertices]
  have hhi : (emptyMeshModel : Model ℝ).GetBoundingBoxMax = Vec3.splat (-FLT_MAX) := by
    simp [emptyMeshModel, Model.GetBoundingBoxMax, Model.allVertices]
  refine ⟨by simp [emptyMeshModel, Model.allVertices], hlo, hhi, ?_, ?_⟩
  · rw [hlo, hhi]
    simp only [Vec3.splat, FLT_MAX, ne_eq, Vec3.mk.injEq, not_and]
    norm_num
  · simp only [Model.GetBoundingSphereRadius, hlo, hhi, Vec3.length, sqrt_real]
    rw [Real.lt_sqrt (by norm_num [FLT_MAX])]
    simp only [Vec3.splat, Vec3.add, Vec3.smul, Vec3.sub, Vec3.dot, FLT_MAX]
    norm_num

/-- C18, evaluation at the failing input.  After nine mesh-less models were added at the
origin, the split of the root has moved model 0 into the leaf child 0, centre
`(-250, -250, -250)` and size 500, which it does not fit: its distance to the centre
plus its radius exceeds the half-size 250. -/
theorem Scene.leaf_fit_fails_after_split :
    ∃ tree leaf,
      (Scene.addModels (originHeap : ModelPtr → Model ℝ) [0, 1, 2, 3, 4, 5, 6, 7, 8]).octree
        = some tree ∧
      leaf ∈ tree.nodes ∧ leaf.isLeaf = true ∧ (0 : ModelPtr) ∈ leaf.models ∧
      ¬ (Vec3.distance ((originHeap : ModelPtr → Model ℝ) 0).GetPosition leaf.center
          + (originHeap 0).GetBoundingSphereRadius ≤ leaf.size * 0.5) := by
  refine ⟨_, _, originHeap_tree, Scene.split_child_mem_nodes _ _ _ _ _ 0 (by norm_num), rfl,
    ?_, ?_⟩
  · simp [OctreeNode.models, childIndex, originHeap, pointModel, Model.GetPosition, Vec3.sub]
  · have h := origin_far_from_children 0
    show ¬ (Vec3.distance ((originHeap : ModelPtr → Model ℝ) 0).GetPosition
        (makeChild ⟨0, 0, 0⟩ (1000 * 0.5) 0).center
      + (originHeap 0).GetBoundingSphereRadius ≤ 1000 * 0.5 * 0.5)
    simp only [originHeap, pointModel_radius, Model.GetPosition, not_le]
    simp only [pointModel]
    linarith

/-- C19, evaluation at the failing input.  After nine segment models were added at
`(250, 250, 250)`, the split of the root has moved all nine into the leaf child 7, which
holds nine models although its half-size 250 (size 500) is above the minimum 10. -/
theorem Scene.leaf_over_capacity_after_split :
    ∃ tree leaf,
      (Scene.addModels (octantHeap : ModelPtr → Model ℝ) [0, 1, 2, 3, 4, 5, 6, 7, 8]).octree
        = some tree ∧
      leaf ∈ tree.nodes ∧ leaf.isLeaf = true ∧ leaf.models.length = 9 ∧
      10 < leaf.size * 0.5 := by
  refine ⟨_, _, octantHeap_tree, Scene.split_child_mem_nodes _ _ _ _ _ 7 (by norm_num), rfl,
    ?_, ?_⟩
  · simp [OctreeNode.models, octantHeap_childIndex]
  · simp only [OctreeNode.size]
    norm_num

/-- C20.  Interior nodes hold no objects: in every scene state reached from a fresh scene
by `AddModel` and `RemoveModel` calls the octree exists, and every interior (non-leaf)
node of it has an empty model list and a child in each of its eight slots. -/
theorem Scene.interior_nodes_hold_no_models [HasSqrt α] (heap : ModelPtr → Model α)
    (ops : List SceneOp) (hops : noClear ops) :
    ∃ tree, (Scene.run heap ops).octree = some tree ∧
      ∀ node ∈ tree.nodes, node.isLeaf = false →
        node.models = [] ∧ ∀ i, i < 8 → ∃ child, node.children.get? i = some child :=
  ⟨_, Scene.run_octree heap ops hops, Scene.interiorOk_foldl_insert heap _⟩

/-- C20, witness: models 0 and 1 added, model 0 removed, model 2 added. -/
theorem Scene.interior_nodes_hold_no_models_witness :
    ∃ tree, (Scene.run (octantHeap : ModelPtr → Model ℝ)
        [.addModel 0, .addModel 1, .removeModel 0, .addModel 2]).octree = some tree ∧
      ∀ node ∈ tree.nodes, node.isLeaf = false →
        node.models = [] ∧ ∀ i, i < 8 → ∃ child, node.children.get? i = some child :=
  Scene.interior_nodes_hold_no_models octantHeap
    [.addModel 0, .addModel 1, .removeModel 0, .addModel 2] (by decide)


/-- C21, counterexample.  The leaf `smallLeaf` has size 15.625, so its half-size 7.8125 is at
most 10, and holds eight models; inserting a ninth model that fits it splits the leaf:
the result is the split of the nine-model leaf, an interior node. -/
theorem Scene.InsertModelInOctree_split_threshold_fails :
    (smallLeaf : OctreeNode ℝ).isLeaf = true ∧
      (smallLeaf : OctreeNode ℝ).size * 0.5 ≤ 10 ∧
      Scene.InsertModelInOctree (originHeap : ModelPtr → Model ℝ) 8 smallLeaf
        = Scene.SplitOctreeNode originHeap
            (.mk ⟨0, 0, 0⟩ 15.625 [0, 1, 2, 3, 4, 5, 6, 7, 8] ChildArray.empty8 true) ∧
      (Scene.InsertModelInOctree (originHeap : ModelPtr → Model ℝ) 8 smallLeaf).isLeaf
        = false := by
  have h : Scene.InsertModelInOctree (originHeap : ModelPtr → Model ℝ) 8 smallLeaf
      = Scene.SplitOctreeNode originHeap
          (.mk ⟨0, 0, 0⟩ 15.625 [0, 1, 2, 3, 4, 5, 6, 7, 8] ChildArray.empty8 true) := by
    rw [smallLeaf, Scene.insert_leaf_split _ _ _ _ _ _ (originHeap_fits_smallLeaf 8)
      ⟨by simp, by norm_num⟩]
    rfl
  refine ⟨rfl, ?_, h, ?_⟩
  · simp only [smallLeaf, OctreeNode.size]
    norm_num
  · rw [h, Scene.split_isLeaf]

/-- C21, amended.  Split threshold: `InsertModelInOctree` turns a leaf into an interior node
exactly when the model fits the leaf, the leaf holds more than 8 models after the model
was added, and the size of the leaf (its full edge length, twice the half-size) exceeds
10; the result is then `SplitOctreeNode` of the leaf with the model added.  A leaf whose
size is at most 10 (half-size at most 5) is never split. -/
theorem Scene.InsertModelInOctree_split_threshold [HasSqrt α] (heap : ModelPtr → Model α)
    (m : ModelPtr) (c : Vec3 α) (s : α) (ms : List ModelPtr) (cs : ChildArray α) :
    ((Scene.InsertModelInOctree heap m (.mk c s ms cs true)).isLeaf = false ↔
        Fits heap m c s ∧ (ms ++ [m]).length > 8 ∧ s > 10) ∧
      (Fits heap m c s → (ms ++ [m]).length > 8 → s > 10 →
        Scene.InsertModelInOctree heap m (.mk c s ms cs true)
          = Scene.SplitOctreeNode heap (.mk c s (ms ++ [m]) cs true)) ∧
      (s ≤ 10 → (Scene.InsertModelInOctree heap m (.mk c s ms cs true)).isLeaf = true) := by
  have key : (Scene.InsertModelInOctree heap m (.mk c s ms cs true)).isLeaf = false ↔
      Fits heap m c s ∧ (ms ++ [m]).length > 8 ∧ s > 10 := by
    by_cases hfit : Fits heap m c s
    · by_cases hsplit : (ms ++ [m]).length > 8 ∧ s > 10
      · rw [Scene.insert_leaf_split heap m c s ms cs hfit hsplit, Scene.split_isLeaf]
        exact ⟨fun _ => ⟨hfit, hsplit⟩, fun _ => rfl⟩
      · rw [Scene.insert_leaf heap m c s ms cs hfit hsplit]
        simp only [OctreeNode.isLeaf]
        exact ⟨fun h => absurd h (by simp), fun h => absurd h.2 hsplit⟩
    · rw [Scene.insert_of_not_fits heap m c s ms cs true hfit]
      simp only [OctreeNode.isLeaf]
      exact ⟨fun h => absurd h (by simp), fun h => absurd h.1 hfit⟩
  refine ⟨key, fun hfit h1 h2 => Scene.insert_leaf_split heap m c s ms cs hfit ⟨h1, h2⟩, ?_⟩
  intro hs
  cases hl : (Scene.InsertModelInOctree heap m (.mk c s ms cs true)).isLeaf with
  | true => rfl
  | false => exact absurd (key.1 hl).2.2 (not_lt.2 hs)

/-- C21, witness: the ninth model at the origin inserted into `smallLeaf`. -/
theorem Scene.InsertModelInOctree_split_threshold_witness :
    (Scene.InsertModelInOctree (originHeap : ModelPtr → Model ℝ) 8 smallLeaf).isLeaf = false :=
  (Scene.InsertModelInOctree_split_threshold originHeap 8 ⟨0, 0, 0⟩ 15.625
    [0, 1, 2, 3, 4, 5, 6, 7] ChildArray.empty8).1.2
    ⟨originHeap_fits_smallLeaf 8, by simp, by norm_num⟩

/-- C22.  Split redistributes without loss: `SplitOctreeNode` applied to a leaf with centre
`c`, size `s` and model list `L` yields an interior node with the same centre and size,
an empty model list and exactly eight children (slots 0 to 7, none beyond).  Child `j` is
a leaf of size `s / 2` whose centre is `c` moved by `s / 4` along each axis, forward iff
the bit of that axis is set in `j`, and whose list holds the models of `L` with child
index `j`, in the order of `L`; the concatenation of the eight lists is a permutation of
`L`. -/
theorem Scene.SplitOctreeNode_redistributes (heap : ModelPtr → Model α) (c : Vec3 α) (s : α)
    (L : List ModelPtr) (cs : ChildArray α) :
    ∃ children,
      Scene.SplitOctreeNode heap (.mk c s L cs true) = .mk c s [] children false ∧
      (∀ j, j < 8 → children.get? j = some (.mk
        ⟨c.x + (if j.testBit 0 then s / 4 else -(s / 4)),
         c.y + (if j.testBit 1 then s / 4 else -(s / 4)),
         c.z + (if j.testBit 2 then s / 4 else -(s / 4))⟩
        (s / 2)
        (L.filter (fun m => childIndex (Vec3.sub (heap m).GetPosition c) = j))
        ChildArray.empty8 true)) ∧
      (∀ j, 8 ≤ j → children.get? j = none) ∧
      List.Perm ((List.range 8).flatMap (fun j =>
        L.filter (fun m => childIndex (Vec3.sub (heap m).GetPosition c) = j))) L := by
  refine ⟨_, Scene.split_eq heap c s L cs, ?_, ?_, ?_⟩
  · intro j hj
    rw [Scene.get?_split heap c s L cs j hj, makeChild_center c s j hj]
    have : s * 0.5 = s / 2 := by
      rw [show (0.5 : α) = 1 / 2 by norm_num]
      ring
    rw [this]
  · intro j hj
    exact Scene.get?_split_of_ge heap c s L cs j hj
  · exact perm_flatMap_filter_range8 _ L (fun m => childIndex_lt _)

/-- C23, counterexample.  The root split by nine segment models at `(250, 250, 250)` is an
interior node that the mesh-less model 9 at the origin fits; the child selected for it,
child 0, does not fit it.  After `InsertModelInOctree` model 9 is neither in the model
list of the current node nor anywhere else in the tree. -/
theorem Scene.InsertModelInOctree_discards_unfit_fails :
    (Scene.SplitOctreeNode (mixedHeap : ModelPtr → Model ℝ)
        (.mk ⟨0, 0, 0⟩ 1000 [0, 1, 2, 3, 4, 5, 6, 7, 8] ChildArray.empty8 true)).isLeaf = false ∧
      Fits (mixedHeap : ModelPtr → Model ℝ) 9 ⟨0, 0, 0⟩ 1000 ∧
      (∃ child, (Scene.SplitOctreeNode (mixedHeap : ModelPtr → Model ℝ)
          (.mk ⟨0, 0, 0⟩ 1000 [0, 1, 2, 3, 4, 5, 6, 7, 8] ChildArray.empty8 true)).children.get?
            (childIndex (Vec3.sub ((mixedHeap : ModelPtr → Model ℝ) 9).GetPosition ⟨0, 0, 0⟩))
          = some child ∧
        ¬ Fits (mixedHeap : ModelPtr → Model ℝ) 9 child.center child.size) ∧
      (9 : ModelPtr) ∉ (Scene.InsertModelInOctree (mixedHeap : ModelPtr → Model ℝ) 9
        (Scene.SplitOctreeNode mixedHeap
          (.mk ⟨0, 0, 0⟩ 1000 [0, 1, 2, 3, 4, 5, 6, 7, 8] ChildArray.empty8 true))).models ∧
      (9 : ModelPtr) ∉ (Scene.InsertModelInOctree (mixedHeap : ModelPtr → Model ℝ) 9
        (Scene.SplitOctreeNode mixedHeap
          (.mk ⟨0, 0, 0⟩ 1000 [0, 1, 2, 3, 4, 5, 6, 7, 8] ChildArray.empty8 true))).allModels := by
  have hidx : childIndex (Vec3.sub ((mixedHeap : ModelPtr → Model ℝ) 9).GetPosition ⟨0, 0, 0⟩)
      = 0 := by
    simp [childIndex, mixedHeap, pointModel, Model.GetPosition, Vec3.sub]
  have hget := Scene.get?_split (mixedHeap : ModelPtr → Model ℝ) ⟨0, 0, 0⟩ 1000
    [0, 1, 2, 3, 4, 5, 6, 7, 8] ChildArray.empty8 0 (by norm_num)
  have hsame : Scene.InsertModelInOctree (mixedHeap : ModelPtr → Model ℝ) 9
      (Scene.SplitOctreeNode mixedHeap
        (.mk ⟨0, 0, 0⟩ 1000 [0, 1, 2, 3, 4, 5, 6, 7, 8] ChildArray.empty8 true))
      = Scene.SplitOctreeNode mixedHeap
        (.mk ⟨0, 0, 0⟩ 1000 [0, 1, 2, 3, 4, 5, 6, 7, 8] ChildArray.empty8 true) := by
    rw [Scene.split_eq, Scene.insert_inner _ _ _ _ _ _ (mixedHeap_fits_root 9), hidx,
      ChildArray.insertInChild_eq_self _ _ _ 0 _ hget
        (Scene.insert_of_not_fits _ _ _ _ _ _ _ mixedHeap_not_fits_child)]
  have hstored : (9 : ModelPtr) ∉ (Scene.SplitOctreeNode (mixedHeap : ModelPtr → Model ℝ)
      (.mk ⟨0, 0, 0⟩ 1000 [0, 1, 2, 3, 4, 5, 6, 7, 8] ChildArray.empty8 true)).allModels := by
    intro h
    have := Scene.mem_allModels_split _ _ _ _ _ _ h
    simp at this
  refine ⟨Scene.split_isLeaf _ _ _ _ _, mixedHeap_fits_root 9, ?_, ?_, ?_⟩
  · rw [hidx]
    exact ⟨_, hget, mixedHeap_not_fits_child⟩
  · rw [hsame, Scene.split_eq]
    simp [OctreeNode.models]
  · rw [hsame]
    exact hstored

/-- C23, amended.  Too-large objects are discarded: when `InsertModelInOctree` reaches an
interior node that the model fits, and the model does not fit the child in the selected
slot (distance to the centre of the child plus radius exceeds half the size of the
child), the tree is left unchanged: the model is stored neither at the current node nor
in the child. -/
theorem Scene.InsertModelInOctree_discards_unfit [HasSqrt α] (heap : ModelPtr → Model α)
    (m : ModelPtr) (c : Vec3 α) (s : α) (ms : List ModelPtr) (cs : ChildArray α)
    (child : OctreeNode α) (hfit : Fits heap m c s)
    (hget : cs.get? (childIndex (Vec3.sub (heap m).GetPosition c)) = some child)
    (hchild : ¬ Fits heap m child.center child.size) :
    Scene.InsertModelInOctree heap m (.mk c s ms cs false) = .mk c s ms cs false := by
  rw [Scene.insert_inner heap m c s ms cs hfit]
  have hsame : Scene.InsertModelInOctree heap m child = child := by
    cases child with
    | mk c1 s1 ms1 cs1 l1 => exact Scene.insert_of_not_fits heap m c1 s1 ms1 cs1 l1 hchild
  rw [ChildArray.insertInChild_eq_self heap m cs _ child hget hsame]

/-- C23, witness: the mesh-less model at the origin and an interior root with eight fresh
children. -/
theorem Scene.InsertModelInOctree_discards_unfit_witness :
    Scene.InsertModelInOctree (mixedHeap : ModelPtr → Model ℝ) 9
        (.mk ⟨0, 0, 0⟩ 1000 [] (makeChildren ⟨0, 0, 0⟩ (1000 * 0.5)) false)
      = .mk ⟨0, 0, 0⟩ 1000 [] (makeChildren ⟨0, 0, 0⟩ (1000 * 0.5)) false :=
  Scene.InsertModelInOctree_discards_unfit mixedHeap 9 ⟨0, 0, 0⟩ 1000 []
    (makeChildren ⟨0, 0, 0⟩ (1000 * 0.5)) (makeChild ⟨0, 0, 0⟩ (1000 * 0.5) 0)
    (mixedHeap_fits_root 9)
    (by
      have hidx : childIndex (Vec3.sub ((mixedHeap : ModelPtr → Model ℝ) 9).GetPosition
          ⟨0, 0, 0⟩) = 0 := by
        simp [childIndex, mixedHeap, pointModel, Model.GetPosition, Vec3.sub]
      rw [hidx]
      rfl)
    (by
      have h := mixedHeap_not_fits_child
      simpa [makeChild, OctreeNode.size] using h)

/-- C24, counterexample.  Child 0 of the root split by nine models at the origin has size
500 (half-size 250) and its centre is at distance `250 * sqrt 3` from the origin, so the
query at the origin with radius 0 is within `radius + halfSize * sqrt 3` of it, and model
0 passes the sphere test of the leaf; the node is pruned all the same and the query
returns nothing. -/
theorem Scene.QueryOctree_prune_threshold_fails :
    Vec3.distance (⟨0, 0, 0⟩ : Vec3 ℝ) (makeChild ⟨0, 0, 0⟩ (1000 * 0.5) 0).center
        ≤ 0 + (1000 * 0.5) * 0.5 * HasSqrt.sqrt 3 ∧
      Vec3.distance (⟨0, 0, 0⟩ : Vec3 ℝ) ((originHeap : ModelPtr → Model ℝ) 0).GetPosition
        ≤ 0 + (originHeap 0).GetBoundingSphereRadius ∧
      Scene.QueryOctree (originHeap : ModelPtr → Model ℝ) ⟨0, 0, 0⟩ 0
        (.mk (makeChild ⟨0, 0, 0⟩ (1000 * 0.5) 0).center (1000 * 0.5)
          [0, 1, 2, 3, 4, 5, 6, 7, 8] ChildArray.empty8 true) = [] := by
  refine ⟨?_, ?_, ?_⟩
  · have hsq : Vec3.dot (Vec3.sub (makeChild (⟨0, 0, 0⟩ : Vec3 ℝ) (1000 * 0.5) 0).center ⟨0, 0, 0⟩)
        (Vec3.sub (makeChild (⟨0, 0, 0⟩ : Vec3 ℝ) (1000 * 0.5) 0).center ⟨0, 0, 0⟩) = 187500 := by
      simp only [makeChild, OctreeNode.center, Vec3.sub, Vec3.add, Vec3.dot]
      split_ifs <;> norm_num
    simp only [Vec3.distance, Vec3.length, sqrt_real, hsq]
    rw [Real.sqrt_le_iff]
    refine ⟨by positivity, ?_⟩
    rw [zero_add, mul_pow, Real.sq_sqrt (by norm_num)]
    norm_num
  · simp only [originHeap, pointModel_radius, Model.GetPosition]
    simp only [pointModel, Vec3.distance_self]
    norm_num
  · rw [Scene.QueryOctree, if_pos (origin_far_from_children 0)]

/-- C24, amended.  Pruning in radius queries: `QueryOctree` discards a node together with its
subtree exactly when the distance from the query position to the centre of the node
exceeds `radius + size / 2` (the half-size, without a factor `sqrt 3`); a node within
that distance is searched: a leaf returns its models that pass the sphere test, an
interior node the results of its children. -/
theorem Scene.QueryOctree_prune_threshold [HasSqrt α] (heap : ModelPtr → Model α)
    (p : Vec3 α) (r : α) (c : Vec3 α) (s : α) (ms : List ModelPtr) (cs : ChildArray α)
    (l : Bool) :
    (Vec3.distance p c > r + s * 0.5 → Scene.QueryOctree heap p r (.mk c s ms cs l) = []) ∧
      (Vec3.distance p c ≤ r + s * 0.5 →
        Scene.QueryOctree heap p r (.mk c s ms cs l)
          = if l then ms.filter (fun model =>
                decide (Vec3.distance p (heap model).GetPosition
                  ≤ r + (heap model).GetBoundingSphereRadius))
            else Scene.queryChildren heap p r cs) := by
  constructor
  · intro h
    rw [Scene.QueryOctree, if_pos h]
  · intro h
    rw [Scene.QueryOctree, if_neg (not_lt.2 h)]

/-- C24, witness: the query at the origin with radius 0 on child 0 of the split root. -/
theorem Scene.QueryOctree_prune_threshold_witness :
    Scene.QueryOctree (originHeap : ModelPtr → Model ℝ) ⟨0, 0, 0⟩ 0
        (.mk (makeChild ⟨0, 0, 0⟩ (1000 * 0.5) 0).center (1000 * 0.5)
          [0, 1, 2, 3, 4, 5, 6, 7, 8] ChildArray.empty8 true) = [] :=
  (Scene.QueryOctree_prune_threshold originHeap ⟨0, 0, 0⟩ 0
    (makeChild ⟨0, 0, 0⟩ (1000 * 0.5) 0).center (1000 * 0.5) [0, 1, 2, 3, 4, 5, 6, 7, 8]
    ChildArray.empty8 true).1 (origin_far_from_children 0)

/-- C25.  Child selection agrees with child placement: for a node with centre `c` and size
`s` subdivided by `SplitOctreeNode` and a point `p` in the cube of the node
(`|p_k - c_k| <= s / 2` on each axis), the child index computed from `p - c` has bit 0
set iff `p.x > c.x`, bit 1 iff `p.y > c.y`, bit 2 iff `p.z > c.z`, and the slot it
designates holds a child of size `s / 2` whose cube contains `p`. -/
theorem Scene.childIndex_selects_containing_child (heap : ModelPtr → Model α) (c : Vec3 α)
    (s : α) (L : List ModelPtr) (cs : ChildArray α) (p : Vec3 α)
    (hx : |p.x - c.x| ≤ s / 2) (hy : |p.y - c.y| ≤ s / 2) (hz : |p.z - c.z| ≤ s / 2) :
    (((childIndex (Vec3.sub p c)).testBit 0 = true ↔ p.x > c.x) ∧
      ((childIndex (Vec3.sub p c)).testBit 1 = true ↔ p.y > c.y) ∧
      ((childIndex (Vec3.sub p c)).testBit 2 = true ↔ p.z > c.z)) ∧
    ∃ child,
      (Scene.SplitOctreeNode heap (.mk c s L cs true)).children.get?
        (childIndex (Vec3.sub p c)) = some child ∧
      child.size = s / 2 ∧
      |p.x - child.center.x| ≤ child.size / 2 ∧ |p.y - child.center.y| ≤ child.size / 2 ∧
      |p.z - child.center.z| ≤ child.size / 2 := by
  obtain ⟨a0, a1, a2⟩ := childIndex_testBit (Vec3.sub p c)
  have b0 : (childIndex (Vec3.sub p c)).testBit 0 = true ↔ p.x > c.x :=
    a0.trans (by simp [Vec3.sub])
  have b1 : (childIndex (Vec3.sub p c)).testBit 1 = true ↔ p.y > c.y :=
    a1.trans (by simp [Vec3.sub])
  have b2 : (childIndex (Vec3.sub p c)).testBit 2 = true ↔ p.z > c.z :=
    a2.trans (by simp [Vec3.sub])
  refine ⟨⟨b0, b1, b2⟩, _, Scene.get?_split heap c s L cs _ (childIndex_lt _), ?_, ?_⟩
  · simp only [OctreeNode.size]
    rw [show (0.5 : α) = 1 / 2 by norm_num]
    ring
  · rw [makeChild_center c s _ (childIndex_lt _)]
    simp only [OctreeNode.center, OctreeNode.size]
    have hs : s * 0.5 / 2 = s / 4 := by
      rw [show (0.5 : α) = 1 / 2 by norm_num]
      ring
    rw [hs]
    obtain ⟨hx1, hx2⟩ := abs_le.1 hx
    obtain ⟨hy1, hy2⟩ := abs_le.1 hy
    obtain ⟨hz1, hz2⟩ := abs_le.1 hz
    refine ⟨?_, ?_, ?_⟩
    · by_cases h : p.x > c.x
      · rw [if_pos (b0.2 h), abs_le]; constructor <;> linarith
      · rw [if_neg (fun hh => h (b0.1 hh)), abs_le]; constructor <;> linarith
    · by_cases h : p.y > c.y
      · rw [if_pos (b1.2 h), abs_le]; constructor <;> linarith
      · rw [if_neg (fun hh => h (b1.1 hh)), abs_le]; constructor <;> linarith
    · by_cases h : p.z > c.z
      · rw [if_pos (b2.2 h), abs_le]; constructor <;> linarith
      · rw [if_neg (fun hh => h (b2.1 hh)), abs_le]; constructor <;> linarith

/-- C25, witness: the root cube of size 1000 and the point `(100, -100, 0)`. -/
theorem Scene.childIndex_selects_containing_child_witness :
    (|(100 : ℚ) - 0| ≤ 1000 / 2 ∧ |(-100 : ℚ) - 0| ≤ 1000 / 2 ∧ |(0 : ℚ) - 0| ≤ 1000 / 2) ∧
    (((childIndex (Vec3.sub (⟨100, -100, 0⟩ : Vec3 ℚ) ⟨0, 0, 0⟩)).testBit 0 = true
          ↔ (100 : ℚ) > 0) ∧
      ((childIndex (Vec3.sub (⟨100, -100, 0⟩ : Vec3 ℚ) ⟨0, 0, 0⟩)).testBit 1 = true
          ↔ (-100 : ℚ) > 0) ∧
      ((childIndex (Vec3.sub (⟨100, -100, 0⟩ : Vec3 ℚ) ⟨0, 0, 0⟩)).testBit 2 = true
          ↔ (0 : ℚ) > 0)) ∧
    ∃ child,
      (Scene.SplitOctreeNode (originHeap : ModelPtr → Model ℚ)
          (.mk ⟨0, 0, 0⟩ 1000 [] ChildArray.empty8 true)).children.get?
        (childIndex (Vec3.sub (⟨100, -100, 0⟩ : Vec3 ℚ) ⟨0, 0, 0⟩)) = some child ∧
      child.size = 1000 / 2 ∧
      |(100 : ℚ) - child.center.x| ≤ child.size / 2 ∧
      |(-100 : ℚ) - child.center.y| ≤ child.size / 2 ∧
      |(0 : ℚ) - child.center.z| ≤ child.size / 2 :=
  ⟨⟨by norm_num [abs_le], by norm_num [abs_le], by norm_num [abs_le]⟩,
    Scene.childIndex_selects_containing_child originHeap ⟨0, 0, 0⟩ 1000 [] ChildArray.empty8
      ⟨100, -100, 0⟩ (by norm_num [abs_le]) (by norm_num [abs_le]) (by norm_num [abs_le])⟩

/-- C26.  Subdivision is bounded: in every scene state reached from a fresh scene by
`AddModel` and `RemoveModel` calls, for any store of models, the octree exists and is
sized by depth: the root has size 1000, the children of a node at depth `d` are at depth
`d + 1` with half its size, and no depth exceeds 7.  Every node has size `1000 / 2^d`
for some `d <= 7`, hence a size above 5.  The trees are finite and of height at most 7,
and `InsertModelInOctree` and `QueryOctree` are total functions on them. -/
theorem Scene.subdivision_bounded [HasSqrt α] (heap : ModelPtr → Model α)
    (ops : List SceneOp) (hops : noClear ops) :
    ∃ tree, (Scene.run heap ops).octree = some tree ∧ SizeAt 0 tree ∧
      ∀ node ∈ tree.nodes, (∃ d, d ≤ 7 ∧ node.size = 1000 / 2 ^ d) ∧ 5 < node.size := by
  refine ⟨_, Scene.run_octree heap ops hops, sizeAt_foldl_insert heap _, ?_⟩
  intro node hnode
  obtain ⟨d, hd, hs⟩ := sizeAt_nodes _ 0 (sizeAt_foldl_insert heap _) node hnode
  refine ⟨⟨d, hd, hs⟩, ?_⟩
  rw [hs]
  have hpow : (2 : α) ^ d ≤ 2 ^ 7 := pow_le_pow_right₀ (by norm_num) hd
  have hpos : (0 : α) < 2 ^ d := by positivity
  rw [lt_div_iff₀ hpos]
  norm_num at hpow
  linarith

/-- C26, witness: models 0 and 1 added, model 0 removed, model 2 added. -/
theorem Scene.subdivision_bounded_witness :
    noClear [.addModel 0, .addModel 1, .removeModel 0, .addModel 2] ∧
    ∃ tree, (Scene.run (originHeap : ModelPtr → Model ℝ)
        [.addModel 0, .addModel 1, .removeModel 0, .addModel 2]).octree = some tree ∧
      SizeAt 0 tree ∧
      ∀ node ∈ tree.nodes, (∃ d, d ≤ 7 ∧ node.size = 1000 / 2 ^ d) ∧ 5 < node.size :=
  ⟨by decide, Scene.subdivision_bounded originHeap
    [.addModel 0, .addModel 1, .removeModel 0, .addModel 2] (by decide)⟩

/-- C27.  The index never outlives the registry: in every scene state reached from a fresh
scene by `AddModel`, `RemoveModel` and `Clear` calls, every model returned by
`GetModelsNear`, for any position and radius, is an element of `GetModels()`, and every
model held anywhere in the octree, if there is one, is an element of `GetModels()`. -/
theorem Scene.index_within_registry [HasSqrt α] (heap : ModelPtr → Model α)
    (ops : List SceneOp) :
    (∀ p r, ∀ x ∈ (Scene.run heap ops).GetModelsNear heap p r,
        x ∈ (Scene.run heap ops).GetModels) ∧
      ∀ tree, (Scene.run heap ops).octree = some tree →
        ∀ x ∈ tree.allModels, x ∈ (Scene.run heap ops).GetModels := by
  have h := Scene.run_allModels_subset heap ops
  refine ⟨?_, h⟩
  intro p r x hx
  unfold Scene.GetModelsNear at hx
  cases ho : (Scene.run heap ops).octree with
  | none => simp [ho] at hx
  | some tree =>
    rw [ho] at hx
    exact h tree ho x (Scene.QueryOctree_subset_allModels heap p r x tree hx)

/-- C28.  `Clear()` disables spatial indexing: after `Clear()` the octree root is absent, and
after any sequence of `AddModel` calls that follows `GetModelsNear` returns the empty
list for every position and radius, while `GetModels()` is the list of the added
models. -/
theorem Scene.Clear_disables_index [HasSqrt α] (heap : ModelPtr → Model α) (s : Scene α)
    (ms : List ModelPtr) (p : Vec3 α) (r : α) :
    s.Clear.octree = none ∧
      (ms.foldl (Scene.AddModel heap) s.Clear).GetModelsNear heap p r = [] ∧
      (ms.foldl (Scene.AddModel heap) s.Clear).GetModels = ms := by
  obtain ⟨h1, h2⟩ := Scene.foldl_AddModel_of_no_octree heap ms s.Clear rfl
  refine ⟨rfl, ?_, ?_⟩
  · simp [Scene.GetModelsNear, h1]
  · rw [Scene.GetModels, h2]
    simp [Scene.Clear]

/-- C29, evaluation at the failing input.  The triangle model has the vertex `(1, 1, 0)`,
which its identity transform leaves in place, at distance `sqrt 2` from `GetPosition()`,
the origin, while `GetBoundingSphereRadius()` is `sqrt (1 / 2)`: the vertex is outside the
sphere the octree uses.  The model is registered, yet `GetModelsNear` at that vertex with
radius `1 / 2` returns nothing. -/
theorem Model.octree_sphere_misses_vertex :
    (⟨⟨1, 1, 0⟩⟩ : Vertex ℝ) ∈ (triangleModel : Model ℝ).allVertices ∧
      (triangleModel : Model ℝ).GetBoundingSphereRadius
        < Vec3.distance (triangleModel : Model ℝ).GetPosition
            ((triangleModel : Model ℝ).worldPos ⟨⟨1, 1, 0⟩⟩) ∧
      (triangleModel : Model ℝ).worldPos ⟨⟨1, 1, 0⟩⟩ = ⟨1, 1, 0⟩ ∧
      (0 : ModelPtr) ∈ (Scene.addModels (triangleHeap : ModelPtr → Model ℝ) [0]).GetModels ∧
      (Scene.addModels (triangleHeap : ModelPtr → Model ℝ) [0]).GetModelsNear triangleHeap
        ⟨1, 1, 0⟩ (1 / 2) = [] := by
  have hr := triangleModel_radius
  have hd := triangleModel_far_vertex
  have h1 := sqrt_half_lt
  have h2 := lt_sqrt_two
  refine ⟨by simp [Model.allVertices, triangleModel], ?_, ?_, ?_, ?_⟩
  · rw [hr, hd]; linarith
  · simp [Model.worldPos, triangleModel, Mat4.mulVec, Mat4.identity, Vec4.add, Vec4.smul,
      Vec4.ofVec3, Vec4.xyz]
  · simp [Scene.addModels, Scene.AddModel, Scene.new, Scene.GetModels]
  · have hfit : Fits (triangleHeap : ModelPtr → Model ℝ) 0 ⟨0, 0, 0⟩ 1000 := by
      simp only [Fits, triangleHeap, hr, Model.GetPosition]
      simp only [triangleModel, Vec3.distance_self]
      linarith
    have hpos : Vec3.distance (⟨1, 1, 0⟩ : Vec3 ℝ) ⟨0, 0, 0⟩ = Real.sqrt 2 := by
      simp only [Vec3.distance, Vec3.length, sqrt_real, Vec3.dot, Vec3.sub]
      norm_num
    have h3 : Real.sqrt 2 ≤ 2 := by
      rw [Real.sqrt_le_left (by norm_num)]
      norm_num
    simp only [Scene.GetModelsNear, (Scene.addModels_octree triangleHeap [0]).1,
      List.foldl_cons, List.foldl_nil, Scene.freshRoot]
    rw [Scene.insert_leaf triangleHeap 0 _ _ _ _ hfit (by simp), Scene.QueryOctree,
      if_neg (by rw [hpos]; linarith), if_pos rfl]
    simp only [List.nil_append, List.filter_cons, List.filter_nil, triangleHeap, hr,
      Model.GetPosition]
    have hp2 : Vec3.distance (⟨1, 1, 0⟩ : Vec3 ℝ) (triangleModel : Model ℝ).position
        = Real.sqrt 2 := hpos
    rw [hp2, if_neg]
    simp only [decide_eq_true_eq, not_le]
    linarith

/-- C30, evaluation at the failing inputs.  The index list built by `GenerateGeometry` is
index-safe exactly when the floor count is at least 2.  With a floor count of 0 or 1 (or
a negative one), whatever the size and height, the call builds 20 vertices and the index
list contains 23. -/
theorem Building.GenerateGeometry_indexSafe_iff (b : Building α) :
    (b.GenerateGeometry.IndexSafe ↔ 2 ≤ b.floorCount) ∧
      (b.floorCount ≤ 1 →
        b.GenerateGeometry.vertices.length = 20 ∧ 23 ∈ b.GenerateGeometry.indices) := by
  have hlow : b.floorCount ≤ 1 →
      b.GenerateGeometry.vertices.length = 20 ∧ 23 ∈ b.GenerateGeometry.indices := by
    intro h
    rw [Building.GenerateGeometry, Building.AddWindows_of_le_one b _ h]
    refine ⟨rfl, ?_⟩
    show 23 ∈ Building.boxIndices
    decide
  refine ⟨⟨?_, ?_⟩, hlow⟩
  · intro hsafe
    by_contra hlt
    obtain ⟨hlen, hmem⟩ := hlow (by omega)
    have := hsafe 23 hmem
    omega
  · intro h2 i hi
    have hext := Building.AddWindows_extends b
      { vertices := Building.boxVertices b, indices := Building.boxIndices }
    rcases hext.2 i hi with h | h
    · have h24 := Building.mem_boxIndices i h
      have hlen : (Building.GenerateGeometry b).vertices.length
          = 20 + 120 * (b.floorCount - 1).toNat := hext.1
      have : 1 ≤ (b.floorCount - 1).toNat := by omega
      omega
    · exact h

end SolarSim
